import Mathlib

/-!
Tiqiaa Tview USB IR transceiver driver.

A shallow embedding of `src/TiqiaaUsb.cpp` / `src/TiqiaaUsb.h` and theorems about it.

Conventions of the embedding:

* `uint8_t` values are natural numbers; every store of an `int` expression into a
  `uint8_t` is written with an explicit `% 256`.
* `int` variables are integers (`Int`).  In the encoder `WriteIrNecSignalPulse`, which
  computes on the `int` fields of a record handed in by its caller, every `int` result is
  written with `int32`: it wraps modulo 2^32 (two's complement), as the compiled code does.
  Elsewhere the `int` expressions are bounded by the tests of the program (sizes up to
  1024) and no wrap-around is written for them.
* A byte buffer of the driver is a `List Nat`; `memcpy` overwrites a window of it.  The
  caller's output buffer of the encoder, known only by its pointer, is a function from
  offsets to bytes.
* Loops are functions with a fuel argument; running out of fuel is `none`, and the
  theorems show that the fuel handed over by the caller is enough.
* The two multi-byte views of the program (`uint16_t` code, `uint32_t` frame, the
  16-bit packet markers) are read little-endian, as on the x86 Windows targets the
  driver is written for.
-/

namespace TiqiaaUsb

/-! ## Constants (`TiqiaaUsb.h`) -/

def CmdUnknown : Nat := 72   -- 'H'
def CmdVersion : Nat := 86   -- 'V'
def CmdIdleMode : Nat := 76  -- 'L'
def CmdSendMode : Nat := 83  -- 'S'
def CmdRecvMode : Nat := 82  -- 'R'
def CmdData : Nat := 68      -- 'D'
def CmdOutput : Nat := 79    -- 'O'
def CmdCancel : Nat := 67    -- 'C'

def StateIdle : Nat := 3
def StateSend : Nat := 9
def StateRecv : Nat := 19

def MaxUsbFragmSize : Int := 56
def MaxUsbPacketSize : Int := 1024
def MaxUsbPacketIndex : Nat := 15
def MaxCmdId : Nat := 0x7F
/-- The multi-character constant 'TS': in memory the bytes 'S' (83), 'T' (84). -/
def PackStartSign : Nat := 0x5453
/-- The multi-character constant 'NE': in memory the bytes 'E' (69), 'N' (78). -/
def PackEndSign : Nat := 0x4E45
def WriteReportId : Nat := 2
def ReadReportId : Nat := 1
def CmdReplyWaitTimeout : Nat := 500
def IrReplyWaitTimeout : Nat := 2000

def NecPulseSize : Int := 1125
def IrSendTickSize : Int := 32
def MaxIrSendBlockSize : Int := 127

/-- The value of `sizeof(TiqiaaUsbIr_Report2Header)`: five packed `uint8_t` fields. -/
def sizeofReport2Header : Nat := 5
/-- The value of `sizeof(TiqiaaUsbIr_VersionPacket)`: 1 + 1 + 0x24 + 1 packed bytes. -/
def sizeofVersionPacket : Nat := 39
/-- The offset of the field `State` in `TiqiaaUsbIr_VersionPacket`. -/
def offsetofVersionState : Nat := 38

/-! ## Machine integers -/

/-- The value a 32-bit `int` holds after a computation whose mathematical result is `x`:
`x` modulo 2^32, taken in `-2^31 .. 2^31 - 1`. -/
def int32 (x : Int) : Int := (x + 2147483648) % 4294967296 - 2147483648

/-! ## Memory helpers -/

/-- The byte `buf[i]`. -/
def rd (buf : List Nat) (i : Nat) : Nat := buf.getD i 0

/-- The 16-bit little-endian word at `buf + i`, as in `*((uint16_t *)(buf + i))`. -/
def rd16 (buf : List Nat) (i : Nat) : Nat := rd buf i + 256 * rd buf (i + 1)

/-- The call `memcpy(dst + off, src, n)` for a source holding at least `n` bytes: the window
`dst[off .. off + n)` is overwritten, everything else is kept. -/
def memcpy (dst : List Nat) (off : Nat) (src : List Nat) (n : Nat) : List Nat :=
  dst.take off ++ src.take n ++ dst.drop (off + n)

/-! ## The transport (`WinUsb_WritePipe`) -/

/-- The outbound pipe as the driver sees it: the reports handed to `WinUsb_WritePipe`, oldest
first, and the outcome the pipe gives to its calls, by call number. -/
structure Transport where
  Written : List (List Nat)
  WriteOk : Nat → Bool

/-- One call `WinUsb_WritePipe(DevWinUsbHandle, WritePipeId, buf, len, ..)`. -/
def Transport.WritePipe (t : Transport) (report : List Nat) : Bool × Transport :=
  (t.WriteOk t.Written.length, { t with Written := t.Written ++ [report] })

/-! ## The device object (`class TiqiaaUsbIr`) -/

/-- The fields of `class TiqiaaUsbIr` that the modelled methods read or write.
`DevHandle = none` stands for `INVALID_HANDLE_VALUE`.  `WaitCmdCsEnter` and `WaitCmdCsLeave`
count the calls of `EnterCriticalSection(&WaitCmdCs)` and `LeaveCriticalSection(&WaitCmdCs)`;
`WaitCmdEvent` is the signalled state of the auto-reset event and `SetEventCalls` counts the
calls of `SetEvent(WaitCmdEvent)`.  `IrRecvCallback` tells whether the callback pointer is
non-null and `IrRecvCalls` lists the buffers it was called with. -/
structure TiqiaaUsbIr where
  DevHandle : Option Nat
  DeviceState : Nat
  PacketIndex : Nat
  CmdId : Nat
  IsWaitingCmdReply : Bool
  IsCmdReplyReceived : Bool
  WaitCmdId : Nat
  WaitCmdType : Nat
  WaitCmdCsEnter : Nat
  WaitCmdCsLeave : Nat
  WaitCmdEvent : Bool
  SetEventCalls : Nat
  IrRecvCallback : Bool
  IrRecvCalls : List (List Nat)
  Usb : Transport

namespace TiqiaaUsbIr

/-- The constructor `TiqiaaUsbIr::TiqiaaUsbIr()` run on raw storage `raw`: the fields it does
not assign keep whatever the storage held. -/
def ctor (raw : TiqiaaUsbIr) : TiqiaaUsbIr :=
  { raw with
    DevHandle := none
    IrRecvCallback := false
    PacketIndex := 0
    CmdId := 0
    DeviceState := 0
    WaitCmdCsEnter := 0
    WaitCmdCsLeave := 0
    WaitCmdEvent := false
    SetEventCalls := 0 }

/-- The method `IsOpen`. -/
def IsOpen (dev : TiqiaaUsbIr) : Bool := dev.DevHandle.isSome

def EnterCriticalSection (dev : TiqiaaUsbIr) : TiqiaaUsbIr :=
  { dev with WaitCmdCsEnter := dev.WaitCmdCsEnter + 1 }

def LeaveCriticalSection (dev : TiqiaaUsbIr) : TiqiaaUsbIr :=
  { dev with WaitCmdCsLeave := dev.WaitCmdCsLeave + 1 }

def SetEvent (dev : TiqiaaUsbIr) : TiqiaaUsbIr :=
  { dev with WaitCmdEvent := true, SetEventCalls := dev.SetEventCalls + 1 }

/-- The method `GetCmdId`: the returned id and the device afterwards. -/
def GetCmdId (dev : TiqiaaUsbIr) : Nat × TiqiaaUsbIr :=
  let dev :=
    if dev.CmdId < MaxCmdId then { dev with CmdId := (dev.CmdId + 1) % 256 }
    else { dev with CmdId := 1 }
  (dev.CmdId, dev)

/-- The device after `n` successive calls of `GetCmdId`. -/
def GetCmdIdState (dev : TiqiaaUsbIr) : Nat → TiqiaaUsbIr
  | 0 => dev
  | n + 1 => (GetCmdId (GetCmdIdState dev n)).2

/-- The method `StartCmdReplyWaiting`. -/
def StartCmdReplyWaiting (dev : TiqiaaUsbIr) (cmdType cmdId : Nat) : Bool × TiqiaaUsbIr :=
  if !dev.IsOpen then (false, dev) else
  let dev := dev.EnterCriticalSection
  if dev.IsWaitingCmdReply then (false, dev) else
  let dev := { dev with WaitCmdId := cmdId }
  let dev := { dev with WaitCmdType := cmdType }
  let dev := { dev with IsWaitingCmdReply := true }
  let dev := { dev with IsCmdReplyReceived := false }
  let dev := dev.LeaveCriticalSection
  (true, dev)

/-- The method `CancelCmdReplyWaiting`. -/
def CancelCmdReplyWaiting (dev : TiqiaaUsbIr) : Bool × TiqiaaUsbIr :=
  if !dev.IsOpen then (false, dev) else
  let dev := dev.EnterCriticalSection
  let (res, dev) :=
    if dev.IsWaitingCmdReply then (true, { dev with IsWaitingCmdReply := false })
    else (false, dev)
  let dev := dev.LeaveCriticalSection
  (res, dev)

/-- The method `ProcessRecvPacket(pack, size)`; `pack` lists the bytes `pack[0 .. size)`. -/
def ProcessRecvPacket (dev : TiqiaaUsbIr) (pack : List Nat) (size : Int) : TiqiaaUsbIr :=
  let dev :=
    if dev.IsWaitingCmdReply then
      let dev := dev.EnterCriticalSection
      let dev :=
        if dev.IsWaitingCmdReply && !dev.IsCmdReplyReceived then
          if rd pack 0 == dev.WaitCmdId && rd pack 1 == dev.WaitCmdType then
            ({ dev with IsCmdReplyReceived := true }).SetEvent
          else dev
        else dev
      dev.LeaveCriticalSection
    else dev
  if rd pack 1 = CmdVersion then
    if size = (sizeofVersionPacket : Int) + 2 then
      { dev with DeviceState := rd pack (2 + offsetofVersionState) }
    else dev
  else if rd pack 1 = CmdIdleMode ∨ rd pack 1 = CmdSendMode ∨ rd pack 1 = CmdRecvMode
      ∨ rd pack 1 = CmdOutput ∨ rd pack 1 = CmdCancel ∨ rd pack 1 = CmdUnknown then
    { dev with DeviceState := rd pack 2 }
  else if rd pack 1 = CmdData then
    if dev.IrRecvCallback then
      { dev with IrRecvCalls := dev.IrRecvCalls ++ [(pack.drop 2).take (size - 2).toNat] }
    else dev
  else dev

end TiqiaaUsbIr

/-! ## Outbound framing (`SendReport2`, `SendCmd`) -/

namespace TiqiaaUsbIr

/-- The loop `while (RdPtr < size) { .. }` of `SendReport2`.  `FragmBuf` is the 61-byte report
buffer, whose first five bytes are the `TiqiaaUsbIr_Report2Header` fields `ReportId`,
`FragmSize`, `PacketIdx`, `FragmCount`, `FragmIdx`.  The result is the value returned and the
pipe afterwards. -/
def SendReport2.loop (data : List Nat) (size : Int) :
    Nat → List Nat → Int → Int → Transport → Option (Bool × Transport)
  | 0, _, RdPtr, _, usb => if RdPtr < size then none else some (true, usb)
  | fuel + 1, FragmBuf, RdPtr, FragmIndex, usb =>
    if RdPtr < size then
      let FragmIndex := FragmIndex + 1
      let FragmBuf := FragmBuf.set 4 (FragmIndex % 256).toNat
      let FragmSize := size - RdPtr
      let FragmSize := if FragmSize > MaxUsbFragmSize then MaxUsbFragmSize else FragmSize
      let FragmBuf := FragmBuf.set 1 ((FragmSize + 3) % 256).toNat
      let FragmBuf :=
        memcpy FragmBuf sizeofReport2Header (data.drop RdPtr.toNat) FragmSize.toNat
      let r := usb.WritePipe (FragmBuf.take (FragmSize + sizeofReport2Header).toNat)
      if !r.1 then some (false, r.2) else
      SendReport2.loop data size fuel FragmBuf (RdPtr + FragmSize) FragmIndex r.2
    else some (true, usb)

/-- The method `SendReport2(data, size)`; `data` lists the bytes at the pointer `data`. -/
def SendReport2 (dev : TiqiaaUsbIr) (data : List Nat) (size : Int) :
    Option (Bool × TiqiaaUsbIr) :=
  let RdPtr : Int := 0
  if size ≤ 0 ∨ size > MaxUsbPacketSize then some (false, dev) else
  let FragmBuf := List.replicate 61 0
  let FragmBuf := FragmBuf.set 0 WriteReportId
  let FragmBuf := FragmBuf.set 3 (Int.tdiv size MaxUsbFragmSize % 256).toNat
  let FragmBuf :=
    if Int.tmod size MaxUsbFragmSize ≠ 0 then FragmBuf.set 3 ((rd FragmBuf 3 + 1) % 256)
    else FragmBuf
  let dev := { dev with PacketIndex := (dev.PacketIndex + 1) % 256 }
  let dev := if dev.PacketIndex > MaxUsbPacketIndex then { dev with PacketIndex := 1 } else dev
  let FragmBuf := FragmBuf.set 2 dev.PacketIndex
  let FragmIndex : Int := 0
  match SendReport2.loop data size size.toNat FragmBuf RdPtr FragmIndex dev.Usb with
  | none => none
  | some (res, usb) => some (res, { dev with Usb := usb })

/-- The bytes of a `TiqiaaUsbIr_SendCmdPack` (packed, little-endian 16-bit fields). -/
def SendCmdPack (cmdType cmdId : Nat) : List Nat :=
  [PackStartSign % 256, PackStartSign / 256 % 256, cmdId, cmdType,
   PackEndSign % 256, PackEndSign / 256 % 256]

/-- The method `SendCmd(cmdType, cmdId)`. -/
def SendCmd (dev : TiqiaaUsbIr) (cmdType cmdId : Nat) : Option (Bool × TiqiaaUsbIr) :=
  let Pack := SendCmdPack cmdType cmdId
  dev.SendReport2 Pack 6

end TiqiaaUsbIr

/-! ## Waiting for a reply (`WaitCmdReply`, `SendCmdAndWaitReply`)

The receive thread runs concurrently with the caller.  Its only effect on the device object is
through its calls of `ProcessRecvPacket`, and the caller's accesses to the wait fields that
matter are made inside the critical section `WaitCmdCs`; the embedding therefore lets the
receive thread make any list of `ProcessRecvPacket` calls at each point where the caller is
outside the critical section. -/

namespace TiqiaaUsbIr

/-- The calls `ProcessRecvPacket(pack, size)` of the receive thread, applied in order. -/
def dispatchAll (dev : TiqiaaUsbIr) (calls : List (List Nat × Int)) : TiqiaaUsbIr :=
  calls.foldl (fun d c => d.ProcessRecvPacket c.1 c.2) dev

/-- The call `WaitForSingleObject(WaitCmdEvent, timeout)`: the receive thread makes the calls
`during` while the caller is blocked; the wait ends on the signal or on the timeout and in
both cases leaves the auto-reset event non-signalled. -/
def WaitForSingleObject (dev : TiqiaaUsbIr) (_timeout : Nat) (during : List (List Nat × Int)) :
    TiqiaaUsbIr :=
  { dev.dispatchAll during with WaitCmdEvent := false }

/-- The method `WaitCmdReply(timeout)`; `after` lists the calls of the receive thread between
the return of the wait and the entry of the critical section. -/
def WaitCmdReply (dev : TiqiaaUsbIr) (timeout : Nat) (during after : List (List Nat × Int)) :
    Bool × TiqiaaUsbIr :=
  if !dev.IsOpen then (false, dev) else
  if !dev.IsWaitingCmdReply then (false, dev) else
  let dev := dev.WaitForSingleObject timeout during
  let dev := dev.dispatchAll after
  let dev := dev.EnterCriticalSection
  let r : Bool × TiqiaaUsbIr :=
    if dev.IsWaitingCmdReply && dev.IsCmdReplyReceived then
      (true, { dev with IsWaitingCmdReply := false })
    else (false, dev)
  (r.1, r.2.LeaveCriticalSection)

/-- The activity of the receive thread during one call of `SendCmdAndWaitReply`: its calls of
`ProcessRecvPacket` while the command is sent, while the caller is blocked in the wait, between
the end of the wait and the entry of the critical section, and before the cancellation. -/
structure RecvActivity where
  onSend : List (List Nat × Int)
  onWait : List (List Nat × Int)
  afterWait : List (List Nat × Int)
  beforeCancel : List (List Nat × Int)

/-- The method `SendCmdAndWaitReply(cmdType, cmdId, timeout)`. -/
def SendCmdAndWaitReply (dev : TiqiaaUsbIr) (cmdType cmdId timeout : Nat) (env : RecvActivity) :
    Option (Bool × TiqiaaUsbIr) :=
  let r := dev.StartCmdReplyWaiting cmdType cmdId
  if !r.1 then some (false, r.2) else
  match (r.2.dispatchAll env.onSend).SendCmd cmdType cmdId with
  | none => none
  | some s =>
    if s.1 then
      let w := s.2.WaitCmdReply timeout env.onWait env.afterWait
      if w.1 then some (true, w.2)
      else some (false, (w.2.dispatchAll env.beforeCancel).CancelCmdReplyWaiting.2)
    else some (false, (s.2.dispatchAll env.beforeCancel).CancelCmdReplyWaiting.2)

end TiqiaaUsbIr

/-! ## Inbound reassembly (`ReadThreadFn`) -/

/-- The local variables of `ReadThreadFn` that live across iterations of its loop. -/
structure ReadState where
  FragmBuf : List Nat
  PackBuf : List Nat
  PackSize : Int
  PacketIdx : Nat
  FragmCount : Nat
  LastFragmIdx : Nat

/-- A successful `WinUsb_ReadPipe(.., FragmBuf, 61, &UsbRxSize, ..)` that delivered the bytes
`rx`: they overwrite the start of `FragmBuf`. -/
def ReadPipe (st : ReadState) (rx : List Nat) : ReadState :=
  { st with FragmBuf := memcpy st.FragmBuf 0 rx rx.length }

/-- The block `if (FragmCount) { .. }` of the loop body ("adding data to existing packet"): the
fragment in `FragmBuf` either continues the packet in progress or makes the loop drop it. -/
def ReadThreadFn.addToExisting (st : ReadState) : ReadState :=
  if st.FragmCount ≠ 0 then
    if rd st.FragmBuf 2 = st.PacketIdx ∧ rd st.FragmBuf 3 = st.FragmCount
        ∧ rd st.FragmBuf 4 = st.LastFragmIdx + 1 then
      { st with LastFragmIdx := (st.LastFragmIdx + 1) % 256 }
    else { st with FragmCount := 0 }
  else st

/-- The block `if (FragmCount == 0) { .. }` of the loop body ("new packet"). -/
def ReadThreadFn.newPacket (st : ReadState) : ReadState :=
  if st.FragmCount = 0 then
    if rd st.FragmBuf 3 > 0 ∧ rd st.FragmBuf 4 = 1 then
      { st with
        PacketIdx := rd st.FragmBuf 2
        FragmCount := rd st.FragmBuf 3
        PackSize := 0
        LastFragmIdx := 1 }
    else st
  else st

/-- The last block `if (FragmCount) { .. }` of the loop body: the payload of the fragment is
appended to `PackBuf` and the packet is handed to `ProcessRecvPacket` when the test of the
source passes.  The result is the state afterwards together with the arguments `(pack, size)`
of the call of `ProcessRecvPacket`, if it is made; `pack` lists the `size` bytes at the pointer.
The result is `none` when the `memcpy` is asked for a negative number of bytes or for a window
that starts before the packet buffer (undefined behaviour). -/
def ReadThreadFn.append (st : ReadState) : Option (ReadState × Option (List Nat × Int)) :=
  if st.FragmCount ≠ 0 then
    let FragmSize : Int := (rd st.FragmBuf 1 : Int) + 2 - (sizeofReport2Header : Int)
    if st.PackSize + FragmSize ≤ MaxUsbPacketSize then
      if FragmSize < 0 ∨ st.PackSize < 0 then none else
      let st := { st with
        PackBuf := memcpy st.PackBuf st.PackSize.toNat
          (st.FragmBuf.drop sizeofReport2Header) FragmSize.toNat }
      let st := { st with PackSize := st.PackSize + FragmSize }
      if rd st.FragmBuf 4 = st.LastFragmIdx ∧ st.PackSize > 6 then
        if rd16 st.PackBuf 0 = PackStartSign
            ∧ rd16 st.PackBuf (st.PackSize - 2).toNat = PackEndSign then
          some (st, some ((st.PackBuf.drop 2).take (st.PackSize - 4).toNat, st.PackSize - 4))
        else some (st, none)
      else some (st, none)
    else some ({ st with FragmCount := 0 }, none)
  else some (st, none)

/-- The body of the loop of `ReadThreadFn` after a successful read of `UsbRxSize` bytes into
`FragmBuf`. -/
def ReadThreadFn.reassemble (st : ReadState) (UsbRxSize : Nat) :
    Option (ReadState × Option (List Nat × Int)) :=
  if UsbRxSize > sizeofReport2Header ∧ rd st.FragmBuf 0 = ReadReportId
      ∧ rd st.FragmBuf 1 + 2 ≤ UsbRxSize then
    ReadThreadFn.append (ReadThreadFn.newPacket (ReadThreadFn.addToExisting st))
  else some (st, none)

/-- One iteration of the loop of `ReadThreadFn`; `rx = none` is a failed `WinUsb_ReadPipe`. -/
def ReadThreadFn.iteration (st : ReadState) (rx : Option (List Nat)) :
    Option (ReadState × Option (List Nat × Int)) :=
  match rx with
  | none => some (st, none)
  | some bytes => ReadThreadFn.reassemble (ReadPipe st bytes) bytes.length

/-- The loop of `ReadThreadFn` over the outcomes `reads` of its successive reads: the state
afterwards and the calls of `ProcessRecvPacket` it made, in order. -/
def ReadThreadFn.run (st : ReadState) :
    List (Option (List Nat)) → Option (ReadState × List (List Nat × Int))
  | [] => some (st, [])
  | rx :: reads =>
    match ReadThreadFn.iteration st rx with
    | none => none
    | some (st, call) =>
      match ReadThreadFn.run st reads with
      | none => none
      | some (st, calls) => some (st, call.toList ++ calls)

/-- The state of `ReadThreadFn` when its loop is entered: `FragmCount = 0` (no packet in
progress), `LastFragmIdx = 0`; the other locals keep what the storage `raw` held. -/
def ReadThreadFn.init (raw : ReadState) : ReadState :=
  { raw with LastFragmIdx := 0, FragmCount := 0 }

/-- The method `ReadThreadFn` on the device: every call of `ProcessRecvPacket` made by the loop
is applied to the device, in order. -/
def TiqiaaUsbIr.ReadThreadFn (dev : TiqiaaUsbIr) (raw : ReadState)
    (reads : List (Option (List Nat))) : Option (TiqiaaUsbIr × ReadState) :=
  match ReadThreadFn.run (ReadThreadFn.init raw) reads with
  | none => none
  | some (st, calls) => some (calls.foldl (fun d c => d.ProcessRecvPacket c.1 c.2) dev, st)

/-- A report written by the driver as the device would send it back: the same bytes with the
report id replaced by the read tag. -/
def asInbound (report : List Nat) : List Nat := report.set 0 ReadReportId

/-! ## Sample values -/

/-- An open device just after construction, on a pipe whose writes all succeed. -/
def sampleDevice : TiqiaaUsbIr :=
  { DevHandle := some 1, DeviceState := 0, PacketIndex := 0, CmdId := 0,
    IsWaitingCmdReply := false, IsCmdReplyReceived := false, WaitCmdId := 0, WaitCmdType := 0,
    WaitCmdCsEnter := 0, WaitCmdCsLeave := 0, WaitCmdEvent := false, SetEventCalls := 0,
    IrRecvCallback := false, IrRecvCalls := [],
    Usb := { Written := [], WriteOk := fun _ => true } }

/-- The locals of `ReadThreadFn` at the entry of its loop, on zeroed storage. -/
def sampleReadState : ReadState :=
  { FragmBuf := List.replicate 61 0, PackBuf := List.replicate 1024 0, PackSize := 0,
    PacketIdx := 0, FragmCount := 0, LastFragmIdx := 0 }

/-- A receive thread that dispatches the reply to a version command with id 1 while the
caller waits, and nothing else. -/
def sampleActivity : TiqiaaUsbIr.RecvActivity :=
  { onSend := [], onWait := [([1, CmdVersion, StateIdle], 3)], afterWait := [],
    beforeCancel := [] }

/-! ## Auxiliary notions used in the statements about the fragment codec -/

/-- A report carrying fragment `k` of a packet: the five bytes of `TiqiaaUsbIr_Report2Header`
(`ReportId`, `FragmSize` = payload length + 3, `PacketIdx`, `FragmCount`, `FragmIdx`) followed
by the payload. -/
def fragmentReport (id p cnt k : Nat) (payload : List Nat) : List Nat :=
  [id, payload.length + 3, p, cnt, k] ++ payload

/-- The reports carrying the payloads `chunks` as the fragments `k`, `k + 1`, .. of a packet. -/
def fragmentReports (id p cnt : Nat) : Nat → List (List Nat) → List (List Nat)
  | _, [] => []
  | k, c :: cs => fragmentReport id p cnt k c :: fragmentReports id p cnt (k + 1) cs

/-- The successive slices of at most 56 bytes of `data` (`fuel` bounds their number). -/
def payloadChunks : Nat → List Nat → List (List Nat)
  | 0, _ => []
  | fuel + 1, data =>
    if data = [] then [] else data.take 56 :: payloadChunks fuel (data.drop 56)

/-- The packet index `SendReport2` puts in its headers when the counter holds `p`. -/
def nextPacketIndex (p : Nat) : Nat :=
  if (p + 1) % 256 > MaxUsbPacketIndex then 1 else (p + 1) % 256

/-- Successive calls `SendReport2(data, size)`, whatever they return: the device afterwards. -/
def SendReport2Calls (dev : TiqiaaUsbIr) : List (List Nat × Int) → Option TiqiaaUsbIr
  | [] => some dev
  | call :: rest =>
    match dev.SendReport2 call.1 call.2 with
    | none => none
    | some r => SendReport2Calls r.2 rest

/-- The number of calls in `calls` whose size `SendReport2` accepts (1 to 1024). -/
def validCalls (calls : List (List Nat × Int)) : Nat :=
  (calls.filter fun call => decide (1 ≤ call.2 ∧ call.2 ≤ 1024)).length

/-- The test made by `ReadThreadFn` once a fragment has been appended, on the packet buffer
`PackBuf` holding `PackSize` bytes: the call of `ProcessRecvPacket` it leads to, if any. -/
def dispatchOf (PackBuf : List Nat) (PackSize : Int) : Option (List Nat × Int) :=
  if PackSize > 6 ∧ rd16 PackBuf 0 = PackStartSign
      ∧ rd16 PackBuf (PackSize - 2).toNat = PackEndSign then
    some ((PackBuf.drop 2).take (PackSize - 4).toNat, PackSize - 4)
  else none

/-- A report that passes the acceptance test of `ReadThreadFn` and declares a payload of `n`
bytes (`FragmSize = n + 3`). -/
def Accepted (rx : List Nat) (n : Nat) : Prop :=
  5 < rx.length ∧ rd rx 0 = ReadReportId ∧ rd rx 1 = n + 3 ∧ n + 5 ≤ rx.length

instance Accepted.decidable (rx : List Nat) (n : Nat) : Decidable (Accepted rx n) := by
  unfold Accepted; infer_instance

/-! ## The NEC signal encoder (`WriteIrNecSignalPulse`, `WriteIrNecSignal`) -/

/-- The record `struct TqIrWriteData`.  `Buf` is the memory the pointer `Buf` points at, by
offset: `Buf i` is the byte `Buf[i]`. -/
structure TqIrWriteData where
  Buf : Int → Nat
  Size : Int
  PulseTime : Int
  SenderTime : Int

/-- The loop `while (TickCount > 0) { .. }` of `WriteIrNecSignalPulse`. -/
def WriteIrNecSignalPulse.loop (isSet : Bool) : Nat → Int → TqIrWriteData → Option TqIrWriteData
  | 0, TickCount, w => if TickCount > 0 then none else some w
  | fuel + 1, TickCount, w =>
    if TickCount > 0 then
      let SendBlockSize := TickCount
      let SendBlockSize :=
        if SendBlockSize > MaxIrSendBlockSize then MaxIrSendBlockSize else SendBlockSize
      let TickCount := int32 (TickCount - SendBlockSize)
      let stored : Nat := if isSet then SendBlockSize.toNat ||| 0x80 else SendBlockSize.toNat
      let w := { w with Buf := Function.update w.Buf w.Size (stored % 256) }
      let w := { w with Size := int32 (w.Size + 1) }
      WriteIrNecSignalPulse.loop isSet fuel TickCount w
    else some w

/-- The function `WriteIrNecSignalPulse(IrWrData, PulseCount, isSet)`; its sums, differences
and products are 32-bit `int` results and `/=` on `int` truncates toward zero. -/
def WriteIrNecSignalPulse (w : TqIrWriteData) (PulseCount : Int) (isSet : Bool) :
    Option TqIrWriteData :=
  let w := { w with PulseTime := int32 (w.PulseTime + int32 (PulseCount * NecPulseSize)) }
  let TickCount := int32 (w.PulseTime - w.SenderTime)
  let TickCount := Int.tdiv TickCount IrSendTickSize
  let w := { w with SenderTime := int32 (w.SenderTime + int32 (TickCount * IrSendTickSize)) }
  WriteIrNecSignalPulse.loop isSet TickCount.toNat TickCount w

/-- The value of `~x` stored into a `uint8_t`, for a `uint8_t` operand `x` (promoted to `int`). -/
def not8 (x : Nat) : Nat := ((-(x : Int) - 1) % 256).toNat

/-- The frame `tcode` assembled byte by byte in `WriteIrNecSignal`; byte 1 of the 16-bit code is
its high byte. -/
def tcodeOf (IrCode : Nat) : Nat :=
  let c0 := IrCode % 256
  let c1 := IrCode / 256 % 256
  c1 + 256 * not8 c1 + 65536 * c0 + 16777216 * not8 c0

/-- The loop `for (i = 0; i < 32; i++) { .. }` of `WriteIrNecSignal`, with `n` rounds left. -/
def WriteIrNecSignal.bits : Nat → Nat → TqIrWriteData → Option TqIrWriteData
  | 0, _, w => some w
  | n + 1, tcode, w =>
    (WriteIrNecSignalPulse w 1 true).bind fun w =>
    (WriteIrNecSignalPulse w (if tcode &&& 1 ≠ 0 then 3 else 1) false).bind fun w =>
    WriteIrNecSignal.bits n (tcode >>> 1) w

/-- The function `WriteIrNecSignal(IrCode, OutBuf)`: the returned size and the memory at
`OutBuf` afterwards. -/
def WriteIrNecSignal (IrCode : Nat) (OutBuf : Int → Nat) : Option (Int × (Int → Nat)) :=
  let w : TqIrWriteData := { Buf := OutBuf, Size := 0, PulseTime := 0, SenderTime := 0 }
  let tcode := tcodeOf IrCode
  (WriteIrNecSignalPulse w 16 true).bind fun w =>
  (WriteIrNecSignalPulse w 8 false).bind fun w =>
  (WriteIrNecSignal.bits 32 tcode w).bind fun w =>
  (WriteIrNecSignalPulse w 1 true).bind fun w =>
  (WriteIrNecSignalPulse w 72 false).bind fun w =>
  some (w.Size, w.Buf)

/-! ## Auxiliary notions used in the statements about the encoder -/

/-- The byte the loop of `WriteIrNecSignalPulse` stores for a block of `b` ticks. -/
def blockByte (isSet : Bool) (b : Int) : Nat :=
  (if isSet then b.toNat ||| 0x80 else b.toNat) % 256

/-- The residue invariant of the encoder: the time not yet sent is less than one tick. -/
def Residue (w : TqIrWriteData) : Prop :=
  0 ≤ w.PulseTime - w.SenderTime ∧ w.PulseTime - w.SenderTime < 32

instance Residue.decidable (w : TqIrWriteData) : Decidable (Residue w) := by
  unfold Residue; infer_instance

/-- The tick counts (low 7 bits) of the bytes `Buf[0 .. Size)`, summed. -/
def tickSum (Buf : Int → Nat) (Size : Int) : Nat :=
  ((List.range Size.toNat).map fun k : Nat => Buf (k : Int) % 128).sum

/-! ## Sending IR data (`SendIRCmd`, `SendIR`), `SetIdleMode`, `Close` -/

def TiqiaaUsbIr_IrFreqTableSize : Int := 30

def TiqiaaUsbIr_IrFreqTable : List Int :=
  [38000, 37900, 37917, 36000, 40000, 39700, 35750, 36400, 36700, 37000,
   37700, 38380, 38400, 38462, 38740, 39200, 42000, 43600, 44000, 33000,
   33500, 34000, 34500, 35000, 40500, 41000, 41500, 42500, 43000, 45000]

namespace TiqiaaUsbIr

/-- The loop `while ((IrFreqId < TiqiaaUsbIr_IrFreqTableSize) &&
(TiqiaaUsbIr_IrFreqTable[IrFreqId] != freq)) IrFreqId++;` of `SendIRCmd`, on the `uint8_t`
variable `IrFreqId`: its value after the loop. -/
def SendIRCmd.search (freq : Int) : Nat → Nat → Option Nat
  | 0, IrFreqId =>
    if (IrFreqId : Int) < TiqiaaUsbIr_IrFreqTableSize
        ∧ TiqiaaUsbIr_IrFreqTable.getD IrFreqId 0 ≠ freq then none
    else some IrFreqId
  | fuel + 1, IrFreqId =>
    if (IrFreqId : Int) < TiqiaaUsbIr_IrFreqTableSize
        ∧ TiqiaaUsbIr_IrFreqTable.getD IrFreqId 0 ≠ freq then
      SendIRCmd.search freq fuel ((IrFreqId + 1) % 256)
    else some IrFreqId

/-- The frequency resolution of `SendIRCmd`: the `uint8_t` value of `IrFreqId` when the method
goes on to build the packet, `some none` when it returns `false` instead. -/
def SendIRCmd.resolve (freq : Int) : Option (Option Nat) :=
  if freq > 255 then
    match SendIRCmd.search freq 30 0 with
    | none => none
    | some IrFreqId =>
      if (IrFreqId : Int) ≥ TiqiaaUsbIr_IrFreqTableSize then some none else some (some IrFreqId)
  else
    if freq < TiqiaaUsbIr_IrFreqTableSize then some (some (freq % 256).toNat) else some none

/-- The bytes of a `TiqiaaUsbIr_SendIRPackHeader` (packed, little-endian 16-bit field). -/
def SendIRPackHeader (cmdId IrFreqId : Nat) : List Nat :=
  [PackStartSign % 256, PackStartSign / 256 % 256, cmdId, CmdData, IrFreqId]

/-- The method `SendIRCmd(freq, buffer, buf_size, cmdId)`; `buffer` lists the bytes at the
pointer `buffer` and `stack` is what the storage of the local array `PackBuf` holds on entry. -/
def SendIRCmd (dev : TiqiaaUsbIr) (freq : Int) (buffer : List Nat) (buf_size : Int)
    (cmdId : Nat) (stack : List Nat) : Option (Bool × TiqiaaUsbIr) :=
  let PackBuf := stack
  let PackSize : Int := 5
  if buf_size < 0 then some (false, dev) else
  if buf_size + 5 + 2 > MaxUsbPacketSize then some (false, dev) else
  match SendIRCmd.resolve freq with
  | none => none
  | some none => some (false, dev)
  | some (some IrFreqId) =>
    let PackBuf := memcpy PackBuf 0 (SendIRPackHeader cmdId IrFreqId) 5
    let PackBuf := memcpy PackBuf PackSize.toNat buffer buf_size.toNat
    let PackSize := PackSize + buf_size
    let PackBuf := memcpy PackBuf PackSize.toNat [PackEndSign % 256, PackEndSign / 256 % 256] 2
    let PackSize := PackSize + 2
    dev.SendReport2 PackBuf PackSize

/-- The activity of the receive thread during one call of `SendIR`: during the mode-change
command, between its return and the second test of `DeviceState`, and during the transmission
of the IR packet. -/
structure SendIRActivity where
  modeChange : RecvActivity
  beforeCheck : List (List Nat × Int)
  output : RecvActivity

/-- The method `SendIR(freq, buffer, buf_size)`. -/
def SendIR (dev : TiqiaaUsbIr) (freq : Int) (buffer : List Nat) (buf_size : Int)
    (stack : List Nat) (env : SendIRActivity) : Option (Bool × TiqiaaUsbIr) :=
  if !dev.IsOpen then some (false, dev) else
  let m : Option (Bool × TiqiaaUsbIr) :=
    if dev.DeviceState ≠ StateSend then
      let g := dev.GetCmdId
      g.2.SendCmdAndWaitReply CmdSendMode g.1 CmdReplyWaitTimeout env.modeChange
    else some (true, dev)
  match m with
  | none => none
  | some m =>
    if !m.1 then some (false, m.2) else
    let dev := m.2.dispatchAll env.beforeCheck
    if dev.DeviceState ≠ StateSend then some (false, dev) else
    let g := dev.GetCmdId
    let s := g.2.StartCmdReplyWaiting CmdOutput g.1
    if !s.1 then some (false, s.2) else
    match (s.2.dispatchAll env.output.onSend).SendIRCmd freq buffer buf_size g.1 stack with
    | none => none
    | some t =>
      if t.1 then
        let w := t.2.WaitCmdReply IrReplyWaitTimeout env.output.onWait env.output.afterWait
        if w.1 then some (true, w.2)
        else some (false, (w.2.dispatchAll env.output.beforeCancel).CancelCmdReplyWaiting.2)
      else some (false, (t.2.dispatchAll env.output.beforeCancel).CancelCmdReplyWaiting.2)

/-- The method `SetIdleMode`; `afterReply` lists the calls of the receive thread between the
return of `SendCmdAndWaitReply` and the second test of `DeviceState`. -/
def SetIdleMode (dev : TiqiaaUsbIr) (env : RecvActivity) (afterReply : List (List Nat × Int)) :
    Option (Bool × TiqiaaUsbIr) :=
  if !dev.IsOpen then some (false, dev) else
  if dev.DeviceState = StateIdle then some (true, dev) else
  let g := dev.GetCmdId
  match g.2.SendCmdAndWaitReply CmdIdleMode g.1 CmdReplyWaitTimeout env with
  | none => none
  | some s =>
    if s.1 then
      let dev := s.2.dispatchAll afterReply
      if dev.DeviceState = StateIdle then some (true, dev) else some (false, dev)
    else some (false, s.2)

/-- The statements of `Close` that act on the receive thread and on the transport. -/
inductive CloseStep where
  | ClearReadActive
  | WinUsb_AbortPipe
  | WinUsb_Free
  | WaitForReadThread
  | CloseHandle
  deriving DecidableEq

/-- The method `Close`: the value returned, the device afterwards, and the statements of the
list `CloseStep` in the order in which the method executes them. -/
def Close (dev : TiqiaaUsbIr) (env : RecvActivity) (afterReply : List (List Nat × Int)) :
    Option (Bool × TiqiaaUsbIr × List CloseStep) :=
  if !dev.IsOpen then some (false, dev, []) else
  match dev.SetIdleMode env afterReply with
  | none => none
  | some s =>
    let dev := s.2
    let trace : List CloseStep := []
    let trace := trace ++ [CloseStep.ClearReadActive]
    let trace := trace ++ [CloseStep.WinUsb_AbortPipe]
    let trace := trace ++ [CloseStep.WinUsb_Free]
    let trace := trace ++ [CloseStep.WaitForReadThread]
    let trace := trace ++ [CloseStep.CloseHandle]
    let dev := { dev with DevHandle := none }
    some (true, dev, trace)

end TiqiaaUsbIr

/-- A receive thread that stays silent during a call of `SendIR`. -/
def silentActivity : TiqiaaUsbIr.SendIRActivity :=
  { modeChange := { onSend := [], onWait := [], afterWait := [], beforeCancel := [] }
    beforeCheck := []
    output := { onSend := [], onWait := [], afterWait := [], beforeCancel := [] } }

/-- The sample device once its observed mode is Send. -/
def sampleSendDevice : TiqiaaUsbIr := { sampleDevice with DeviceState := StateSend }

/-- The sample device once its observed mode is Idle. -/
def sampleIdleDevice : TiqiaaUsbIr := { sampleDevice with DeviceState := StateIdle }

/-! # Theorems -/

open TiqiaaUsbIr

/-! ## The NEC signal encoder -/

theorem loop_zero (isSet : Bool) (fuel : Nat) (T : Int) (w : TqIrWriteData) (hT : T ≤ 0) :
    WriteIrNecSignalPulse.loop isSet fuel T w = some w := by
  cases fuel <;> simp [WriteIrNecSignalPulse.loop, not_lt.mpr hT]

theorem int32_eq (x : Int) (h0 : -2147483648 ≤ x) (h1 : x ≤ 2147483647) : int32 x = x := by
  unfold int32
  omega

theorem loop_spec (isSet : Bool) : ∀ (fuel : Nat) (T : Int) (w : TqIrWriteData),
    0 ≤ T → T ≤ fuel → T ≤ 2147483647 → -2147483648 ≤ w.Size →
    w.Size + (T + 126) / 127 ≤ 2147483647 →
    ∃ w', WriteIrNecSignalPulse.loop isSet fuel T w = some w' ∧
      w'.Size = w.Size + (T + 126) / 127 ∧
      w'.PulseTime = w.PulseTime ∧ w'.SenderTime = w.SenderTime ∧
      ∀ j, w'.Buf j =
        if w.Size ≤ j ∧ j < w.Size + (T + 126) / 127
        then blockByte isSet (min (T - 127 * (j - w.Size)) 127) else w.Buf j := by
  intro fuel
  induction fuel with
  | zero =>
    intro T w h0 h1 _ _ _
    have hT : T = 0 := by omega
    subst hT
    refine ⟨w, loop_zero _ _ _ _ (le_refl _), by simp, rfl, rfl, ?_⟩
    intro j
    have hc : ¬ (w.Size ≤ j ∧ j < w.Size + (0 + 126) / 127) := by omega
    rw [if_neg hc]
  | succ n ih =>
    intro T w h0 h1 hmax hz0 hz1
    by_cases hT : T = 0
    · subst hT
      refine ⟨w, loop_zero _ _ _ _ (le_refl _), by simp, rfl, rfl, ?_⟩
      intro j
      have hc : ¬ (w.Size ≤ j ∧ j < w.Size + (0 + 126) / 127) := by omega
      rw [if_neg hc]
    · have hpos : T > 0 := by omega
      have e2 : int32 (w.Size + 1) = w.Size + 1 := int32_eq _ (by omega) (by omega)
      simp only [WriteIrNecSignalPulse.loop, hpos, if_true, MaxIrSendBlockSize]
      by_cases hbig : T > 127
      · have e1 : int32 (T - 127) = T - 127 := int32_eq _ (by omega) (by omega)
        simp only [hbig, if_true, e1, e2]
        obtain ⟨w', hw', hs, hp, hst, hb⟩ := ih (T - 127)
          { w with Buf := Function.update w.Buf w.Size
                    ((if isSet then (127 : Int).toNat ||| 0x80 else (127 : Int).toNat) % 256),
                   Size := w.Size + 1 } (by omega) (by push_cast at h1; omega) (by omega)
          (by dsimp only; omega) (by dsimp only; omega)
        dsimp only at hs hp hst hb
        refine ⟨w', hw', ?_, hp, hst, ?_⟩
        · rw [hs]; omega
        · intro j
          rw [hb j]
          by_cases hj : j = w.Size
          · have c1 : ¬ (w.Size + 1 ≤ j ∧ j < w.Size + 1 + (T - 127 + 126) / 127) := by omega
            have c2 : w.Size ≤ j ∧ j < w.Size + (T + 126) / 127 := by omega
            have h3 : min (T - 127 * (j - w.Size)) 127 = 127 := by omega
            rw [if_neg c1, if_pos c2, h3, hj]
            simp [blockByte]
          · by_cases hr : w.Size + 1 ≤ j ∧ j < w.Size + 1 + (T - 127 + 126) / 127
            · have c2 : w.Size ≤ j ∧ j < w.Size + (T + 126) / 127 := by omega
              have h3 : min (T - 127 - 127 * (j - (w.Size + 1))) 127
                  = min (T - 127 * (j - w.Size)) 127 := by omega
              rw [if_pos hr, if_pos c2, h3]
            · have c2 : ¬ (w.Size ≤ j ∧ j < w.Size + (T + 126) / 127) := by omega
              rw [if_neg hr, if_neg c2]
              simp [Function.update, hj]
      · have e0 : int32 (T - T) = 0 := by
          have hsub : T - T = 0 := by omega
          rw [hsub]
          exact int32_eq 0 (by norm_num) (by norm_num)
        simp only [hbig, if_false, e0, e2]
        rw [loop_zero _ _ _ _ (le_refl _)]
        refine ⟨_, rfl, ?_, rfl, rfl, ?_⟩
        · dsimp only; omega
        · intro j
          dsimp only
          by_cases hj : j = w.Size
          · have c2 : w.Size ≤ j ∧ j < w.Size + (T + 126) / 127 := by omega
            have h3 : min (T - 127 * (j - w.Size)) 127 = T := by omega
            rw [if_pos c2, h3, hj]
            simp [blockByte]
          · have c2 : ¬ (w.Size ≤ j ∧ j < w.Size + (T + 126) / 127) := by omega
            rw [if_neg c2]
            simp [Function.update, hj]

/-- Effect of one call of `WriteIrNecSignalPulse` with a non-negative residue, when no `int`
result of the call leaves the 32-bit range. -/
theorem pulse_spec (w : TqIrWriteData) (N : Int) (isSet : Bool)
    (hres : 0 ≤ w.PulseTime - w.SenderTime) (hN : 0 ≤ N)
    (hS : -2147483648 ≤ w.SenderTime)
    (hP : w.PulseTime + 1125 * N ≤ 2147483647)
    (hD : w.PulseTime + 1125 * N - w.SenderTime ≤ 2147483647)
    (hZ0 : -2147483648 ≤ w.Size)
    (hZ : w.Size + ((w.PulseTime + 1125 * N - w.SenderTime) / 32 + 126) / 127 ≤ 2147483647) :
    ∃ w', WriteIrNecSignalPulse w N isSet = some w' ∧
      w'.PulseTime = w.PulseTime + 1125 * N ∧
      w'.SenderTime = w.SenderTime + 32 * ((w.PulseTime + 1125 * N - w.SenderTime) / 32) ∧
      w'.Size = w.Size + ((w.PulseTime + 1125 * N - w.SenderTime) / 32 + 126) / 127 ∧
      ∀ j, w'.Buf j =
        if w.Size ≤ j ∧ j < w.Size + ((w.PulseTime + 1125 * N - w.SenderTime) / 32 + 126) / 127
        then blockByte isSet
          (min ((w.PulseTime + 1125 * N - w.SenderTime) / 32 - 127 * (j - w.Size)) 127)
        else w.Buf j := by
  have hnn : 0 ≤ w.PulseTime + 1125 * N - w.SenderTime := by nlinarith
  have e1 : int32 (w.PulseTime + int32 (N * 1125)) = w.PulseTime + 1125 * N := by
    unfold int32; omega
  have e2 : int32 (w.PulseTime + 1125 * N - w.SenderTime)
      = w.PulseTime + 1125 * N - w.SenderTime := int32_eq _ (by omega) hD
  have htd : Int.tdiv (w.PulseTime + 1125 * N - w.SenderTime) 32
      = (w.PulseTime + 1125 * N - w.SenderTime) / 32 :=
    Int.tdiv_eq_ediv hnn (by norm_num)
  have hT0 : 0 ≤ (w.PulseTime + 1125 * N - w.SenderTime) / 32 :=
    Int.ediv_nonneg hnn (by norm_num)
  have e3 : int32 (w.SenderTime + int32 ((w.PulseTime + 1125 * N - w.SenderTime) / 32 * 32))
      = w.SenderTime + 32 * ((w.PulseTime + 1125 * N - w.SenderTime) / 32) := by
    unfold int32; omega
  unfold WriteIrNecSignalPulse
  simp only [NecPulseSize, IrSendTickSize, e1, e2, htd, e3]
  obtain ⟨w', hw', hs, hp, hst, hb⟩ := loop_spec isSet
    ((w.PulseTime + 1125 * N - w.SenderTime) / 32).toNat
    ((w.PulseTime + 1125 * N - w.SenderTime) / 32)
    { Buf := w.Buf, Size := w.Size, PulseTime := w.PulseTime + 1125 * N,
      SenderTime := w.SenderTime + 32 * ((w.PulseTime + 1125 * N - w.SenderTime) / 32) }
    hT0 (by rw [Int.toNat_of_nonneg hT0]) (by omega) hZ0 hZ
  exact ⟨w', hw', hp, hst, hs, hb⟩

theorem lor_128 : ∀ n : Fin 128, n.val ||| 128 = n.val + 128 := by decide

theorem blockByte_mark (T : Int) (h0 : 0 ≤ T) (h1 : T ≤ 127) :
    blockByte true T = T.toNat + 128 := by
  have hlt : T.toNat < 128 := by omega
  have := lor_128 ⟨T.toNat, hlt⟩
  simp only at this
  simp only [blockByte, if_true, this]
  omega

theorem blockByte_space (T : Int) (h0 : 0 ≤ T) (h1 : T ≤ 127) :
    blockByte false T = T.toNat := by
  simp only [blockByte]
  simp
  omega

/-- A pulse of `N` units whose tick count fits one byte writes exactly that byte. -/
theorem pulse_one_byte (w : TqIrWriteData) (N : Int) (isSet : Bool) (lo : Int)
    (hN : 0 ≤ N) (hinv : Residue w) (hlo : 1 ≤ lo) (hlo' : 32 * lo ≤ 1125 * N)
    (hhi : 1125 * N + 31 < 32 * (lo + 2)) (h127 : lo + 1 ≤ 127)
    (hS : -2147483648 ≤ w.SenderTime) (hP : w.PulseTime + 1125 * N ≤ 2147483647)
    (hZ0 : -2147483648 ≤ w.Size) (hZ : w.Size + 1 ≤ 2147483647) :
    ∃ w' t, WriteIrNecSignalPulse w N isSet = some w' ∧ Residue w' ∧
      w'.Size = w.Size + 1 ∧ (t = lo ∨ t = lo + 1) ∧
      w'.PulseTime = w.PulseTime + 1125 * N ∧
      w'.SenderTime = w.SenderTime + 32 * t ∧
      w'.Buf w.Size = blockByte isSet t ∧
      ∀ j, j ≠ w.Size → w'.Buf j = w.Buf j := by
  obtain ⟨h0, h32⟩ := hinv
  have hT : (w.PulseTime + 1125 * N - w.SenderTime) / 32 = lo ∨
      (w.PulseTime + 1125 * N - w.SenderTime) / 32 = lo + 1 := by omega
  obtain ⟨w', hw', hp, hs, hsz, hb⟩ := pulse_spec w N isSet h0 hN hS hP (by omega) hZ0
    (by omega)
  refine ⟨w', (w.PulseTime + 1125 * N - w.SenderTime) / 32, hw', ?_, ?_, hT, hp, hs, ?_, ?_⟩
  · unfold Residue; rw [hp, hs]; omega
  · rw [hsz]; omega
  · rw [hb w.Size]
    have c : w.Size ≤ w.Size ∧
        w.Size < w.Size + ((w.PulseTime + 1125 * N - w.SenderTime) / 32 + 126) / 127 := by omega
    rw [if_pos c]
    congr 1
    omega
  · intro j hj
    rw [hb j]
    have c : ¬ (w.Size ≤ j ∧
        j < w.Size + ((w.PulseTime + 1125 * N - w.SenderTime) / 32 + 126) / 127) := by omega
    rw [if_neg c]

theorem bits_spec : ∀ (n : Nat) (tcode : Nat) (w : TqIrWriteData), Residue w →
    -2147483648 ≤ w.SenderTime → w.PulseTime + 4500 * n ≤ 2147483647 →
    -2147483648 ≤ w.Size → w.Size + 2 * n ≤ 2147483647 →
    ∃ w', WriteIrNecSignal.bits n tcode w = some w' ∧ Residue w' ∧
      w'.Size = w.Size + 2 * n ∧
      w.SenderTime ≤ w'.SenderTime ∧ w'.PulseTime ≤ w.PulseTime + 4500 * n ∧
      (∀ j, (j < w.Size ∨ w.Size + 2 * n ≤ j) → w'.Buf j = w.Buf j) ∧
      ∀ i : Nat, i < n →
        (w'.Buf (w.Size + 2 * i) = 163 ∨ w'.Buf (w.Size + 2 * i) = 164) ∧
        (tcode.testBit i = true →
          (w'.Buf (w.Size + 2 * i + 1) = 105 ∨ w'.Buf (w.Size + 2 * i + 1) = 106)) ∧
        (tcode.testBit i = false →
          (w'.Buf (w.Size + 2 * i + 1) = 35 ∨ w'.Buf (w.Size + 2 * i + 1) = 36)) := by
  intro n
  induction n with
  | zero =>
    intro tcode w hinv _ _ _ _
    exact ⟨w, rfl, hinv, by simp, le_refl _, by simp, fun j _ => rfl,
      fun i hi => absurd hi (Nat.not_lt_zero i)⟩
  | succ n ih =>
    intro tcode w hinv hS hP hZ0 hZ
    push_cast at hP hZ
    obtain ⟨w1, t1, hw1, hinv1, hs1, ht1, hp1, hst1, hb1, hf1⟩ :=
      pulse_one_byte w 1 true 35 (by norm_num) hinv (by norm_num) (by norm_num) (by norm_num)
        (by norm_num) hS (by omega) hZ0 (by omega)
    have hS1 : -2147483648 ≤ w1.SenderTime := by rcases ht1 with h | h <;> omega
    have hsp : ∃ w2 t2, WriteIrNecSignalPulse w1 (if tcode &&& 1 ≠ 0 then 3 else 1) false
          = some w2 ∧ Residue w2 ∧ w2.Size = w1.Size + 1 ∧
          w1.SenderTime ≤ w2.SenderTime ∧ w2.PulseTime ≤ w1.PulseTime + 3375 ∧
          (tcode.testBit 0 = true → (t2 = 105 ∨ t2 = 106)) ∧
          (tcode.testBit 0 = false → (t2 = 35 ∨ t2 = 36)) ∧
          w2.Buf w1.Size = blockByte false t2 ∧ ∀ j, j ≠ w1.Size → w2.Buf j = w1.Buf j := by
      by_cases hbit : tcode &&& 1 ≠ 0
      · have hb0 : tcode.testBit 0 = true := by
          rw [Nat.and_one_is_mod] at hbit
          rw [Nat.testBit_zero]; simp; omega
        rw [if_pos hbit]
        obtain ⟨w2, t2, hw2, hinv2, hs2, ht2, hp2, hst2, hb2, hf2⟩ :=
          pulse_one_byte w1 3 false 105 (by norm_num) hinv1 (by norm_num) (by norm_num)
            (by norm_num) (by norm_num) hS1 (by omega) (by omega) (by omega)
        exact ⟨w2, t2, hw2, hinv2, hs2, by rcases ht2 with h | h <;> omega, by omega,
          fun _ => ht2, fun h => by simp [hb0] at h, hb2, hf2⟩
      · have hb0 : tcode.testBit 0 = false := by
          rw [Nat.and_one_is_mod] at hbit
          rw [Nat.testBit_zero]; simp; omega
        rw [if_neg hbit]
        obtain ⟨w2, t2, hw2, hinv2, hs2, ht2, hp2, hst2, hb2, hf2⟩ :=
          pulse_one_byte w1 1 false 35 (by norm_num) hinv1 (by norm_num) (by norm_num)
            (by norm_num) (by norm_num) hS1 (by omega) (by omega) (by omega)
        exact ⟨w2, t2, hw2, hinv2, hs2, by rcases ht2 with h | h <;> omega, by omega,
          fun h => by simp [hb0] at h, fun _ => ht2, hb2, hf2⟩
    obtain ⟨w2, t2, hw2, hinv2, hs2, hst2, hp2, ht2a, ht2b, hb2, hf2⟩ := hsp
    obtain ⟨w3, hw3, hinv3, hs3, hst3, hp3, hf3, hbits⟩ := ih (tcode >>> 1) w2 hinv2
      (by omega) (by omega) (by omega) (by omega)
    refine ⟨w3, ?_, hinv3, ?_, by omega, by push_cast; omega, ?_, ?_⟩
    · simp only [WriteIrNecSignal.bits, hw1, Option.bind, hw2, hw3]
    · rw [hs3, hs2, hs1]; push_cast; ring
    · intro j hj
      rw [hf3 j (by omega), hf2 j (by omega), hf1 j (by omega)]
    · intro i hi
      have hw2s : w2.Size = w.Size + 2 := by omega
      cases i with
      | zero =>
        have e0 : w3.Buf (w.Size + 2 * ((0 : Nat) : Int)) = blockByte true t1 := by
          rw [hf3 _ (by omega), hf2 _ (by omega)]
          simpa using hb1
        have e1 : w3.Buf (w.Size + 2 * ((0 : Nat) : Int) + 1) = blockByte false t2 := by
          rw [hf3 _ (by omega)]
          have : w.Size + 2 * ((0 : Nat) : Int) + 1 = w1.Size := by omega
          rw [this]; exact hb2
        rw [e0, e1]
        refine ⟨?_, ?_, ?_⟩
        · rcases ht1 with h | h <;> subst h <;> simp [blockByte_mark]
        · intro hb
          rcases ht2a hb with h | h <;> subst h <;> simp [blockByte_space]
        · intro hb
          rcases ht2b hb with h | h <;> subst h <;> simp [blockByte_space]
      | succ k =>
        obtain ⟨hm, hs1', hs0'⟩ := hbits k (by omega)
        have ea : w.Size + 2 * ((k + 1 : Nat) : Int) = w2.Size + 2 * (k : Int) := by
          push_cast; omega
        have hbitk : tcode.testBit (k + 1) = (tcode >>> 1).testBit k := by
          rw [Nat.testBit_succ, Nat.shiftRight_one]
        rw [ea, hbitk]
        exact ⟨hm, hs1', hs0'⟩

theorem WriteIrNecSignal_spec (IrCode : Nat) (OutBuf : Int → Nat) :
    ∃ out, WriteIrNecSignal IrCode OutBuf = some (93, out) ∧
      (∀ j, (j < 0 ∨ 93 ≤ j) → out j = OutBuf j) ∧
      (out 0 = 255 ∧ out 1 = 255 ∧ out 2 = 255 ∧ out 3 = 255 ∧ out 4 = 182) ∧
      (out 5 = 127 ∧ out 6 = 127 ∧ out 7 = 27) ∧
      (∀ i : Nat, i < 32 →
        (out (8 + 2 * i) = 163 ∨ out (8 + 2 * i) = 164) ∧
        ((tcodeOf IrCode).testBit i = true →
          (out (8 + 2 * i + 1) = 105 ∨ out (8 + 2 * i + 1) = 106)) ∧
        ((tcodeOf IrCode).testBit i = false →
          (out (8 + 2 * i + 1) = 35 ∨ out (8 + 2 * i + 1) = 36))) ∧
      (out 72 = 163 ∨ out 72 = 164) ∧
      (∀ k : Nat, k < 19 → out (73 + k) = 127) ∧
      (out 92 = 118 ∨ out 92 = 119) := by
  -- leading mark
  obtain ⟨w1, hw1, hp1, hs1, hz1, hb1⟩ :=
    pulse_spec { Buf := OutBuf, Size := 0, PulseTime := 0, SenderTime := 0 } 16 true
      (by norm_num) (by norm_num) (by norm_num) (by norm_num) (by norm_num) (by norm_num)
      (by norm_num)
  norm_num at hp1 hs1 hz1 hb1
  -- leading space
  obtain ⟨w2, hw2, hp2, hs2, hz2, hb2⟩ :=
    pulse_spec w1 8 false (by rw [hp1, hs1]; norm_num) (by norm_num)
      (by rw [hs1]; norm_num) (by rw [hp1]; norm_num) (by rw [hp1, hs1]; norm_num)
      (by rw [hz1]; norm_num) (by rw [hp1, hs1, hz1]; norm_num)
  rw [hp1, hs1, hz1] at hz2 hb2
  rw [hp1] at hp2
  rw [hp1, hs1] at hs2
  norm_num at hp2 hs2 hz2 hb2
  have hinv2 : Residue w2 := by unfold Residue; rw [hp2, hs2]; norm_num
  -- the 32 bits
  obtain ⟨w3, hw3, hinv3, hz3, hst3, hp3, hf3, hbits⟩ := bits_spec 32 (tcodeOf IrCode) w2 hinv2
    (by rw [hs2]; norm_num) (by rw [hp2]; norm_num) (by rw [hz2]; norm_num)
    (by rw [hz2]; norm_num)
  rw [hz2] at hz3 hf3 hbits
  rw [hs2] at hst3
  rw [hp2] at hp3
  norm_num at hz3 hf3 hp3
  -- trailing mark
  obtain ⟨w4, t4, hw4, hinv4, hz4, ht4, hp4, hst4, hb4, hf4⟩ :=
    pulse_one_byte w3 1 true 35 (by norm_num) hinv3 (by norm_num) (by norm_num) (by norm_num)
      (by norm_num) (by omega) (by omega) (by omega) (by omega)
  rw [hz3] at hz4 hb4 hf4
  norm_num at hz4
  -- trailing space
  have hT : (w4.PulseTime + 1125 * 72 - w4.SenderTime) / 32 = 2531 ∨
      (w4.PulseTime + 1125 * 72 - w4.SenderTime) / 32 = 2532 := by
    have := hinv4.1; have := hinv4.2; omega
  obtain ⟨w5, hw5, -, -, hz5, hb5⟩ := pulse_spec w4 72 false hinv4.1 (by norm_num)
    (by rcases ht4 with h | h <;> omega) (by omega)
    (by have := hinv4.1; have := hinv4.2; omega) (by omega)
    (by rcases hT with h | h <;> rw [h] <;> omega)
  rw [hz4] at hz5 hb5
  have hz5' : w5.Size = 93 := by rcases hT with h | h <;> rw [h] at hz5 <;> omega
  have hlast : ∀ j : Int, w5.Buf j =
      if 73 ≤ j ∧ j < 93 then
        blockByte false (min ((w4.PulseTime + 1125 * 72 - w4.SenderTime) / 32 - 127 * (j - 73)) 127)
      else w4.Buf j := by
    intro j
    rw [hb5 j]
    by_cases c : 73 ≤ j ∧ j < 93
    · have c' : 73 ≤ j ∧
          j < 73 + ((w4.PulseTime + 1125 * 72 - w4.SenderTime) / 32 + 126) / 127 := by omega
      rw [if_pos c, if_pos c']
    · have c' : ¬ (73 ≤ j ∧
          j < 73 + ((w4.PulseTime + 1125 * 72 - w4.SenderTime) / 32 + 126) / 127) := by omega
      rw [if_neg c, if_neg c']
  have early : ∀ j : Int, j < 72 → w5.Buf j = w3.Buf j := by
    intro j hj
    have c : ¬ (73 ≤ j ∧ j < 93) := by omega
    rw [hlast j, if_neg c, hf4 j (by omega)]
  have lead : ∀ j : Int, j < 8 → w5.Buf j = w2.Buf j := by
    intro j hj
    rw [early j (by omega), hf3 j (by omega)]
  have mark : ∀ (j : Int) (v : Int), 0 ≤ j → j < 5 → 0 ≤ v → v ≤ 127 →
      min (562 - 127 * j) 127 = v → w5.Buf j = v.toNat + 128 := by
    intro j v h0 h5 hv0 hv1 hv
    have c1 : ¬ (5 ≤ j ∧ j < 8) := by omega
    have c2 : 0 ≤ j ∧ j < 5 := by omega
    rw [lead j (by omega), hb2 j, if_neg c1, hb1 j, if_pos c2, hv, blockByte_mark v hv0 hv1]
  have space : ∀ (j : Int) (v : Int), 5 ≤ j → j < 8 → 0 ≤ v → v ≤ 127 →
      min (281 - 127 * (j - 5)) 127 = v → w5.Buf j = v.toNat := by
    intro j v h0 h5 hv0 hv1 hv
    have c1 : 5 ≤ j ∧ j < 8 := by omega
    rw [lead j (by omega), hb2 j, if_pos c1, hv, blockByte_space v hv0 hv1]
  refine ⟨w5.Buf, ?_, ?_, ?_, ?_, ?_, ?_, ?_, ?_⟩
  · simp only [WriteIrNecSignal, hw1, Option.bind, hw2, hw3, hw4, hw5, hz5']
  · intro j hj
    have c : ¬ (73 ≤ j ∧ j < 93) := by omega
    have c1 : ¬ (5 ≤ j ∧ j < 8) := by omega
    have c2 : ¬ (0 ≤ j ∧ j < 5) := by omega
    rw [hlast j, if_neg c, hf4 j (by omega), hf3 j (by omega), hb2 j, if_neg c1, hb1 j,
      if_neg c2]
  · refine ⟨?_, ?_, ?_, ?_, ?_⟩
    · exact mark 0 127 (by norm_num) (by norm_num) (by norm_num) (by norm_num) (by norm_num)
    · exact mark 1 127 (by norm_num) (by norm_num) (by norm_num) (by norm_num) (by norm_num)
    · exact mark 2 127 (by norm_num) (by norm_num) (by norm_num) (by norm_num) (by norm_num)
    · exact mark 3 127 (by norm_num) (by norm_num) (by norm_num) (by norm_num) (by norm_num)
    · exact mark 4 54 (by norm_num) (by norm_num) (by norm_num) (by norm_num) (by norm_num)
  · refine ⟨?_, ?_, ?_⟩
    · exact space 5 127 (by norm_num) (by norm_num) (by norm_num) (by norm_num) (by norm_num)
    · exact space 6 127 (by norm_num) (by norm_num) (by norm_num) (by norm_num) (by norm_num)
    · exact space 7 27 (by norm_num) (by norm_num) (by norm_num) (by norm_num) (by norm_num)
  · intro i hi
    have e1 : w5.Buf (8 + 2 * (i : Int)) = w3.Buf (8 + 2 * (i : Int)) := early _ (by omega)
    have e2 : w5.Buf (8 + 2 * (i : Int) + 1) = w3.Buf (8 + 2 * (i : Int) + 1) :=
      early _ (by omega)
    rw [e1, e2]
    exact hbits i hi
  · have c : ¬ (73 ≤ (72 : Int) ∧ (72 : Int) < 93) := by omega
    rw [hlast 72, if_neg c, hb4]
    rcases ht4 with h | h <;> subst h <;> simp [blockByte_mark]
  · intro k hk
    have c : 73 ≤ (73 + (k : Int)) ∧ (73 + (k : Int)) < 93 := by omega
    have hv : min ((w4.PulseTime + 1125 * 72 - w4.SenderTime) / 32 - 127 * (73 + (k : Int) - 73))
        127 = 127 := by omega
    rw [hlast _, if_pos c, hv, blockByte_space 127 (by norm_num) (by norm_num)]
    rfl
  · have c : 73 ≤ (92 : Int) ∧ (92 : Int) < 93 := by omega
    rw [hlast 92, if_pos c]
    rcases hT with h | h
    · left
      have hv : min ((w4.PulseTime + 1125 * 72 - w4.SenderTime) / 32 - 127 * (92 - 73)) 127
          = 118 := by omega
      rw [hv, blockByte_space 118 (by norm_num) (by norm_num)]; rfl
    · right
      have hv : min ((w4.PulseTime + 1125 * 72 - w4.SenderTime) / 32 - 127 * (92 - 73)) 127
          = 119 := by omega
      rw [hv, blockByte_space 119 (by norm_num) (by norm_num)]; rfl

theorem not8_eq (x : Nat) (hx : x < 256) : not8 x = 255 - x := by
  unfold not8
  omega

theorem frame_bytes (hi nh lo nl : Nat) (h1 : hi < 256) (h2 : nh < 256) (h3 : lo < 256) :
    hi + 256 * nh + 65536 * lo + 16777216 * nl
      = hi ||| (nh <<< 8) ||| (lo <<< 16) ||| (nl <<< 24) := by
  have s1 : 2 ^ 8 * nh + hi = 2 ^ 8 * nh ||| hi := Nat.mul_add_lt_is_or (by norm_num; exact h1) nh
  have s2 : 2 ^ 16 * lo + (2 ^ 8 * nh + hi) = 2 ^ 16 * lo ||| (2 ^ 8 * nh + hi) :=
    Nat.mul_add_lt_is_or (by norm_num; omega) lo
  have s3 : 2 ^ 24 * nl + (2 ^ 16 * lo + (2 ^ 8 * nh + hi))
      = 2 ^ 24 * nl ||| (2 ^ 16 * lo + (2 ^ 8 * nh + hi)) :=
    Nat.mul_add_lt_is_or (by norm_num; omega) nl
  have e : hi + 256 * nh + 65536 * lo + 16777216 * nl
      = 2 ^ 24 * nl + (2 ^ 16 * lo + (2 ^ 8 * nh + hi)) := by norm_num; omega
  rw [e, s3, s2, s1, Nat.shiftLeft_eq, Nat.shiftLeft_eq, Nat.shiftLeft_eq,
    Nat.mul_comm nh, Nat.mul_comm lo, Nat.mul_comm nl]
  rw [Nat.or_comm (2 ^ 8 * nh) hi, Nat.or_comm (2 ^ 16 * lo), Nat.or_comm (2 ^ 24 * nl)]

theorem tcodeOf_eq_frame (IrCode : Nat) :
    tcodeOf IrCode =
      (IrCode / 256 % 256) ||| ((255 - IrCode / 256 % 256) <<< 8) ||| ((IrCode % 256) <<< 16)
        ||| ((255 - IrCode % 256) <<< 24) := by
  have hhi : IrCode / 256 % 256 < 256 := Nat.mod_lt _ (by norm_num)
  have hlo : IrCode % 256 < 256 := Nat.mod_lt _ (by norm_num)
  unfold tcodeOf
  simp only [not8_eq _ hhi, not8_eq _ hlo]
  exact frame_bytes _ _ _ _ hhi (by omega) hlo


/-! ## Inbound reassembly: one iteration -/

theorem rd_memcpy_zero (buf rx : List Nat) (i : Nat) (hi : i < rx.length) :
    rd (memcpy buf 0 rx rx.length) i = rd rx i := by
  simp [rd, memcpy, List.getD_eq_getElem?_getD, List.getElem?_append_left, hi]

theorem drop_memcpy_zero (buf rx : List Nat) (k n : Nat) (h : k + n ≤ rx.length) :
    ((memcpy buf 0 rx rx.length).drop k).take n = (rx.drop k).take n := by
  simp only [memcpy, List.take_zero, List.nil_append, List.take_length, Nat.zero_add]
  rw [List.drop_append_of_le_length (by omega), List.take_append_of_le_length (by simp; omega)]

theorem append_ok (st : ReadState) (n : Nat) (hc : st.FragmCount ≠ 0)
    (h1 : rd st.FragmBuf 1 = n + 3) (h0 : 0 ≤ st.PackSize) (hsz : st.PackSize + n ≤ 1024)
    (hidx : rd st.FragmBuf 4 = st.LastFragmIdx) :
    ReadThreadFn.append st =
      some ({ st with
              PackBuf := memcpy st.PackBuf st.PackSize.toNat (st.FragmBuf.drop 5) n
              PackSize := st.PackSize + n },
            dispatchOf (memcpy st.PackBuf st.PackSize.toNat (st.FragmBuf.drop 5) n)
              (st.PackSize + n)) := by
  have e : ((n + 3 : Nat) : Int) + 2 - ((5 : Nat) : Int) = (n : Int) := by push_cast; ring
  have c1 : ¬ ((n : Int) < 0 ∨ st.PackSize < 0) := by omega
  simp only [ReadThreadFn.append, h1, sizeofReport2Header, MaxUsbPacketSize, e, hc, ne_eq,
    not_false_eq_true, if_true, hsz, c1, if_false, Int.toNat_ofNat, hidx, true_and, dispatchOf]
  split_ifs <;> simp_all

theorem memcpy_src (dst : List Nat) (off : Nat) (src src' : List Nat) (n : Nat)
    (h : src.take n = src'.take n) : memcpy dst off src n = memcpy dst off src' n := by
  simp [memcpy, h]

theorem reassemble_new (st : ReadState) (rx : List Nat) (n : Nat)
    (hacc : Accepted rx n) (hn : n ≤ 1024) (hcnt : 0 < rd rx 3) (hidx : rd rx 4 = 1)
    (hnot : ¬ (st.FragmCount ≠ 0 ∧ rd rx 2 = st.PacketIdx ∧ rd rx 3 = st.FragmCount
      ∧ rd rx 4 = st.LastFragmIdx + 1)) :
    ReadThreadFn.iteration st (some rx) =
      some ({ FragmBuf := memcpy st.FragmBuf 0 rx rx.length
              PackBuf := memcpy st.PackBuf 0 (rx.drop 5) n
              PackSize := n
              PacketIdx := rd rx 2
              FragmCount := rd rx 3
              LastFragmIdx := 1 },
            dispatchOf (memcpy st.PackBuf 0 (rx.drop 5) n) n) := by
  obtain ⟨h5, h0, h1, hlen⟩ := hacc
  have r0 := rd_memcpy_zero st.FragmBuf rx 0 (by omega)
  have r1 := rd_memcpy_zero st.FragmBuf rx 1 (by omega)
  have r2 := rd_memcpy_zero st.FragmBuf rx 2 (by omega)
  have r3 := rd_memcpy_zero st.FragmBuf rx 3 (by omega)
  have r4 := rd_memcpy_zero st.FragmBuf rx 4 (by omega)
  have hd := drop_memcpy_zero st.FragmBuf rx 5 n (by omega)
  have hvalid : rx.length > sizeofReport2Header ∧ rd (ReadPipe st rx).FragmBuf 0 = ReadReportId
      ∧ rd (ReadPipe st rx).FragmBuf 1 + 2 ≤ rx.length := by
    simp only [ReadPipe, r0, r1, sizeofReport2Header]
    exact ⟨h5, h0, by omega⟩
  have hadd : ReadThreadFn.addToExisting (ReadPipe st rx)
      = { ReadPipe st rx with FragmCount := 0 } := by
    simp only [ReadThreadFn.addToExisting, ReadPipe, r2, r3, r4]
    by_cases hz : st.FragmCount = 0
    · simp [hz]
    · have : ¬ (rd rx 2 = st.PacketIdx ∧ rd rx 3 = st.FragmCount
          ∧ rd rx 4 = st.LastFragmIdx + 1) := fun h => hnot ⟨hz, h⟩
      simp [hz, this]
  have hnew : ReadThreadFn.newPacket { ReadPipe st rx with FragmCount := 0 }
      = { ReadPipe st rx with
          PacketIdx := rd rx 2, FragmCount := rd rx 3, PackSize := 0, LastFragmIdx := 1 } := by
    simp only [ReadThreadFn.newPacket, ReadPipe, r2, r3, r4]
    simp [hcnt, hidx]
  simp only [ReadThreadFn.iteration, ReadThreadFn.reassemble, hvalid, and_self, if_true, hadd,
    hnew]
  rw [append_ok _ n (by simp only [ne_eq]; omega) (by simp [ReadPipe, r1, h1]) (by simp)
    (by simp only [Int.zero_add]; omega) (by simp [ReadPipe, r4, hidx])]
  simp only [ReadPipe, Int.toNat_zero, Int.zero_add]
  rw [memcpy_src _ _ _ _ _ hd]

theorem reassemble_cont (st : ReadState) (rx : List Nat) (n : Nat)
    (hacc : Accepted rx n) (hc : st.FragmCount ≠ 0)
    (hp : rd rx 2 = st.PacketIdx) (hcnt : rd rx 3 = st.FragmCount)
    (hidx : rd rx 4 = st.LastFragmIdx + 1) (h256 : st.LastFragmIdx + 1 < 256)
    (h0 : 0 ≤ st.PackSize) (hsz : st.PackSize + n ≤ 1024) :
    ReadThreadFn.iteration st (some rx) =
      some ({ FragmBuf := memcpy st.FragmBuf 0 rx rx.length
              PackBuf := memcpy st.PackBuf st.PackSize.toNat (rx.drop 5) n
              PackSize := st.PackSize + n
              PacketIdx := st.PacketIdx
              FragmCount := st.FragmCount
              LastFragmIdx := st.LastFragmIdx + 1 },
            dispatchOf (memcpy st.PackBuf st.PackSize.toNat (rx.drop 5) n)
              (st.PackSize + n)) := by
  obtain ⟨h5, hid, h1, hlen⟩ := hacc
  have r0 := rd_memcpy_zero st.FragmBuf rx 0 (by omega)
  have r1 := rd_memcpy_zero st.FragmBuf rx 1 (by omega)
  have r2 := rd_memcpy_zero st.FragmBuf rx 2 (by omega)
  have r3 := rd_memcpy_zero st.FragmBuf rx 3 (by omega)
  have r4 := rd_memcpy_zero st.FragmBuf rx 4 (by omega)
  have hd := drop_memcpy_zero st.FragmBuf rx 5 n (by omega)
  have hvalid : rx.length > sizeofReport2Header ∧ rd (ReadPipe st rx).FragmBuf 0 = ReadReportId
      ∧ rd (ReadPipe st rx).FragmBuf 1 + 2 ≤ rx.length := by
    simp only [ReadPipe, r0, r1, sizeofReport2Header]
    exact ⟨h5, hid, by omega⟩
  have hadd : ReadThreadFn.addToExisting (ReadPipe st rx)
      = { ReadPipe st rx with LastFragmIdx := st.LastFragmIdx + 1 } := by
    simp only [ReadThreadFn.addToExisting, ReadPipe, r2, r3, r4]
    simp [hc, hp, hcnt, hidx, Nat.mod_eq_of_lt h256]
  have hnew : ReadThreadFn.newPacket { ReadPipe st rx with LastFragmIdx := st.LastFragmIdx + 1 }
      = { ReadPipe st rx with LastFragmIdx := st.LastFragmIdx + 1 } := by
    simp only [ReadThreadFn.newPacket, ReadPipe]
    simp [hc]
  simp only [ReadThreadFn.iteration, ReadThreadFn.reassemble, hvalid, and_self, if_true, hadd,
    hnew]
  rw [append_ok _ n (by simpa [ReadPipe] using hc) (by simp [ReadPipe, r1, h1])
    (by simpa [ReadPipe] using h0) (by simpa [ReadPipe] using hsz)
    (by simp [ReadPipe, r4, hidx])]
  simp only [ReadPipe]
  rw [memcpy_src _ _ _ _ _ hd]

/-! ## Inbound reassembly: runs of fragments -/

theorem run_cons (st st1 st2 : ReadState) (x : Option (List Nat))
    (xs : List (Option (List Nat))) (c : Option (List Nat × Int)) (cs : List (List Nat × Int))
    (h1 : ReadThreadFn.iteration st x = some (st1, c))
    (h2 : ReadThreadFn.run st1 xs = some (st2, cs)) :
    ReadThreadFn.run st (x :: xs) = some (st2, c.toList ++ cs) := by
  simp only [ReadThreadFn.run, h1, h2]

theorem accepted_fragmentReport (p cnt k : Nat) (c : List Nat) (hc : c ≠ []) :
    Accepted (fragmentReport ReadReportId p cnt k c) c.length := by
  have : 0 < c.length := List.length_pos.mpr hc
  simp [Accepted, fragmentReport, rd]
  omega

theorem rd_fragmentReport (id p cnt k : Nat) (c : List Nat) :
    rd (fragmentReport id p cnt k c) 2 = p ∧ rd (fragmentReport id p cnt k c) 3 = cnt ∧
    rd (fragmentReport id p cnt k c) 4 = k ∧
    ((fragmentReport id p cnt k c).drop 5) = c := by
  simp [fragmentReport, rd]

theorem memcpy_exact (dst : List Nat) (off : Nat) (c : List Nat) (h : off ≤ dst.length) :
    (memcpy dst off c c.length).take (off + c.length) = dst.take off ++ c ∧
    off + c.length ≤ (memcpy dst off c c.length).length := by
  simp only [memcpy, List.take_length]
  constructor
  · rw [List.take_append_of_le_length (by simp; omega)]
    rw [List.take_of_length_le (by simp)]
  · simp only [List.length_append, List.length_take, List.length_drop]; omega

/-- In sequence fragments of the packet in progress are appended one after the other. -/
theorem run_cont (p cnt : Nat) : ∀ (cs : List (List Nat)) (k : Nat) (st : ReadState),
    st.FragmCount = cnt → cnt ≠ 0 → st.PacketIdx = p → st.LastFragmIdx + 1 = k →
    k + cs.length ≤ 256 → 0 ≤ st.PackSize → st.PackSize.toNat ≤ st.PackBuf.length →
    st.PackSize + cs.flatten.length ≤ 1024 → (∀ c ∈ cs, c ≠ []) →
    ∃ st' calls, ReadThreadFn.run st ((fragmentReports ReadReportId p cnt k cs).map some)
        = some (st', calls) ∧
      st'.PackSize = st.PackSize + cs.flatten.length ∧
      st'.PackBuf.take st'.PackSize.toNat = st.PackBuf.take st.PackSize.toNat ++ cs.flatten ∧
      st'.PackSize.toNat ≤ st'.PackBuf.length ∧
      st'.FragmCount = cnt ∧ st'.PacketIdx = p ∧ st'.LastFragmIdx + 1 = k + cs.length ∧
      (∀ c ∈ calls, c.2 ≤ st'.PackSize - 4) ∧
      (cs ≠ [] → ∃ earlier, calls = earlier ++ (dispatchOf st'.PackBuf st'.PackSize).toList) := by
  intro cs
  induction cs with
  | nil =>
    intro k st _ _ hp hk _ h0 hlen _ _
    refine ⟨st, [], rfl, by simp, by simp, hlen, ‹_›, hp, by simpa using hk, by simp, by simp⟩
  | cons c cs ih =>
    intro k st hcnt hcnt0 hp hk h256 h0 hlen hsz hne
    have hc : c ≠ [] := hne c (List.mem_cons_self _ _)
    have hjoin : (c :: cs).flatten.length = c.length + cs.flatten.length := by simp
    have hl : (c :: cs).length = cs.length + 1 := rfl
    rw [hjoin] at hsz
    rw [hl] at h256
    push_cast at hsz
    obtain ⟨r2, r3, r4, rdrop⟩ := rd_fragmentReport ReadReportId p cnt k c
    have hstep := reassemble_cont st (fragmentReport ReadReportId p cnt k c) c.length
      (accepted_fragmentReport p cnt k c hc) (by rw [hcnt]; exact hcnt0) (by rw [r2, hp])
      (by rw [r3, hcnt]) (by rw [r4, hk]) (by omega) h0 (by omega)
    rw [rdrop] at hstep
    obtain ⟨hex, hex2⟩ := memcpy_exact st.PackBuf st.PackSize.toNat c hlen
    have e : (st.PackSize + (c.length : Int)).toNat = st.PackSize.toNat + c.length := by omega
    obtain ⟨st', calls, hrun, hs, hbuf, hlen', hc', hp', hk', hcalls, hlast⟩ :=
      ih (k + 1)
        { FragmBuf := memcpy st.FragmBuf 0 (fragmentReport ReadReportId p cnt k c)
            (fragmentReport ReadReportId p cnt k c).length
          PackBuf := memcpy st.PackBuf st.PackSize.toNat c c.length
          PackSize := st.PackSize + c.length
          PacketIdx := st.PacketIdx
          FragmCount := st.FragmCount
          LastFragmIdx := st.LastFragmIdx + 1 }
        hcnt hcnt0 hp (by show st.LastFragmIdx + 1 + 1 = k + 1; omega) (by omega)
        (by show 0 ≤ st.PackSize + (c.length : Int); omega)
        (by show (st.PackSize + (c.length : Int)).toNat ≤ _; rw [e]; exact hex2)
        (by show st.PackSize + (c.length : Int) + _ ≤ 1024; omega)
        (fun c' hc' => hne c' (List.mem_cons_of_mem _ hc'))
    dsimp only at hs hbuf
    refine ⟨st', (dispatchOf (memcpy st.PackBuf st.PackSize.toNat c c.length)
      (st.PackSize + c.length)).toList ++ calls, ?_, ?_, ?_, hlen', hc', hp', ?_, ?_, ?_⟩
    · simp only [fragmentReports, List.map_cons]
      exact run_cons _ _ _ _ _ _ _ hstep hrun
    · rw [hs, hjoin]; push_cast; ring
    · rw [hbuf, e, hex]
      simp
    · rw [hk', hl]; omega
    · intro x hx
      rcases List.mem_append.mp hx with h | h
      · have : x.2 = st.PackSize + c.length - 4 := by
          unfold dispatchOf at h
          split_ifs at h
          · simp only [Option.toList, List.mem_singleton] at h
            rw [h]
          · simp at h
        rw [this, hs]; omega
      · exact hcalls x h
    · intro _
      by_cases hcs : cs = []
      · subst hcs
        simp only [fragmentReports, List.map_nil, ReadThreadFn.run, Option.some.injEq,
          Prod.mk.injEq] at hrun
        obtain ⟨h1, h2⟩ := hrun
        subst h1; subst h2
        exact ⟨[], by simp⟩
      · obtain ⟨earlier, he⟩ := hlast hcs
        exact ⟨(dispatchOf (memcpy st.PackBuf st.PackSize.toNat c c.length)
          (st.PackSize + c.length)).toList ++ earlier, by rw [he]; simp⟩

theorem rd_take (buf : List Nat) (n i : Nat) (h : i < n) : rd (buf.take n) i = rd buf i := by
  simp [rd, List.getD_eq_getElem?_getD, List.getElem?_take, h]

theorem dispatchOf_take (buf : List Nat) (n : Nat) (h6 : 6 < n) :
    dispatchOf buf n = dispatchOf (buf.take n) n := by
  have e1 : ((n : Int) - 2).toNat = n - 2 := by omega
  have e2 : ((n : Int) - 4).toNat = n - 4 := by omega
  have t1 : List.take (n - 4) (List.drop 2 (List.take n buf))
      = List.take (n - 4) (List.drop 2 buf) := by
    rw [List.drop_take, List.take_take]
    congr 1
    omega
  simp only [dispatchOf, rd16, e1, e2, rd_take buf n 0 (by omega), rd_take buf n 1 (by omega),
    rd_take buf n (n - 2) (by omega), rd_take buf n (n - 2 + 1) (by omega), t1]

/-- A whole run of fragments `1, 2, ..` that open a new packet. -/
theorem run_packet (p cnt : Nat) (c : List Nat) (cs : List (List Nat)) (st : ReadState)
    (hcnt : cnt ≠ 0) (hst : st.FragmCount ≠ 0 → st.LastFragmIdx ≠ 0)
    (hlen : (c :: cs).length ≤ 255) (hsz : (c :: cs).flatten.length ≤ 1024)
    (hne : ∀ x ∈ c :: cs, x ≠ []) :
    ∃ st' calls, ReadThreadFn.run st ((fragmentReports ReadReportId p cnt 1 (c :: cs)).map some)
        = some (st', calls) ∧
      st'.PackSize = (c :: cs).flatten.length ∧
      st'.PackBuf.take (c :: cs).flatten.length = (c :: cs).flatten ∧
      st'.FragmCount = cnt ∧ st'.PacketIdx = p ∧ st'.LastFragmIdx = (c :: cs).length ∧
      (∀ x ∈ calls, x.2 ≤ ((c :: cs).flatten.length : Int) - 4) ∧
      ∃ earlier, calls = earlier ++
        (dispatchOf (c :: cs).flatten ((c :: cs).flatten.length : Nat)).toList := by
  have hc : c ≠ [] := hne c (List.mem_cons_self _ _)
  have hjoin : (c :: cs).flatten.length = c.length + cs.flatten.length := by simp
  have hl : (c :: cs).length = cs.length + 1 := rfl
  obtain ⟨r2, r3, r4, rdrop⟩ := rd_fragmentReport ReadReportId p cnt 1 c
  have hstep := reassemble_new st (fragmentReport ReadReportId p cnt 1 c) c.length
    (accepted_fragmentReport p cnt 1 c hc) (by omega) (by rw [r3]; omega) r4
    (by
      rintro ⟨h0, -, -, h4⟩
      rw [r4] at h4
      exact hst h0 (by omega))
  rw [rdrop, r2, r3] at hstep
  obtain ⟨hex, hex2⟩ := memcpy_exact st.PackBuf 0 c (Nat.zero_le _)
  obtain ⟨st', calls, hrun, hs, hbuf, hlen', hc', hp', hk', hcalls, hlast⟩ :=
    run_cont p cnt cs 2
      { FragmBuf := memcpy st.FragmBuf 0 (fragmentReport ReadReportId p cnt 1 c)
          (fragmentReport ReadReportId p cnt 1 c).length
        PackBuf := memcpy st.PackBuf 0 c c.length
        PackSize := c.length
        PacketIdx := p
        FragmCount := cnt
        LastFragmIdx := 1 }
      rfl hcnt rfl rfl (by omega) (by show (0 : Int) ≤ c.length; omega)
      (by show ((c.length : Int)).toNat ≤ _; simpa using hex2)
      (by show (c.length : Int) + _ ≤ 1024; omega)
      (fun c' hc' => hne c' (List.mem_cons_of_mem _ hc'))
  dsimp only at hs hbuf
  have hsN : st'.PackSize = ((c :: cs).flatten.length : Nat) := by rw [hs, hjoin]; push_cast; ring
  have htake : st'.PackBuf.take (c :: cs).flatten.length = (c :: cs).flatten := by
    have h1 := hbuf
    rw [hsN] at h1
    have e0 : (((c :: cs).flatten.length : Nat) : Int).toNat = (c :: cs).flatten.length := by
      omega
    have e1 : ((c.length : Nat) : Int).toNat = c.length := by omega
    rw [e0, e1] at h1
    have h2 := hex
    simp only [Nat.zero_add, List.take_zero, List.nil_append] at h2
    rw [h1, h2]
    simp
  refine ⟨st', (dispatchOf (memcpy st.PackBuf 0 c c.length) c.length).toList ++ calls,
    ?_, hsN, htake, hc', hp', by omega, ?_, ?_⟩
  · simp only [fragmentReports, List.map_cons]
    exact run_cons _ _ _ _ _ _ _ hstep hrun
  · intro x hx
    rcases List.mem_append.mp hx with h | h
    · have : x.2 = (c.length : Int) - 4 := by
        unfold dispatchOf at h
        split_ifs at h
        · simp only [Option.toList, List.mem_singleton] at h
          rw [h]
        · simp at h
      rw [this, hjoin]; push_cast; omega
    · have := hcalls x h
      rw [hsN] at this
      exact this
  · have hd : dispatchOf st'.PackBuf st'.PackSize
        = dispatchOf (c :: cs).flatten ((c :: cs).flatten.length : Nat) := by
      by_cases h6 : 6 < (c :: cs).flatten.length
      · rw [hsN, dispatchOf_take _ _ h6, htake]
      · rw [hsN]
        have c1 : ¬ ((((c :: cs).flatten.length : Nat) : Int) > 6) := by omega
        simp only [dispatchOf, c1, false_and, if_false]
    by_cases hcs : cs = []
    · subst hcs
      simp only [fragmentReports, List.map_nil, ReadThreadFn.run, Option.some.injEq,
        Prod.mk.injEq] at hrun
      obtain ⟨h1, h2⟩ := hrun
      subst h1; subst h2
      refine ⟨[], ?_⟩
      rw [← hd]
      simp
    · obtain ⟨earlier, he⟩ := hlast hcs
      refine ⟨(dispatchOf (memcpy st.PackBuf 0 c c.length) c.length).toList ++ earlier, ?_⟩
      rw [he, hd]
      simp

/-! ## Outbound framing -/


theorem payloadChunks_flatten : ∀ (fuel : Nat) (d : List Nat), d.length ≤ fuel →
    (payloadChunks fuel d).flatten = d := by
  intro fuel
  induction fuel with
  | zero =>
    intro d h
    have : d = [] := List.length_eq_zero.mp (by omega)
    subst this; rfl
  | succ n ih =>
    intro d h
    by_cases hd : d = []
    · subst hd; simp [payloadChunks]
    · have hpos : 0 < d.length := List.length_pos.mpr hd
      simp only [payloadChunks, hd, if_false, List.flatten_cons]
      rw [ih (d.drop 56) (by simp; omega), List.take_append_drop]

theorem payloadChunks_ne : ∀ (fuel : Nat) (d : List Nat),
    ∀ c ∈ payloadChunks fuel d, c ≠ [] ∧ c.length ≤ 56 := by
  intro fuel
  induction fuel with
  | zero => intro d c hc; simp [payloadChunks] at hc
  | succ n ih =>
    intro d c hc
    by_cases hd : d = []
    · simp [payloadChunks, hd] at hc
    · have hpos : 0 < d.length := List.length_pos.mpr hd
      simp only [payloadChunks, hd, if_false, List.mem_cons] at hc
      rcases hc with h | h
      · subst h
        constructor
        · intro h0
          have := congrArg List.length h0
          rw [List.length_take, List.length_nil] at this
          omega
        · rw [List.length_take]; omega
      · exact ih _ c h

theorem payloadChunks_length : ∀ (fuel : Nat) (d : List Nat), d.length ≤ fuel →
    (payloadChunks fuel d).length = (d.length + 55) / 56 := by
  intro fuel
  induction fuel with
  | zero =>
    intro d h
    have : d = [] := List.length_eq_zero.mp (by omega)
    subst this; rfl
  | succ n ih =>
    intro d h
    by_cases hd : d = []
    · subst hd; simp [payloadChunks]
    · have hpos : 0 < d.length := List.length_pos.mpr hd
      simp only [payloadChunks, hd, if_false, List.length_cons]
      rw [ih (d.drop 56) (by simp; omega)]
      simp only [List.length_drop]
      omega

theorem payloadChunks_fuel : ∀ (fuel fuel' : Nat) (d : List Nat), d.length ≤ fuel →
    d.length ≤ fuel' → payloadChunks fuel d = payloadChunks fuel' d := by
  intro fuel
  induction fuel with
  | zero =>
    intro fuel' d h _
    have : d = [] := List.length_eq_zero.mp (by omega)
    subst this
    cases fuel' <;> simp [payloadChunks]
  | succ n ih =>
    intro fuel' d h h'
    by_cases hd : d = []
    · subst hd; cases fuel' <;> simp [payloadChunks]
    · have hpos : 0 < d.length := List.length_pos.mpr hd
      cases fuel' with
      | zero => omega
      | succ m =>
        simp only [payloadChunks, hd, if_false]
        rw [ih m (d.drop 56) (by simp; omega) (by simp; omega)]

theorem take_take_length (l : List Nat) (k : Nat) : l.take (l.take k).length = l.take k := by
  rw [List.length_take]
  by_cases h : k ≤ l.length
  · rw [Nat.min_eq_left h]
  · rw [Nat.min_eq_right (by omega), List.take_length, List.take_of_length_le (by omega)]

/-- The loop of `SendReport2` writes one report per slice when every write succeeds. -/
theorem SendReport2_loop_frames (data : List Nat) (p cnt : Nat) (hsize : data.length ≤ 1024) :
    ∀ (fuel : Nat) (a b : Nat) (rest : List Nat) (RdPtr FragmIndex : Int) (usb : Transport),
    (∀ i, usb.WriteOk i = true) → rest.length = 56 → 0 ≤ RdPtr → RdPtr ≤ data.length →
    (data.length : Int) - RdPtr ≤ fuel → 0 ≤ FragmIndex →
    (RdPtr = 56 * FragmIndex ∨ RdPtr = data.length) →
    SendReport2.loop data data.length fuel (WriteReportId :: a :: p :: cnt :: b :: rest)
        RdPtr FragmIndex usb
      = some (true, { usb with Written := (usb.Written ++
          fragmentReports WriteReportId p cnt (FragmIndex + 1).toNat
            (payloadChunks fuel (data.drop RdPtr.toNat))) }) := by
  intro fuel
  induction fuel with
  | zero =>
    intro a b rest RdPtr FragmIndex usb hok hrest h0 hle hfuel hfi hinv
    have : ¬ (RdPtr < (data.length : Int)) := by push_cast at hfuel; omega
    simp [SendReport2.loop, this, payloadChunks, fragmentReports]
  | succ n ih =>
    intro a b rest RdPtr FragmIndex usb hok hrest h0 hle hfuel hfi hinv
    by_cases hlt : RdPtr < (data.length : Int)
    · have hr : RdPtr = 56 * FragmIndex := by
        rcases hinv with h | h
        · exact h
        · omega
      have hdl : (data.drop RdPtr.toNat).length = data.length - RdPtr.toNat := List.length_drop _ _
      have hne : data.drop RdPtr.toNat ≠ [] := by
        intro h
        have := congrArg List.length h
        rw [hdl, List.length_nil] at this
        omega
      have hcl : ((data.drop RdPtr.toNat).take 56).length = min 56 (data.length - RdPtr.toNat) := by
        rw [List.length_take, hdl]
      have hfs : (if (data.length : Int) - RdPtr > MaxUsbFragmSize then MaxUsbFragmSize
          else (data.length : Int) - RdPtr)
          = (((data.drop RdPtr.toNat).take 56).length : Int) := by
        rw [hcl, MaxUsbFragmSize]
        split_ifs <;> omega
      have hk : ((FragmIndex + 1) % 256).toNat = (FragmIndex + 1).toNat := by omega
      have hsz3 : (((((data.drop RdPtr.toNat).take 56).length : Int) + 3) % 256).toNat
          = ((data.drop RdPtr.toNat).take 56).length + 3 := by omega
      have hsz5 : ((((data.drop RdPtr.toNat).take 56).length : Int)
          + (sizeofReport2Header : Nat)).toNat
          = ((data.drop RdPtr.toNat).take 56).length + 5 := by
        simp only [sizeofReport2Header]; omega
      have htk : List.take ((data.drop RdPtr.toNat).take 56).length (data.drop RdPtr.toNat)
          = (data.drop RdPtr.toNat).take 56 := take_take_length _ _
      have hdrop : data.drop (RdPtr + (((data.drop RdPtr.toNat).take 56).length : Int)).toNat
          = (data.drop RdPtr.toNat).drop 56 := by
        rw [List.drop_drop]
        by_cases h56 : 56 ≤ data.length - RdPtr.toNat
        · congr 1
          rw [hcl]; omega
        · rw [List.drop_eq_nil_of_le (by rw [hcl]; omega), List.drop_eq_nil_of_le (by omega)]
      have hpc : payloadChunks (n + 1) (data.drop RdPtr.toNat)
          = (data.drop RdPtr.toNat).take 56 :: payloadChunks n ((data.drop RdPtr.toNat).drop 56) := by
        simp only [payloadChunks, hne, if_false]
      have hc56 : ((data.drop RdPtr.toNat).take 56).length ≤ 56 := by rw [hcl]; omega
      have hnew : RdPtr + (((data.drop RdPtr.toNat).take 56).length : Int) = 56 * (FragmIndex + 1)
          ∨ RdPtr + (((data.drop RdPtr.toNat).take 56).length : Int) = data.length := by
        rw [hcl]; omega
      have hle' : RdPtr + (((data.drop RdPtr.toNat).take 56).length : Int) ≤ data.length := by
        rw [hcl]; omega
      have hfuel' : (data.length : Int)
          - (RdPtr + (((data.drop RdPtr.toNat).take 56).length : Int)) ≤ n := by
        rw [hcl]; push_cast at hfuel ⊢; omega
      rw [hpc]
      simp only [SendReport2.loop, hlt, if_true, hfs, hk, hsz3, hsz5]
      rw [← hdrop]
      generalize (data.drop RdPtr.toNat).take 56 = chunk at *
      have hbuf : memcpy (((WriteReportId :: a :: p :: cnt :: b :: rest).set 4
            (FragmIndex + 1).toNat).set 1 (chunk.length + 3))
            sizeofReport2Header (data.drop RdPtr.toNat) chunk.length
          = WriteReportId :: (chunk.length + 3) :: p :: cnt ::
              (FragmIndex + 1).toNat :: (chunk ++ rest.drop chunk.length) := by
        have hd5 : List.drop (5 + chunk.length)
            (WriteReportId :: (chunk.length + 3) :: p :: cnt :: (FragmIndex + 1).toNat :: rest)
            = rest.drop chunk.length := by
          rw [← List.drop_drop]
          rfl
        simp only [memcpy, sizeofReport2Header, htk, List.set_cons_succ, List.set_cons_zero,
          List.take_succ_cons, List.take_zero, hd5]
        rfl
      have hwr : (WriteReportId :: (chunk.length + 3) :: p :: cnt ::
              (FragmIndex + 1).toNat :: (chunk ++ rest.drop chunk.length)).take
            (chunk.length + 5)
          = fragmentReport WriteReportId p cnt (FragmIndex + 1).toNat chunk := by
        simp [fragmentReport]
      have hih := ih (chunk.length + 3) (FragmIndex + 1).toNat
        (chunk ++ rest.drop chunk.length)
        (RdPtr + (chunk.length : Int)) (FragmIndex + 1)
        { usb with Written := usb.Written ++ [fragmentReport WriteReportId p cnt
            (FragmIndex + 1).toNat chunk] }
        hok (by rw [List.length_append, List.length_drop, hrest]; omega) (by omega)
        hle' hfuel' (by omega) hnew
      simp only [Int.toNat_ofNat, hbuf, hwr, Transport.WritePipe, hok, Bool.not_true,
        Bool.false_eq_true, if_false]
      rw [hih]
      simp only [fragmentReports, List.append_assoc, List.singleton_append]
      have e2 : (FragmIndex + 1 + 1).toNat = (FragmIndex + 1).toNat + 1 := by omega
      rw [e2]
    · have e : data.drop RdPtr.toNat = [] := by
        apply List.drop_eq_nil_of_le; omega
      simp [SendReport2.loop, hlt, payloadChunks, fragmentReports, e]

theorem SendReport2_ok (dev : TiqiaaUsbIr) (data : List Nat) (h1 : 1 ≤ data.length)
    (h2 : data.length ≤ 1024) (hok : ∀ i, dev.Usb.WriteOk i = true) :
    dev.SendReport2 data data.length = some (true,
      { dev with
        PacketIndex := nextPacketIndex dev.PacketIndex
        Usb := { dev.Usb with Written := (dev.Usb.Written ++
          fragmentReports WriteReportId (nextPacketIndex dev.PacketIndex)
            ((data.length + 55) / 56) 1 (payloadChunks data.length data)) } }) := by
  have hrep : List.replicate 61 0 = 0 :: 0 :: 0 :: 0 :: 0 :: List.replicate 56 0 := rfl
  have c0 : ¬ ((data.length : Int) ≤ 0 ∨ (data.length : Int) > MaxUsbPacketSize) := by
    simp only [MaxUsbPacketSize]; omega
  have hdiv : Int.tdiv (data.length : Int) MaxUsbFragmSize = (data.length : Int) / 56 :=
    Int.tdiv_eq_ediv (by omega) (by simp [MaxUsbFragmSize])
  have hmod : Int.tmod (data.length : Int) MaxUsbFragmSize = (data.length : Int) % 56 :=
    Int.tmod_eq_emod (by omega) (by simp [MaxUsbFragmSize])
  have hcnt : ∃ a b rest, rest.length = 56 ∧
      ((if Int.tmod (data.length : Int) MaxUsbFragmSize ≠ 0 then
          (((List.replicate 61 0).set 0 WriteReportId).set 3
            (Int.tdiv (data.length : Int) MaxUsbFragmSize % 256).toNat).set 3
            ((rd (((List.replicate 61 0).set 0 WriteReportId).set 3
              (Int.tdiv (data.length : Int) MaxUsbFragmSize % 256).toNat) 3 + 1) % 256)
        else ((List.replicate 61 0).set 0 WriteReportId).set 3
            (Int.tdiv (data.length : Int) MaxUsbFragmSize % 256).toNat).set 2
          (nextPacketIndex dev.PacketIndex))
        = WriteReportId :: a :: nextPacketIndex dev.PacketIndex :: ((data.length + 55) / 56)
            :: b :: rest := by
    refine ⟨0, 0, List.replicate 56 0, by simp, ?_⟩
    rw [hrep, hdiv, hmod]
    by_cases hm : (data.length : Int) % 56 ≠ 0
    · have hc1 : (((data.length : Int) / 56 % 256).toNat + 1) % 256 = (data.length + 55) / 56 := by
        omega
      simp only [hm, ne_eq, not_false_eq_true, if_true, List.set_cons_zero, List.set_cons_succ, rd,
        List.getD_cons_succ, List.getD_cons_zero, hc1]
    · have hc2 : ((data.length : Int) / 56 % 256).toNat = (data.length + 55) / 56 := by
        omega
      simp only [hm, if_false, List.set_cons_zero, List.set_cons_succ, hc2]
  obtain ⟨a, b, rest, hrest, hbuf⟩ := hcnt
  have hloop := SendReport2_loop_frames data (nextPacketIndex dev.PacketIndex)
    ((data.length + 55) / 56) h2 data.length a b rest 0 0 dev.Usb hok hrest (le_refl _)
    (by omega) (by omega) (le_refl _) (Or.inl (by norm_num))
  simp only [Int.toNat_zero, List.drop_zero, zero_add] at hloop
  have hidx : (if (dev.PacketIndex + 1) % 256 > MaxUsbPacketIndex then
        ({ dev with PacketIndex := 1 } : TiqiaaUsbIr)
      else { dev with PacketIndex := (dev.PacketIndex + 1) % 256 })
      = { dev with PacketIndex := nextPacketIndex dev.PacketIndex } := by
    unfold nextPacketIndex
    split_ifs <;> rfl
  unfold SendReport2
  simp only [c0, if_false, hidx, hbuf, Int.toNat_ofNat, hloop]
  rfl

/-- Whatever the pipe answers, the loop of `SendReport2` returns, and every report it hands to
the pipe carries the header bytes set up before the loop. -/
theorem SendReport2_loop_any (data : List Nat) (size : Int) (p cnt : Nat) :
    ∀ (fuel : Nat) (a b : Nat) (rest : List Nat) (RdPtr FragmIndex : Int) (usb : Transport),
    size - RdPtr ≤ fuel →
    ∃ res ws, SendReport2.loop data size fuel (WriteReportId :: a :: p :: cnt :: b :: rest)
        RdPtr FragmIndex usb = some (res, { usb with Written := (usb.Written ++ ws) }) ∧
      (RdPtr < size → ws ≠ []) ∧
      ∀ r ∈ ws, rd r 0 = WriteReportId ∧ rd r 2 = p ∧ rd r 3 = cnt := by
  intro fuel
  induction fuel with
  | zero =>
    intro a b rest RdPtr FragmIndex usb hfuel
    have : ¬ (RdPtr < size) := by push_cast at hfuel; omega
    exact ⟨true, [], by simp [SendReport2.loop, this], fun h => absurd h this, by simp⟩
  | succ n ih =>
    intro a b rest RdPtr FragmIndex usb hfuel
    by_cases hlt : RdPtr < size
    · have hfs : 1 ≤ (if size - RdPtr > MaxUsbFragmSize then MaxUsbFragmSize else size - RdPtr) := by
        simp only [MaxUsbFragmSize]; split_ifs <;> omega
      simp only [SendReport2.loop, hlt, if_true]
      generalize (if size - RdPtr > MaxUsbFragmSize then MaxUsbFragmSize else size - RdPtr) = fs
        at hfs
      have hbuf : ∃ a' b' rest', memcpy (((WriteReportId :: a :: p :: cnt :: b :: rest).set 4
            ((FragmIndex + 1) % 256).toNat).set 1 ((fs + 3) % 256).toNat)
            sizeofReport2Header (data.drop RdPtr.toNat) fs.toNat
          = WriteReportId :: a' :: p :: cnt :: b' :: rest' := by
        exact ⟨((fs + 3) % 256).toNat, ((FragmIndex + 1) % 256).toNat, _, rfl⟩
      obtain ⟨a', b', rest', hbuf⟩ := hbuf
      have htk : ∃ tl, (WriteReportId :: a' :: p :: cnt :: b' :: rest').take
          (fs + (sizeofReport2Header : Nat)).toNat = WriteReportId :: a' :: p :: cnt :: b' :: tl := by
        have : (fs + (sizeofReport2Header : Nat)).toNat = (fs.toNat - 1 + 1) + 4 + 1 := by
          simp only [sizeofReport2Header]; omega
        rw [this]
        exact ⟨_, rfl⟩
      obtain ⟨tl, htk⟩ := htk
      have hrd : rd (WriteReportId :: a' :: p :: cnt :: b' :: tl) 0 = WriteReportId ∧
          rd (WriteReportId :: a' :: p :: cnt :: b' :: tl) 2 = p ∧
          rd (WriteReportId :: a' :: p :: cnt :: b' :: tl) 3 = cnt := ⟨rfl, rfl, rfl⟩
      rw [hbuf, htk]
      simp only [Transport.WritePipe]
      by_cases hw : usb.WriteOk usb.Written.length = true
      · obtain ⟨res, ws, hl, -, hws⟩ := ih a' b' rest' (RdPtr + fs) (FragmIndex + 1)
          { usb with Written := usb.Written ++ [WriteReportId :: a' :: p :: cnt :: b' :: tl] }
          (by push_cast at hfuel; omega)
        refine ⟨res, (WriteReportId :: a' :: p :: cnt :: b' :: tl) :: ws, ?_, fun _ => by simp, ?_⟩
        · simp only [hw, Bool.not_true, Bool.false_eq_true, if_false, hl]
          simp
        · intro r hr
          rcases List.mem_cons.mp hr with h | h
          · rw [h]; exact hrd
          · exact hws r h
      · refine ⟨false, [WriteReportId :: a' :: p :: cnt :: b' :: tl], ?_, fun _ => by simp, ?_⟩
        · simp [hw]
        · intro r hr
          rw [List.mem_singleton.mp hr]; exact hrd
    · exact ⟨true, [], by simp [SendReport2.loop, hlt], fun h => absurd h hlt, by simp⟩

/-- A call of `SendReport2` with a valid size returns, advances the packet index once and puts
the new index in every report it hands to the pipe; it changes nothing else. -/
theorem SendReport2_index (dev : TiqiaaUsbIr) (data : List Nat) (size : Int)
    (h1 : 1 ≤ size) (h2 : size ≤ 1024) :
    ∃ res ws, dev.SendReport2 data size = some (res,
        { dev with
          PacketIndex := nextPacketIndex dev.PacketIndex
          Usb := { dev.Usb with Written := (dev.Usb.Written ++ ws) } }) ∧
      ws ≠ [] ∧ ∀ r ∈ ws, rd r 2 = nextPacketIndex dev.PacketIndex := by
  have hrep : List.replicate 61 0 = 0 :: 0 :: 0 :: 0 :: 0 :: List.replicate 56 0 := rfl
  have c0 : ¬ (size ≤ 0 ∨ size > MaxUsbPacketSize) := by
    simp only [MaxUsbPacketSize]; omega
  have hcnt : ∃ a b cnt rest,
      ((if Int.tmod size MaxUsbFragmSize ≠ 0 then
          (((List.replicate 61 0).set 0 WriteReportId).set 3
            (Int.tdiv size MaxUsbFragmSize % 256).toNat).set 3
            ((rd (((List.replicate 61 0).set 0 WriteReportId).set 3
              (Int.tdiv size MaxUsbFragmSize % 256).toNat) 3 + 1) % 256)
        else ((List.replicate 61 0).set 0 WriteReportId).set 3
            (Int.tdiv size MaxUsbFragmSize % 256).toNat).set 2
          (nextPacketIndex dev.PacketIndex))
        = WriteReportId :: a :: nextPacketIndex dev.PacketIndex :: cnt :: b :: rest := by
    rw [hrep]
    by_cases hm : Int.tmod size MaxUsbFragmSize ≠ 0
    · rw [if_pos hm]
      exact ⟨0, 0, _, _, rfl⟩
    · rw [if_neg hm]
      exact ⟨0, 0, _, _, rfl⟩
  obtain ⟨a, b, cnt, rest, hbuf⟩ := hcnt
  obtain ⟨res, ws, hloop, hne, hws⟩ := SendReport2_loop_any data size
    (nextPacketIndex dev.PacketIndex) cnt size.toNat a b rest 0 0 dev.Usb (by omega)
  have hidx : (if (dev.PacketIndex + 1) % 256 > MaxUsbPacketIndex then
        ({ dev with PacketIndex := 1 } : TiqiaaUsbIr)
      else { dev with PacketIndex := (dev.PacketIndex + 1) % 256 })
      = { dev with PacketIndex := nextPacketIndex dev.PacketIndex } := by
    unfold nextPacketIndex
    split_ifs <;> rfl
  refine ⟨res, ws, ?_, hne (by omega), fun r hr => (hws r hr).2.1⟩
  unfold SendReport2
  simp only [c0, if_false, hidx, hbuf, hloop]

/-! ## The reply correlator -/


/-- What one call of `ProcessRecvPacket` may change in the wait slot. -/
theorem ProcessRecvPacket_wait (dev : TiqiaaUsbIr) (pack : List Nat) (size : Int) :
    (dev.ProcessRecvPacket pack size).DevHandle = dev.DevHandle ∧
    (dev.ProcessRecvPacket pack size).IsWaitingCmdReply = dev.IsWaitingCmdReply ∧
    (dev.ProcessRecvPacket pack size).WaitCmdId = dev.WaitCmdId ∧
    (dev.ProcessRecvPacket pack size).WaitCmdType = dev.WaitCmdType ∧
    (dev.ProcessRecvPacket pack size).PacketIndex = dev.PacketIndex ∧
    (dev.ProcessRecvPacket pack size).Usb = dev.Usb ∧
    ((dev.ProcessRecvPacket pack size).IsCmdReplyReceived = true →
      dev.IsCmdReplyReceived = true ∨
        (rd pack 0 = dev.WaitCmdId ∧ rd pack 1 = dev.WaitCmdType)) := by
  unfold ProcessRecvPacket
  simp only [EnterCriticalSection, LeaveCriticalSection, SetEvent]
  cases hw : dev.IsWaitingCmdReply <;> cases hr : dev.IsCmdReplyReceived <;>
  by_cases h0 : rd pack 0 = dev.WaitCmdId <;> by_cases h1 : rd pack 1 = dev.WaitCmdType <;>
  simp [h0, h1] <;> split_ifs <;> simp_all

theorem dispatchAll_wait (calls : List (List Nat × Int)) : ∀ (dev : TiqiaaUsbIr),
    (dev.dispatchAll calls).DevHandle = dev.DevHandle ∧
    (dev.dispatchAll calls).IsWaitingCmdReply = dev.IsWaitingCmdReply ∧
    (dev.dispatchAll calls).WaitCmdId = dev.WaitCmdId ∧
    (dev.dispatchAll calls).WaitCmdType = dev.WaitCmdType ∧
    (dev.dispatchAll calls).PacketIndex = dev.PacketIndex ∧
    (dev.dispatchAll calls).Usb = dev.Usb ∧
    ((dev.dispatchAll calls).IsCmdReplyReceived = true →
      dev.IsCmdReplyReceived = true ∨
        ∃ c ∈ calls, rd c.1 0 = dev.WaitCmdId ∧ rd c.1 1 = dev.WaitCmdType) := by
  induction calls with
  | nil => intro dev; simp [dispatchAll]
  | cons c cs ih =>
    intro dev
    obtain ⟨a1, a2, a3, a4, a5, a6, a7⟩ := ProcessRecvPacket_wait dev c.1 c.2
    obtain ⟨b1, b2, b3, b4, b5, b6, b7⟩ := ih (dev.ProcessRecvPacket c.1 c.2)
    have e : dev.dispatchAll (c :: cs) = (dev.ProcessRecvPacket c.1 c.2).dispatchAll cs := rfl
    rw [e]
    refine ⟨b1.trans a1, b2.trans a2, b3.trans a3, b4.trans a4, b5.trans a5, b6.trans a6, ?_⟩
    intro h
    rcases b7 h with h' | ⟨x, hx, hx0, hx1⟩
    · rcases a7 h' with h'' | h''
      · exact Or.inl h''
      · exact Or.inr ⟨c, List.mem_cons_self _ _, h''⟩
    · exact Or.inr ⟨x, List.mem_cons_of_mem _ hx, by rw [hx0, a3], by rw [hx1, a4]⟩

theorem asInbound_fragmentReports (p cnt : Nat) : ∀ (cs : List (List Nat)) (k : Nat),
    (fragmentReports WriteReportId p cnt k cs).map asInbound
      = fragmentReports ReadReportId p cnt k cs := by
  intro cs
  induction cs with
  | nil => intro k; rfl
  | cons c cs ih =>
    intro k
    simp only [fragmentReports, List.map_cons, ih]
    rfl

/-- C1 (fragment/reassemble round trip).  For every byte sequence `d` of 1 to 1024 bytes, on a
pipe whose writes all succeed `SendReport2(d)` returns `true`, and the reports it wrote, with
the report id replaced by the read tag and fed in order to the loop of `ReadThreadFn` in a
state with no packet in progress, leave the packet buffer holding exactly `d`:
`PackSize = |d|` and `PackBuf[0..PackSize) = d`. -/
theorem fragment_reassemble_roundtrip (dev : TiqiaaUsbIr) (st : ReadState) (d : List Nat)
    (h1 : 1 ≤ d.length) (h2 : d.length ≤ 1024) (hok : ∀ i, dev.Usb.WriteOk i = true)
    (hidle : st.FragmCount = 0) :
    ∃ dev' st' calls, dev.SendReport2 d d.length = some (true, dev') ∧
      ReadThreadFn.run st
          (((dev'.Usb.Written.drop dev.Usb.Written.length).map asInbound).map some)
        = some (st', calls) ∧
      st'.PackSize = d.length ∧ st'.PackBuf.take d.length = d := by
  have hsend := SendReport2_ok dev d h1 h2 hok
  have hfl := payloadChunks_flatten d.length d (le_refl _)
  have hlen := payloadChunks_length d.length d (le_refl _)
  have hne := payloadChunks_ne d.length d
  cases hcs : payloadChunks d.length d with
  | nil =>
    rw [hcs] at hlen
    simp only [List.length_nil] at hlen
    omega
  | cons c cs =>
    rw [hcs] at hfl hlen hne
    obtain ⟨st', calls, hrun, hs, hbuf, -⟩ :=
      run_packet (nextPacketIndex dev.PacketIndex) ((d.length + 55) / 56) c cs st (by omega)
        (fun h => absurd hidle h) (by rw [hlen]; omega) (by rw [hfl]; exact h2)
        (fun x hx => (hne x hx).1)
    rw [hfl] at hs hbuf
    refine ⟨_, st', calls, hsend, ?_, hs, hbuf⟩
    simp only [List.drop_left', hcs, asInbound_fragmentReports]
    exact hrun

theorem fragment_reassemble_roundtrip_witness :
    1 ≤ [10, 20, 30].length ∧ [10, 20, 30].length ≤ 1024 ∧ sampleReadState.FragmCount = 0 ∧
    ∃ dev' st' calls,
      sampleDevice.SendReport2 [10, 20, 30] ([10, 20, 30].length : Nat) = some (true, dev') ∧
      ReadThreadFn.run sampleReadState
          (((dev'.Usb.Written.drop sampleDevice.Usb.Written.length).map asInbound).map some)
        = some (st', calls) ∧
      st'.PackSize = ([10, 20, 30].length : Nat) ∧ st'.PackBuf.take [10, 20, 30].length
        = [10, 20, 30] :=
  ⟨by decide, by decide, rfl,
    fragment_reassemble_roundtrip sampleDevice sampleReadState [10, 20, 30] (by decide)
      (by decide) (fun _ => rfl) rfl⟩

theorem GetCmdIdState_CmdId (raw : TiqiaaUsbIr) (n : Nat) :
    (GetCmdIdState (ctor raw) n).CmdId = if n = 0 then 0 else (n - 1) % 127 + 1 := by
  induction n with
  | zero => simp [GetCmdIdState, ctor]
  | succ k ih =>
    simp only [GetCmdIdState, GetCmdId, ih, MaxCmdId]
    split_ifs <;> simp_all <;> omega

/-- C2 (command-id counter).  From a newly constructed device, the call number `n + 1` of
`GetCmdId` returns `(n mod 127) + 1`: a value between 1 and 127, never 0; whenever it has
returned 127 (call number `127 n + 127`) the next call returns 1. -/
theorem GetCmdId_cycle (raw : TiqiaaUsbIr) (n : Nat) :
    (GetCmdId (GetCmdIdState (ctor raw) n)).1 = n % 127 + 1 ∧
    1 ≤ (GetCmdId (GetCmdIdState (ctor raw) n)).1 ∧
    (GetCmdId (GetCmdIdState (ctor raw) n)).1 ≤ 127 ∧
    (GetCmdId (GetCmdIdState (ctor raw) n)).1 ≠ 0 ∧
    (GetCmdId (GetCmdIdState (ctor raw) (127 * n + 126))).1 = 127 ∧
    (GetCmdId (GetCmdIdState (ctor raw) (127 * n + 127))).1 = 1 := by
  have key : ∀ m, (GetCmdId (GetCmdIdState (ctor raw) m)).1 = m % 127 + 1 := by
    intro m
    have h := GetCmdIdState_CmdId raw (m + 1)
    simp only [GetCmdIdState] at h
    simpa [GetCmdId] using h
  rw [key n, key (127 * n + 126), key (127 * n + 127)]
  omega

theorem nextPacketIndex_cycle (j : Nat) :
    nextPacketIndex (if j = 0 then 0 else (j - 1) % 15 + 1) = j % 15 + 1 := by
  unfold nextPacketIndex MaxUsbPacketIndex
  split_ifs <;> omega

theorem SendReport2_invalid (dev : TiqiaaUsbIr) (data : List Nat) (size : Int)
    (h : ¬ (1 ≤ size ∧ size ≤ 1024)) : dev.SendReport2 data size = some (false, dev) := by
  have c0 : size ≤ 0 ∨ size > MaxUsbPacketSize := by
    simp only [MaxUsbPacketSize]; omega
  simp only [SendReport2, c0, if_true]

theorem SendReport2Calls_index : ∀ (calls : List (List Nat × Int)) (dev : TiqiaaUsbIr) (j : Nat),
    dev.PacketIndex = (if j = 0 then 0 else (j - 1) % 15 + 1) →
    ∃ dev1, SendReport2Calls dev calls = some dev1 ∧
      dev1.PacketIndex
        = (if j + validCalls calls = 0 then 0 else (j + validCalls calls - 1) % 15 + 1) := by
  intro calls
  induction calls with
  | nil => intro dev j h; exact ⟨dev, rfl, by simpa [validCalls] using h⟩
  | cons c cs ih =>
    intro dev j h
    by_cases hv : 1 ≤ c.2 ∧ c.2 ≤ 1024
    · obtain ⟨res, ws, hs, -, -⟩ := SendReport2_index dev c.1 c.2 hv.1 hv.2
      obtain ⟨dev1, hr, hp⟩ := ih
        { dev with
          PacketIndex := nextPacketIndex dev.PacketIndex
          Usb := { dev.Usb with Written := (dev.Usb.Written ++ ws) } } (j + 1)
        (by
          show nextPacketIndex dev.PacketIndex = _
          rw [h, nextPacketIndex_cycle]
          simp)
      have hcount : validCalls (c :: cs) = validCalls cs + 1 := by
        simp [validCalls, List.filter_cons, hv]
      refine ⟨dev1, ?_, ?_⟩
      · simp only [SendReport2Calls, hs, hr]
      · rw [hp, hcount]
        have : j + 1 + validCalls cs = j + (validCalls cs + 1) := by omega
        rw [this]
    · obtain ⟨dev1, hr, hp⟩ := ih dev j h
      have hcount : validCalls (c :: cs) = validCalls cs := by
        simp [validCalls, List.filter_cons, hv]
      refine ⟨dev1, ?_, ?_⟩
      · simp only [SendReport2Calls, SendReport2_invalid dev c.1 c.2 hv, hr]
      · rw [hp, hcount]

/-- C3 (packet-index counter).  From a newly constructed device, after any calls of
`SendReport2`, of which `k - 1` had a valid size, the next call with a valid size (1 to 1024),
the `k`-th such call, returns whatever the pipe answers, hands at least one report to the pipe,
and every report it hands over carries the packet index `((k - 1) mod 15) + 1`, a value between
1 and 15 and never 0; the counter holds that value afterwards: it has advanced exactly once. -/
theorem PacketIndex_cycle (raw : TiqiaaUsbIr) (calls : List (List Nat × Int)) (data : List Nat)
    (size : Int) (h1 : 1 ≤ size) (h2 : size ≤ 1024) :
    ∃ dev1 res dev2 ws, SendReport2Calls (ctor raw) calls = some dev1 ∧
      dev1.SendReport2 data size = some (res, dev2) ∧
      dev2.Usb.Written = dev1.Usb.Written ++ ws ∧ ws ≠ [] ∧
      (∀ r ∈ ws, rd r 2 = validCalls calls % 15 + 1) ∧
      dev2.PacketIndex = validCalls calls % 15 + 1 ∧
      dev2.PacketIndex = nextPacketIndex dev1.PacketIndex ∧
      1 ≤ validCalls calls % 15 + 1 ∧ validCalls calls % 15 + 1 ≤ 15 ∧
      validCalls calls % 15 + 1 ≠ 0 := by
  obtain ⟨dev1, hr, hp⟩ := SendReport2Calls_index calls (ctor raw) 0 rfl
  obtain ⟨res, ws, hs, hne, hws⟩ := SendReport2_index dev1 data size h1 h2
  have hidx : nextPacketIndex dev1.PacketIndex = validCalls calls % 15 + 1 := by
    rw [hp, Nat.zero_add, nextPacketIndex_cycle]
  refine ⟨dev1, res, _, ws, hr, hs, rfl, hne, ?_, hidx, rfl, by omega, by omega, by omega⟩
  intro r hr'
  rw [hws r hr', hidx]

theorem PacketIndex_cycle_witness :
    (1 : Int) ≤ 2 ∧ (2 : Int) ≤ 1024 ∧
    ∃ dev1 res dev2 ws,
      SendReport2Calls (ctor sampleDevice)
        [([1, 2, 3], 3), ([], 0), (List.replicate 100 7, 100)] = some dev1 ∧
      dev1.SendReport2 [5, 6] 2 = some (res, dev2) ∧
      dev2.Usb.Written = dev1.Usb.Written ++ ws ∧ ws ≠ [] ∧
      (∀ r ∈ ws, rd r 2
        = validCalls [([1, 2, 3], 3), ([], 0), (List.replicate 100 7, 100)] % 15 + 1) ∧
      dev2.PacketIndex
        = validCalls [([1, 2, 3], 3), ([], 0), (List.replicate 100 7, 100)] % 15 + 1 ∧
      dev2.PacketIndex = nextPacketIndex dev1.PacketIndex ∧
      1 ≤ validCalls [([1, 2, 3], 3), ([], 0), (List.replicate 100 7, 100)] % 15 + 1 ∧
      validCalls [([1, 2, 3], 3), ([], 0), (List.replicate 100 7, 100)] % 15 + 1 ≤ 15 ∧
      validCalls [([1, 2, 3], 3), ([], 0), (List.replicate 100 7, 100)] % 15 + 1 ≠ 0 :=
  ⟨by decide, by decide,
    PacketIndex_cycle sampleDevice [([1, 2, 3], 3), ([], 0), (List.replicate 100 7, 100)]
      [5, 6] 2 (by decide) (by decide)⟩

/-- C4 (single-slot registration).  On an open device, `StartCmdReplyWaiting(type, id)` returns
`false` when a wait is pending and then leaves `WaitCmdId`, `WaitCmdType`, `IsWaitingCmdReply`
and `IsCmdReplyReceived` as they were; when no wait is pending it returns `true` and records
`(id, type)` with `IsWaitingCmdReply = true` and `IsCmdReplyReceived = false`. -/
theorem StartCmdReplyWaiting_single_slot (dev : TiqiaaUsbIr) (cmdType cmdId : Nat)
    (hopen : dev.IsOpen = true) :
    (dev.IsWaitingCmdReply = true →
      (dev.StartCmdReplyWaiting cmdType cmdId).1 = false ∧
      (dev.StartCmdReplyWaiting cmdType cmdId).2.WaitCmdId = dev.WaitCmdId ∧
      (dev.StartCmdReplyWaiting cmdType cmdId).2.WaitCmdType = dev.WaitCmdType ∧
      (dev.StartCmdReplyWaiting cmdType cmdId).2.IsWaitingCmdReply = dev.IsWaitingCmdReply ∧
      (dev.StartCmdReplyWaiting cmdType cmdId).2.IsCmdReplyReceived = dev.IsCmdReplyReceived) ∧
    (dev.IsWaitingCmdReply = false →
      (dev.StartCmdReplyWaiting cmdType cmdId).1 = true ∧
      (dev.StartCmdReplyWaiting cmdType cmdId).2.WaitCmdId = cmdId ∧
      (dev.StartCmdReplyWaiting cmdType cmdId).2.WaitCmdType = cmdType ∧
      (dev.StartCmdReplyWaiting cmdType cmdId).2.IsWaitingCmdReply = true ∧
      (dev.StartCmdReplyWaiting cmdType cmdId).2.IsCmdReplyReceived = false) := by
  constructor <;> intro hw <;>
    simp [StartCmdReplyWaiting, hopen, hw, EnterCriticalSection, LeaveCriticalSection]

theorem StartCmdReplyWaiting_single_slot_witness :
    ((sampleDevice.StartCmdReplyWaiting CmdVersion 1).1 = true ∧
      (sampleDevice.StartCmdReplyWaiting CmdVersion 1).2.WaitCmdId = 1 ∧
      (sampleDevice.StartCmdReplyWaiting CmdVersion 1).2.WaitCmdType = CmdVersion ∧
      (sampleDevice.StartCmdReplyWaiting CmdVersion 1).2.IsWaitingCmdReply = true ∧
      (sampleDevice.StartCmdReplyWaiting CmdVersion 1).2.IsCmdReplyReceived = false) ∧
    (((sampleDevice.StartCmdReplyWaiting CmdVersion 1).2.StartCmdReplyWaiting CmdSendMode 2).1
        = false ∧
      ((sampleDevice.StartCmdReplyWaiting CmdVersion 1).2.StartCmdReplyWaiting
        CmdSendMode 2).2.WaitCmdId = 1 ∧
      ((sampleDevice.StartCmdReplyWaiting CmdVersion 1).2.StartCmdReplyWaiting
        CmdSendMode 2).2.WaitCmdType = CmdVersion) :=
  ⟨(StartCmdReplyWaiting_single_slot sampleDevice CmdVersion 1 rfl).2 rfl,
    have h := (StartCmdReplyWaiting_single_slot
      (sampleDevice.StartCmdReplyWaiting CmdVersion 1).2 CmdSendMode 2 rfl).1 rfl
    ⟨h.1, h.2.1, h.2.2.1⟩⟩

/-- C5 (reply matching).  With a wait registered (`IsWaitingCmdReply`), for every packet handed
to `ProcessRecvPacket`: `WaitCmdId`, `WaitCmdType` and `IsWaitingCmdReply` are never changed;
if the wait is not yet received, `IsCmdReplyReceived` is set iff `pack[0]` is the registered id
and `pack[1]` the registered type, the event being then signalled by exactly one `SetEvent`,
while a packet that differs in id or type leaves `IsCmdReplyReceived` and the event alone; if
the wait is already received, no packet, matching or not, changes `IsCmdReplyReceived` or
signals the event again. -/
theorem ProcessRecvPacket_matching (dev : TiqiaaUsbIr) (pack : List Nat) (size : Int)
    (hw : dev.IsWaitingCmdReply = true) :
    ((dev.ProcessRecvPacket pack size).WaitCmdId = dev.WaitCmdId ∧
      (dev.ProcessRecvPacket pack size).WaitCmdType = dev.WaitCmdType ∧
      (dev.ProcessRecvPacket pack size).IsWaitingCmdReply = dev.IsWaitingCmdReply) ∧
    (dev.IsCmdReplyReceived = false →
      ((dev.ProcessRecvPacket pack size).IsCmdReplyReceived = true ↔
        (rd pack 0 = dev.WaitCmdId ∧ rd pack 1 = dev.WaitCmdType)) ∧
      ((rd pack 0 = dev.WaitCmdId ∧ rd pack 1 = dev.WaitCmdType) →
        (dev.ProcessRecvPacket pack size).SetEventCalls = dev.SetEventCalls + 1 ∧
        (dev.ProcessRecvPacket pack size).WaitCmdEvent = true) ∧
      (¬ (rd pack 0 = dev.WaitCmdId ∧ rd pack 1 = dev.WaitCmdType) →
        (dev.ProcessRecvPacket pack size).IsCmdReplyReceived = dev.IsCmdReplyReceived ∧
        (dev.ProcessRecvPacket pack size).SetEventCalls = dev.SetEventCalls ∧
        (dev.ProcessRecvPacket pack size).WaitCmdEvent = dev.WaitCmdEvent)) ∧
    (dev.IsCmdReplyReceived = true →
      (dev.ProcessRecvPacket pack size).IsCmdReplyReceived = true ∧
      (dev.ProcessRecvPacket pack size).SetEventCalls = dev.SetEventCalls ∧
      (dev.ProcessRecvPacket pack size).WaitCmdEvent = dev.WaitCmdEvent) := by
  unfold ProcessRecvPacket
  simp only [hw, EnterCriticalSection, LeaveCriticalSection, SetEvent]
  cases hr : dev.IsCmdReplyReceived <;>
  by_cases h0 : rd pack 0 = dev.WaitCmdId <;> by_cases h1 : rd pack 1 = dev.WaitCmdType <;>
  simp [h0, h1] <;> split_ifs <;> simp_all

theorem ProcessRecvPacket_matching_witness :
    ((sampleDevice.StartCmdReplyWaiting CmdSendMode 5).2.ProcessRecvPacket
        [5, CmdSendMode, StateSend] 3).IsCmdReplyReceived = true ∧
    ((sampleDevice.StartCmdReplyWaiting CmdSendMode 5).2.ProcessRecvPacket
        [5, CmdSendMode, StateSend] 3).SetEventCalls = 1 ∧
    ((sampleDevice.StartCmdReplyWaiting CmdSendMode 5).2.ProcessRecvPacket
        [6, CmdSendMode, StateSend] 3).IsCmdReplyReceived = false ∧
    (((sampleDevice.StartCmdReplyWaiting CmdSendMode 5).2.ProcessRecvPacket
        [5, CmdSendMode, StateSend] 3).ProcessRecvPacket
        [5, CmdSendMode, StateSend] 3).SetEventCalls = 1 :=
  have h1 := (ProcessRecvPacket_matching (sampleDevice.StartCmdReplyWaiting CmdSendMode 5).2
    [5, CmdSendMode, StateSend] 3 rfl).2.1 rfl
  have h2 := (ProcessRecvPacket_matching (sampleDevice.StartCmdReplyWaiting CmdSendMode 5).2
    [6, CmdSendMode, StateSend] 3 rfl).2.1 rfl
  have h3 := (ProcessRecvPacket_matching
    ((sampleDevice.StartCmdReplyWaiting CmdSendMode 5).2.ProcessRecvPacket
      [5, CmdSendMode, StateSend] 3) [5, CmdSendMode, StateSend] 3 rfl).2.2 rfl
  ⟨h1.1.mpr ⟨rfl, rfl⟩, (h1.2.1 ⟨rfl, rfl⟩).1, (h2.2.2 (by decide)).1, h3.2.1⟩

/-- C8 fails on the code: fragment 1 of a two-fragment packet (`FragmCount = 2`, `FragmIdx = 1`)
whose 56 payload bytes begin with 'S','T' and end with 'E','N' is handed to `ProcessRecvPacket`
as soon as it is appended, before the last fragment has arrived. -/
theorem dispatch_before_last_fragment :
    (ReadThreadFn.iteration sampleReadState
        (some (fragmentReport ReadReportId 1 2 1
          ([83, 84, 7, 68] ++ List.replicate 50 0 ++ [69, 78])))).map
      (fun r => (r.2, r.1.FragmCount, r.1.LastFragmIdx))
      = some (some ([7, 68] ++ List.replicate 50 0, 52), 2, 1) := by
  decide


/-- C9 (NEC frame layout).  For every code and every output buffer `WriteIrNecSignal` returns,
and with `F` the frame `hi | (~hi & 0xFF) << 8 | lo << 16 | (~lo & 0xFF) << 24` of the code
(`~x & 0xFF` of a byte `x` written `255 - x`) its output is laid out as: bytes 0..4 the leading
mark (high bit set, 562 ticks together), bytes 5..7 the leading space (high bit clear, 281
ticks), then for every `i < 32` a mark byte at `8 + 2 i` (high bit set, 35 or 36 ticks) and a
space byte at `9 + 2 i` (high bit clear) of 105 or 106 ticks when bit `i` of `F` is 1 and of 35
or 36 ticks when it is 0, then the trailing mark byte at 72 (high bit set, 35 or 36 ticks) and
the trailing space in bytes 73..92 (high bit clear, 2531 or 2532 ticks). -/
theorem WriteIrNecSignal_frame_layout (IrCode : Nat) (OutBuf : Int → Nat) :
    ∃ out, WriteIrNecSignal IrCode OutBuf = some (93, out) ∧
      (∀ j : Nat, j < 5 → (out j).testBit 7 = true) ∧
      out 0 % 128 + out 1 % 128 + out 2 % 128 + out 3 % 128 + out 4 % 128 = 562 ∧
      (∀ j : Nat, 5 ≤ j → j < 8 → (out j).testBit 7 = false) ∧
      out 5 % 128 + out 6 % 128 + out 7 % 128 = 281 ∧
      (∀ i : Nat, i < 32 →
        (out (8 + 2 * i)).testBit 7 = true ∧
        (out (8 + 2 * i) % 128 = 35 ∨ out (8 + 2 * i) % 128 = 36) ∧
        (out (9 + 2 * i)).testBit 7 = false ∧
        (((IrCode / 256 % 256) ||| ((255 - IrCode / 256 % 256) <<< 8) ||| ((IrCode % 256) <<< 16)
            ||| ((255 - IrCode % 256) <<< 24)).testBit i = true →
          (out (9 + 2 * i) % 128 = 105 ∨ out (9 + 2 * i) % 128 = 106)) ∧
        (((IrCode / 256 % 256) ||| ((255 - IrCode / 256 % 256) <<< 8) ||| ((IrCode % 256) <<< 16)
            ||| ((255 - IrCode % 256) <<< 24)).testBit i = false →
          (out (9 + 2 * i) % 128 = 35 ∨ out (9 + 2 * i) % 128 = 36))) ∧
      ((out 72).testBit 7 = true ∧ (out 72 % 128 = 35 ∨ out 72 % 128 = 36)) ∧
      (∀ k : Nat, k < 20 → (out (73 + k)).testBit 7 = false) ∧
      (((List.range 20).map fun k : Nat => out (73 + k) % 128).sum = 2531 ∨
        ((List.range 20).map fun k : Nat => out (73 + k) % 128).sum = 2532) := by
  obtain ⟨out, hres, -, ⟨a0, a1, a2, a3, a4⟩, ⟨b5, b6, b7⟩, hbits, hm, hsp, hl⟩ :=
    WriteIrNecSignal_spec IrCode OutBuf
  rw [tcodeOf_eq_frame] at hbits
  refine ⟨out, hres, ?_, ?_, ?_, ?_, ?_, ?_, ?_, ?_⟩
  · intro j hj
    interval_cases j <;> simp [a0, a1, a2, a3, a4] <;> decide
  · rw [a0, a1, a2, a3, a4]
  · intro j h5 h8
    interval_cases j <;> simp [b5, b6, b7] <;> decide
  · rw [b5, b6, b7]
  · intro i hi
    obtain ⟨h1, h2, h3⟩ := hbits i hi
    have e : (9 : Int) + 2 * (i : Int) = 8 + 2 * (i : Int) + 1 := by ring
    rw [e]
    refine ⟨?_, ?_, ?_, ?_, ?_⟩
    · rcases h1 with h | h <;> rw [h] <;> decide
    · rcases h1 with h | h <;> rw [h] <;> simp
    · cases hb : Nat.testBit ((IrCode / 256 % 256) ||| ((255 - IrCode / 256 % 256) <<< 8)
          ||| ((IrCode % 256) <<< 16) ||| ((255 - IrCode % 256) <<< 24)) i
      · rcases h3 hb with h | h <;> rw [h] <;> decide
      · rcases h2 hb with h | h <;> rw [h] <;> decide
    · intro hb
      rcases h2 hb with h | h <;> rw [h] <;> simp
    · intro hb
      rcases h3 hb with h | h <;> rw [h] <;> simp
  · rcases hm with h | h <;> rw [h] <;> simp <;> decide
  · intro k hk
    by_cases h19 : k < 19
    · rw [hsp k h19]; decide
    · have : k = 19 := by omega
      subst this
      rcases hl with h | h
      · have : out (73 + ((19 : Nat) : Int)) = 118 := by simpa using h
        rw [this]; decide
      · have : out (73 + ((19 : Nat) : Int)) = 119 := by simpa using h
        rw [this]; decide
  · have hs : ∀ k : Nat, k < 19 → out (73 + (k : Int)) % 128 = 127 := by
      intro k hk; rw [hsp k hk]
    have e92 : out (73 + ((19 : Nat) : Int)) = out 92 := by norm_num
    have hrange : List.range 20 = List.range 19 ++ [19] := by decide
    have hsum : ((List.range 19).map fun k : Nat => out (73 + k) % 128).sum = 19 * 127 := by
      have : ((List.range 19).map fun k : Nat => out (73 + (k : Int)) % 128)
          = (List.range 19).map fun _ => 127 := by
        apply List.map_congr_left
        intro k hk
        exact hs k (List.mem_range.mp hk)
      rw [this]; decide
    rw [hrange, List.map_append, List.sum_append, hsum]
    simp only [List.map_cons, List.map_nil, List.sum_cons, List.sum_nil, e92]
    rcases hl with h | h <;> rw [h] <;> simp

theorem WriteIrNecSignal_frame_layout_witness :
    ∃ out, WriteIrNecSignal 0x1234 (fun _ => 0) = some (93, out) ∧
      (out 8).testBit 7 = true ∧ (out 9 % 128 = 35 ∨ out 9 % 128 = 36) ∧
      (out 11 % 128 = 105 ∨ out 11 % 128 = 106) :=
  have h := WriteIrNecSignal_frame_layout 0x1234 (fun _ => 0)
  h.elim fun out ho =>
    ⟨out, ho.1, (ho.2.2.2.2.2.1 0 (by decide)).1,
      (ho.2.2.2.2.2.1 0 (by decide)).2.2.2.2 (by decide),
      (ho.2.2.2.2.2.1 1 (by decide)).2.2.2.1 (by decide)⟩

/-- C10 (encoder output size).  For every code and every content of the memory at `OutBuf`,
`WriteIrNecSignal` returns exactly 93 and leaves every byte outside `OutBuf[0..92]` as it was:
it writes only `OutBuf[0..92]`, so a buffer of 93 bytes, and the 128-byte buffer of
`SendNecSignal`, is sufficient. -/
theorem WriteIrNecSignal_size (IrCode : Nat) (OutBuf : Int → Nat) :
    ∃ out, WriteIrNecSignal IrCode OutBuf = some (93, out) ∧
      (∀ j : Int, (j < 0 ∨ 93 ≤ j) → out j = OutBuf j) := by
  obtain ⟨out, hres, hframe, -⟩ := WriteIrNecSignal_spec IrCode OutBuf
  exact ⟨out, hres, hframe⟩

theorem WriteIrNecSignal_size_witness :
    ∃ out, WriteIrNecSignal 0x1234 (fun _ => 0xEE) = some (93, out) ∧ out 93 = 0xEE ∧
      out 127 = 0xEE :=
  have h := WriteIrNecSignal_size 0x1234 (fun _ => 0xEE)
  h.elim fun out ho => ⟨out, ho.1, ho.2 93 (Or.inr (by decide)), ho.2 127 (Or.inr (by decide))⟩

/-! ## Further lemmas on framing and on frequency resolution -/


theorem fragmentReports_getElem? (id p cnt : Nat) : ∀ (cs : List (List Nat)) (k0 i : Nat),
    (fragmentReports id p cnt k0 cs)[i]? = cs[i]?.map (fragmentReport id p cnt (k0 + i)) := by
  intro cs
  induction cs with
  | nil => intro k0 i; simp [fragmentReports]
  | cons c cs ih =>
    intro k0 i
    cases i with
    | zero => simp [fragmentReports]
    | succ j =>
      simp only [fragmentReports, List.getElem?_cons_succ, ih]
      have : k0 + 1 + j = k0 + (j + 1) := by omega
      rw [this]

theorem fragmentReports_length (id p cnt : Nat) : ∀ (cs : List (List Nat)) (k0 : Nat),
    (fragmentReports id p cnt k0 cs).length = cs.length := by
  intro cs
  induction cs with
  | nil => intro k0; rfl
  | cons c cs ih => intro k0; simp [fragmentReports, ih]

theorem payloadChunks_getElem? : ∀ (fuel : Nat) (d : List Nat) (i : Nat), d.length ≤ fuel →
    i < (d.length + 55) / 56 →
    (payloadChunks fuel d)[i]? = some ((d.drop (56 * i)).take 56) := by
  intro fuel
  induction fuel with
  | zero => intro d i h hi; omega
  | succ n ih =>
    intro d i h hi
    have hd : d ≠ [] := by
      intro h0; rw [h0] at hi; simp at hi
    have hpos : 0 < d.length := List.length_pos.mpr hd
    simp only [payloadChunks, hd, if_false]
    cases i with
    | zero => simp
    | succ j =>
      rw [List.getElem?_cons_succ, ih (d.drop 56) j (by rw [List.length_drop]; omega)
        (by rw [List.length_drop]; omega), List.drop_drop]
      congr 3
      omega


theorem table_getD_mem (i : Nat) (hi : i < 30) :
    TiqiaaUsbIr_IrFreqTable.getD i 0 ∈ TiqiaaUsbIr_IrFreqTable := by
  have hl : i < TiqiaaUsbIr_IrFreqTable.length := by simpa [TiqiaaUsbIr_IrFreqTable] using hi
  rw [List.getD_eq_getElem _ _ hl]
  exact List.getElem_mem hl

theorem search_miss (freq : Int) (h : freq ∉ TiqiaaUsbIr_IrFreqTable) :
    ∀ (fuel i : Nat), i ≤ 30 → 30 ≤ fuel + i → SendIRCmd.search freq fuel i = some 30 := by
  intro fuel
  induction fuel with
  | zero =>
    intro i h1 h2
    have : i = 30 := by omega
    subst this
    simp [SendIRCmd.search, TiqiaaUsbIr_IrFreqTableSize]
  | succ n ih =>
    intro i h1 h2
    by_cases hi : i < 30
    · have hne : TiqiaaUsbIr_IrFreqTable.getD i 0 ≠ freq := by
        intro e
        exact h (e ▸ table_getD_mem i hi)
      have hc : (i : Int) < TiqiaaUsbIr_IrFreqTableSize
          ∧ TiqiaaUsbIr_IrFreqTable.getD i 0 ≠ freq :=
        ⟨by simp only [TiqiaaUsbIr_IrFreqTableSize]; omega, hne⟩
      have hm : (i + 1) % 256 = i + 1 := by omega
      rw [SendIRCmd.search, if_pos hc, hm]
      exact ih (i + 1) (by omega) (by omega)
    · have : i = 30 := by omega
      subst this
      simp [SendIRCmd.search, TiqiaaUsbIr_IrFreqTableSize]

/-- A frequency above 255 that is no entry of the table is rejected. -/
theorem resolve_miss (freq : Int) (hf : 255 < freq) (h : freq ∉ TiqiaaUsbIr_IrFreqTable) :
    SendIRCmd.resolve freq = some none := by
  have hc : freq > 255 := hf
  simp [SendIRCmd.resolve, hc, search_miss freq h 30 0 (by omega) (by omega),
    TiqiaaUsbIr_IrFreqTableSize]

theorem resolve_entry : ∀ i : Fin 30,
    SendIRCmd.resolve (TiqiaaUsbIr_IrFreqTable.getD i.val 0) = some (some i.val) := by
  decide

theorem resolve_direct (freq : Int) (h0 : 0 ≤ freq) (h1 : freq < 30) :
    SendIRCmd.resolve freq = some (some freq.toNat) := by
  have c1 : ¬ (freq > 255) := by omega
  have c2 : freq < TiqiaaUsbIr_IrFreqTableSize := by simp only [TiqiaaUsbIr_IrFreqTableSize]; omega
  have e : (freq % 256).toNat = freq.toNat := by omega
  simp only [SendIRCmd.resolve, c1, if_false, c2, if_true, e]

theorem resolve_gap (freq : Int) (h0 : 30 ≤ freq) (h1 : freq ≤ 255) :
    SendIRCmd.resolve freq = some none := by
  have c1 : ¬ (freq > 255) := by omega
  have c2 : ¬ (freq < TiqiaaUsbIr_IrFreqTableSize) := by
    simp only [TiqiaaUsbIr_IrFreqTableSize]; omega
  simp only [SendIRCmd.resolve, c1, if_false, c2]

/-- A rejected frequency makes `SendIRCmd` return `false` with the device untouched. -/
theorem SendIRCmd_rejected (dev : TiqiaaUsbIr) (freq : Int) (buffer : List Nat) (buf_size : Int)
    (cmdId : Nat) (stack : List Nat) (h : SendIRCmd.resolve freq = some none) :
    dev.SendIRCmd freq buffer buf_size cmdId stack = some (false, dev) := by
  unfold SendIRCmd
  simp only [h]
  split_ifs <;> rfl

/-- An accepted frequency: the packet handed to `SendReport2`. -/
theorem SendIRCmd_packet (dev : TiqiaaUsbIr) (freq : Int) (buffer : List Nat) (cmdId : Nat)
    (stack : List Nat) (IrFreqId : Nat) (h : SendIRCmd.resolve freq = some (some IrFreqId))
    (hsize : buffer.length + 7 ≤ 1024) (hstack : stack.length = 1024) :
    ∃ PackBuf, dev.SendIRCmd freq buffer buffer.length cmdId stack
        = dev.SendReport2 PackBuf ((buffer.length : Int) + 7) ∧
      PackBuf.take (buffer.length + 7)
        = [83, 84, cmdId, CmdData, IrFreqId] ++ buffer ++ [69, 78] := by
  have c1 : ¬ ((buffer.length : Int) < 0) := by omega
  have c2 : ¬ ((buffer.length : Int) + 5 + 2 > MaxUsbPacketSize) := by
    simp only [MaxUsbPacketSize]; omega
  refine ⟨memcpy (memcpy (memcpy stack 0 (SendIRPackHeader cmdId IrFreqId) 5) 5 buffer
    buffer.length) (5 + buffer.length) [PackEndSign % 256, PackEndSign / 256 % 256] 2, ?_, ?_⟩
  · unfold SendIRCmd
    simp only [c1, c2, if_false, h]
    have e1 : ((5 : Int)).toNat = 5 := rfl
    have e2 : ((5 : Int) + (buffer.length : Int)).toNat = 5 + buffer.length := by omega
    have e3 : (5 : Int) + (buffer.length : Int) + 2 = (buffer.length : Int) + 7 := by ring
    simp only [e1, e2, e3, Int.toNat_ofNat]
  · have hh : (SendIRPackHeader cmdId IrFreqId) = [83, 84, cmdId, CmdData, IrFreqId] := by
      simp [SendIRPackHeader, PackStartSign]
    have he : [PackEndSign % 256, PackEndSign / 256 % 256] = [69, 78] := by
      simp [PackEndSign]
    rw [hh, he]
    have m1 := memcpy_exact stack 0 [83, 84, cmdId, CmdData, IrFreqId] (Nat.zero_le _)
    simp only [List.length_cons, List.length_nil, Nat.zero_add, List.take_zero,
      List.nil_append] at m1
    have l1 : (memcpy stack 0 [83, 84, cmdId, CmdData, IrFreqId] 5).length = 1024 := by
      simp [memcpy, hstack]
    have m2 := memcpy_exact (memcpy stack 0 [83, 84, cmdId, CmdData, IrFreqId] 5) 5 buffer
      (by rw [l1]; omega)
    have l2 : (memcpy (memcpy stack 0 [83, 84, cmdId, CmdData, IrFreqId] 5) 5 buffer
        buffer.length).length = 1024 := by
      simp only [memcpy, List.length_append, List.length_take, List.length_drop, l1] at *
      simp only [List.length_cons, List.length_nil, hstack]
      omega
    have m3 := memcpy_exact (memcpy (memcpy stack 0 [83, 84, cmdId, CmdData, IrFreqId] 5) 5
      buffer buffer.length) (5 + buffer.length) [69, 78] (by rw [l2]; omega)
    simp only [List.length_cons, List.length_nil] at m3
    have e : buffer.length + 7 = 5 + buffer.length + (0 + 1 + 1) := by omega
    rw [e, m3.1, m2.1]
    have m1' : (memcpy stack 0 [83, 84, cmdId, CmdData, IrFreqId] 5).take 5
        = [83, 84, cmdId, CmdData, IrFreqId] := m1.1
    rw [m1']

/-- `SendCmdAndWaitReply` returns on every device, whatever the pipe and the receive thread
do. -/
theorem SendCmdAndWaitReply_total (dev : TiqiaaUsbIr) (cmdType cmdId timeout : Nat)
    (env : RecvActivity) :
    ∃ r, dev.SendCmdAndWaitReply cmdType cmdId timeout env = some r := by
  unfold SendCmdAndWaitReply
  by_cases hs : (dev.StartCmdReplyWaiting cmdType cmdId).1 = true
  · obtain ⟨sent, ws, hsend, -, -⟩ := SendReport2_index
      ((dev.StartCmdReplyWaiting cmdType cmdId).2.dispatchAll env.onSend)
      (SendCmdPack cmdType cmdId) 6 (by norm_num) (by norm_num)
    simp only [hs, Bool.not_true, Bool.false_eq_true, if_false, SendCmd, hsend]
    split_ifs <;> exact ⟨_, rfl⟩
  · simp only [hs, Bool.not_false, if_true]
    exact ⟨_, rfl⟩

theorem GetCmdId_Usb (dev : TiqiaaUsbIr) :
    dev.GetCmdId.2.Usb = dev.Usb ∧ dev.GetCmdId.2.DevHandle = dev.DevHandle := by
  unfold GetCmdId
  split_ifs <;> exact ⟨rfl, rfl⟩

theorem StartCmdReplyWaiting_Usb (dev : TiqiaaUsbIr) (cmdType cmdId : Nat) :
    (dev.StartCmdReplyWaiting cmdType cmdId).2.Usb = dev.Usb := by
  cases ho : dev.IsOpen <;> cases hw : dev.IsWaitingCmdReply <;>
    simp [StartCmdReplyWaiting, EnterCriticalSection, LeaveCriticalSection, ho, hw]

theorem CancelCmdReplyWaiting_Usb (dev : TiqiaaUsbIr) :
    (dev.CancelCmdReplyWaiting).2.Usb = dev.Usb := by
  cases ho : dev.IsOpen <;> cases hw : dev.IsWaitingCmdReply <;>
    simp [CancelCmdReplyWaiting, EnterCriticalSection, LeaveCriticalSection, ho, hw]

/-- The loop of `SendReport2` on a 6-byte packet: one report, whatever the pipe answers. -/
theorem SendReport2_loop_six (d0 d1 d2 d3 d4 d5 p : Nat) (usb : Transport) :
    SendReport2.loop [d0, d1, d2, d3, d4, d5] 6 6
        (WriteReportId :: 0 :: p :: 1 :: 0 :: List.replicate 56 0) 0 0 usb
      = some (usb.WriteOk usb.Written.length,
          { usb with Written := usb.Written ++ [[2, 9, p, 1, 1, d0, d1, d2, d3, d4, d5]] }) := by
  have hrep : List.replicate 56 (0 : Nat)
      = 0 :: 0 :: 0 :: 0 :: 0 :: 0 :: List.replicate 50 0 := rfl
  have c1 : (0 : Int) < 6 := by norm_num
  have c2 : ¬ ((6 : Int) - 0 > MaxUsbFragmSize) := by simp only [MaxUsbFragmSize]; norm_num
  have c3 : ¬ ((0 : Int) + (6 - 0) < 6) := by norm_num
  have e1 : (((0 : Int) + 1) % 256).toNat = 1 := by decide
  have e2 : (((6 : Int) - 0 + 3) % 256).toNat = 9 := by decide
  have e3 : ((6 : Int) - 0).toNat = 6 := by decide
  have e4 : ((6 : Int) - 0 + (sizeofReport2Header : Nat)).toNat = 11 := by decide
  have e5 : (0 : Int).toNat = 0 := rfl
  have e6 : ((6 : Int) - 0 + ((5 : Nat) : Int)).toNat = 11 := by decide
  rw [SendReport2.loop]
  simp only [c1, if_true, c2, if_false, e1, e2, e3, e4, e5, e6, hrep, Transport.WritePipe,
    sizeofReport2Header, memcpy, WriteReportId, List.set_cons_succ, List.set_cons_zero,
    List.take_succ_cons, List.take_zero, List.drop_succ_cons, List.drop_zero, List.cons_append,
    List.nil_append, List.append_nil, Nat.reduceAdd, List.take_nil]
  cases h : usb.WriteOk usb.Written.length
  · simp
  · simp only [Bool.not_true, Bool.false_eq_true, if_false]
    rw [SendReport2.loop]
    simp only [c3, if_false]

/-- The one report by which `SendCmd` hands its 6-byte command packet to the pipe, whatever
the pipe answers. -/
theorem SendCmd_report (dev : TiqiaaUsbIr) (cmdType cmdId : Nat) :
    dev.SendCmd cmdType cmdId = some (dev.Usb.WriteOk dev.Usb.Written.length,
      { dev with
        PacketIndex := nextPacketIndex dev.PacketIndex
        Usb := { dev.Usb with Written := dev.Usb.Written ++
          [[2, 9, nextPacketIndex dev.PacketIndex, 1, 1, 83, 84, cmdId, cmdType, 69, 78]] } }) := by
  have c0 : ¬ ((6 : Int) ≤ 0 ∨ (6 : Int) > MaxUsbPacketSize) := by
    simp only [MaxUsbPacketSize]; omega
  have hbuf : ∀ p : Nat,
      ((if Int.tmod 6 MaxUsbFragmSize ≠ 0 then
          (((List.replicate 61 0).set 0 WriteReportId).set 3
            (Int.tdiv 6 MaxUsbFragmSize % 256).toNat).set 3
            ((rd (((List.replicate 61 0).set 0 WriteReportId).set 3
              (Int.tdiv 6 MaxUsbFragmSize % 256).toNat) 3 + 1) % 256)
        else ((List.replicate 61 0).set 0 WriteReportId).set 3
            (Int.tdiv 6 MaxUsbFragmSize % 256).toNat).set 2 p)
        = WriteReportId :: 0 :: p :: 1 :: 0 :: List.replicate 56 0 := fun _ => rfl
  have hidx : (if (dev.PacketIndex + 1) % 256 > MaxUsbPacketIndex then
        ({ dev with PacketIndex := 1 } : TiqiaaUsbIr)
      else { dev with PacketIndex := (dev.PacketIndex + 1) % 256 })
      = { dev with PacketIndex := nextPacketIndex dev.PacketIndex } := by
    unfold nextPacketIndex
    split_ifs <;> rfl
  have hpack : SendCmdPack cmdType cmdId = [83, 84, cmdId, cmdType, 69, 78] := rfl
  have hfuel : (6 : Int).toNat = 6 := rfl
  unfold SendCmd SendReport2
  simp only [c0, if_false, hidx, hbuf, hpack, hfuel, SendReport2_loop_six]

theorem StartCmdReplyWaiting_PacketIndex (dev : TiqiaaUsbIr) (cmdType cmdId : Nat) :
    (dev.StartCmdReplyWaiting cmdType cmdId).2.PacketIndex = dev.PacketIndex := by
  cases ho : dev.IsOpen <;> cases hw : dev.IsWaitingCmdReply <;>
    simp [StartCmdReplyWaiting, EnterCriticalSection, LeaveCriticalSection, ho, hw]

theorem StartCmdReplyWaiting_free (dev : TiqiaaUsbIr) (cmdType cmdId : Nat)
    (ho : dev.IsOpen = true) (hw : dev.IsWaitingCmdReply = false) :
    (dev.StartCmdReplyWaiting cmdType cmdId).1 = true := by
  simp [StartCmdReplyWaiting, EnterCriticalSection, LeaveCriticalSection, ho, hw]

theorem WaitCmdReply_Usb (dev : TiqiaaUsbIr) (timeout : Nat)
    (during after : List (List Nat × Int)) :
    (dev.WaitCmdReply timeout during after).2.Usb = dev.Usb := by
  have h1 := (dispatchAll_wait during dev).2.2.2.2.2.1
  have h2 := (dispatchAll_wait after
    { dev.dispatchAll during with WaitCmdEvent := false }).2.2.2.2.2.1
  simp only at h2
  cases ho : dev.IsOpen
  · simp [WaitCmdReply, ho]
  · cases hw : dev.IsWaitingCmdReply
    · simp [WaitCmdReply, ho, hw]
    · simp only [WaitCmdReply, ho, hw, WaitForSingleObject, EnterCriticalSection,
        LeaveCriticalSection, Bool.not_true, Bool.false_eq_true, if_false]
      split_ifs <;> simp only [] <;> rw [h2, h1]

/-- The pipe after `SendCmdAndWaitReply`: nothing was handed to it when the wait could not be
registered, the one report of the command otherwise. -/
theorem SendCmdAndWaitReply_Written (dev : TiqiaaUsbIr) (cmdType cmdId timeout : Nat)
    (env : RecvActivity) :
    ∃ r, dev.SendCmdAndWaitReply cmdType cmdId timeout env = some r ∧
      (r.2.Usb.Written = dev.Usb.Written ∨
        r.2.Usb.Written = dev.Usb.Written ++
          [[2, 9, nextPacketIndex dev.PacketIndex, 1, 1, 83, 84, cmdId, cmdType, 69, 78]]) ∧
      (dev.IsOpen = true → dev.IsWaitingCmdReply = false →
        r.2.Usb.Written = dev.Usb.Written ++
          [[2, 9, nextPacketIndex dev.PacketIndex, 1, 1, 83, 84, cmdId, cmdType, 69, 78]]) := by
  unfold SendCmdAndWaitReply
  have u0 := StartCmdReplyWaiting_Usb dev cmdType cmdId
  have p0 := StartCmdReplyWaiting_PacketIndex dev cmdType cmdId
  by_cases hs : (dev.StartCmdReplyWaiting cmdType cmdId).1 = true
  swap
  · have hs' : (dev.StartCmdReplyWaiting cmdType cmdId).1 = false := by simpa using hs
    simp only [hs', Bool.not_false, if_true]
    refine ⟨_, rfl, Or.inl (by rw [u0]), fun ho hw => ?_⟩
    rw [StartCmdReplyWaiting_free dev cmdType cmdId ho hw] at hs'
    exact absurd hs' (by decide)
  simp only [hs, Bool.not_true, Bool.false_eq_true, if_false]
  have u1 := (dispatchAll_wait env.onSend (dev.StartCmdReplyWaiting cmdType cmdId).2).2.2.2.2.2.1
  have p1 := (dispatchAll_wait env.onSend (dev.StartCmdReplyWaiting cmdType cmdId).2).2.2.2.2.1
  rw [SendCmd_report]
  simp only [u1, p1, u0, p0]
  have key : ∀ d : TiqiaaUsbIr,
      d.Usb.Written = dev.Usb.Written ++
        [[2, 9, nextPacketIndex dev.PacketIndex, 1, 1, 83, 84, cmdId, cmdType, 69, 78]] →
      (d.Usb.Written = dev.Usb.Written ∨
        d.Usb.Written = dev.Usb.Written ++
          [[2, 9, nextPacketIndex dev.PacketIndex, 1, 1, 83, 84, cmdId, cmdType, 69, 78]]) ∧
      (dev.IsOpen = true → dev.IsWaitingCmdReply = false →
        d.Usb.Written = dev.Usb.Written ++
          [[2, 9, nextPacketIndex dev.PacketIndex, 1, 1, 83, 84, cmdId, cmdType, 69, 78]]) :=
    fun d h => ⟨Or.inr h, fun _ _ => h⟩
  split_ifs
  · refine ⟨_, rfl, key _ ?_⟩
    rw [WaitCmdReply_Usb]
  · refine ⟨_, rfl, key _ ?_⟩
    rw [CancelCmdReplyWaiting_Usb, (dispatchAll_wait env.beforeCancel _).2.2.2.2.2.1,
      WaitCmdReply_Usb]
  · refine ⟨_, rfl, key _ ?_⟩
    rw [CancelCmdReplyWaiting_Usb, (dispatchAll_wait env.beforeCancel _).2.2.2.2.2.1]

/-- With a rejected frequency `SendIR` returns `false`, and the pipe is as the mode-change
command left it: everything that follows that command leaves the pipe alone. -/
theorem SendIR_rejected_pipe (dev : TiqiaaUsbIr) (freq : Int) (buffer : List Nat) (buf_size : Int)
    (stack : List Nat) (env : SendIRActivity) (h : SendIRCmd.resolve freq = some none) :
    ∃ dev', dev.SendIR freq buffer buf_size stack env = some (false, dev') ∧
      (dev.DeviceState = StateSend → dev'.Usb = dev.Usb) ∧
      (dev.IsOpen = true → dev.DeviceState ≠ StateSend →
        ∃ r, dev.GetCmdId.2.SendCmdAndWaitReply CmdSendMode dev.GetCmdId.1 CmdReplyWaitTimeout
            env.modeChange = some r ∧ dev'.Usb = r.2.Usb) := by
  unfold SendIR
  by_cases hopen : dev.IsOpen = true
  swap
  · have : dev.IsOpen = false := by simpa using hopen
    simp only [this, Bool.not_false, if_true]
    exact ⟨dev, rfl, fun _ => rfl, fun h => absurd h (by decide)⟩
  simp only [hopen, Bool.not_true, Bool.false_eq_true, if_false]
  -- the part after the mode change, from any device `d`
  have tail : ∀ d : TiqiaaUsbIr, ∃ dev',
      (if ((d.dispatchAll env.beforeCheck).DeviceState ≠ StateSend) then
          some (false, d.dispatchAll env.beforeCheck)
        else
          if (!((d.dispatchAll env.beforeCheck).GetCmdId.2.StartCmdReplyWaiting CmdOutput
              (d.dispatchAll env.beforeCheck).GetCmdId.1).1) = true then
            some (false, ((d.dispatchAll env.beforeCheck).GetCmdId.2.StartCmdReplyWaiting
              CmdOutput (d.dispatchAll env.beforeCheck).GetCmdId.1).2)
          else
            match ((((d.dispatchAll env.beforeCheck).GetCmdId.2.StartCmdReplyWaiting CmdOutput
                (d.dispatchAll env.beforeCheck).GetCmdId.1).2.dispatchAll
                  env.output.onSend).SendIRCmd freq buffer buf_size
                (d.dispatchAll env.beforeCheck).GetCmdId.1 stack) with
            | none => none
            | some t =>
              if t.1 = true then
                if (t.2.WaitCmdReply IrReplyWaitTimeout env.output.onWait
                    env.output.afterWait).1 = true then
                  some (true, (t.2.WaitCmdReply IrReplyWaitTimeout env.output.onWait
                    env.output.afterWait).2)
                else
                  some (false, (((t.2.WaitCmdReply IrReplyWaitTimeout env.output.onWait
                    env.output.afterWait).2.dispatchAll
                      env.output.beforeCancel).CancelCmdReplyWaiting).2)
              else some (false, ((t.2.dispatchAll env.output.beforeCancel).CancelCmdReplyWaiting).2))
        = some (false, dev') ∧ dev'.Usb = d.Usb := by
    intro d
    have u1 := (dispatchAll_wait env.beforeCheck d).2.2.2.2.2.1
    by_cases hst : (d.dispatchAll env.beforeCheck).DeviceState ≠ StateSend
    · rw [if_pos hst]
      exact ⟨_, rfl, u1⟩
    · rw [if_neg hst]
      have u2 := (GetCmdId_Usb (d.dispatchAll env.beforeCheck)).1
      have u3 := StartCmdReplyWaiting_Usb (d.dispatchAll env.beforeCheck).GetCmdId.2 CmdOutput
        (d.dispatchAll env.beforeCheck).GetCmdId.1
      split_ifs with hs
      · exact ⟨_, rfl, by rw [u3, u2, u1]⟩
      · rw [SendIRCmd_rejected _ freq buffer buf_size _ stack h]
        simp only [Bool.false_eq_true, if_false]
        refine ⟨_, rfl, ?_⟩
        rw [CancelCmdReplyWaiting_Usb, (dispatchAll_wait env.output.beforeCancel _).2.2.2.2.2.1,
          (dispatchAll_wait env.output.onSend _).2.2.2.2.2.1, u3, u2, u1]
  by_cases hmode : dev.DeviceState ≠ StateSend
  · rw [if_pos hmode]
    obtain ⟨r, hr⟩ := SendCmdAndWaitReply_total dev.GetCmdId.2 CmdSendMode dev.GetCmdId.1
      CmdReplyWaitTimeout env.modeChange
    rw [hr]
    by_cases hr1 : r.1 = true
    · simp only [hr1, Bool.not_true, Bool.false_eq_true, if_false]
      obtain ⟨dev', h1, h2⟩ := tail r.2
      exact ⟨dev', h1, fun hs => absurd hs hmode, fun _ _ => ⟨r, rfl, h2⟩⟩
    · have : r.1 = false := by simpa using hr1
      simp only [this, Bool.not_false, if_true]
      exact ⟨r.2, rfl, fun hs => absurd hs hmode, fun _ _ => ⟨r, rfl, rfl⟩⟩
  · rw [if_neg hmode]
    simp only [Bool.not_true, Bool.false_eq_true, if_false]
    obtain ⟨dev', h1, h2⟩ := tail dev
    exact ⟨dev', h1, fun _ => h2, fun _ h => absurd h hmode⟩


theorem GetCmdId_frame (dev : TiqiaaUsbIr) :
    dev.GetCmdId.2.PacketIndex = dev.PacketIndex ∧
    dev.GetCmdId.2.IsWaitingCmdReply = dev.IsWaitingCmdReply ∧
    dev.GetCmdId.2.IsOpen = dev.IsOpen := by
  unfold GetCmdId
  split_ifs <;> exact ⟨rfl, rfl, rfl⟩

theorem resolve_neg (freq : Int) (h : freq < 0) :
    SendIRCmd.resolve freq = some (some (freq % 256).toNat) := by
  have c1 : ¬ (freq > 255) := by omega
  have c2 : freq < TiqiaaUsbIr_IrFreqTableSize := by simp only [TiqiaaUsbIr_IrFreqTableSize]; omega
  simp only [SendIRCmd.resolve, c1, if_false, c2, if_true]

theorem SetIdleMode_total (dev : TiqiaaUsbIr) (env : RecvActivity)
    (afterReply : List (List Nat × Int)) :
    ∃ r, dev.SetIdleMode env afterReply = some r := by
  unfold SetIdleMode
  obtain ⟨r, hr⟩ := SendCmdAndWaitReply_total dev.GetCmdId.2 CmdIdleMode dev.GetCmdId.1
    CmdReplyWaitTimeout env
  simp only [hr]
  split_ifs <;> exact ⟨_, rfl⟩

theorem blockByte_low (isSet : Bool) (b : Int) (h0 : 0 ≤ b) (h1 : b ≤ 127) :
    blockByte isSet b % 128 = b.toNat ∧ blockByte isSet b / 128 = (if isSet then 1 else 0) := by
  cases isSet
  · rw [blockByte_space b h0 h1]
    simp only [Bool.false_eq_true, if_false]
    omega
  · rw [blockByte_mark b h0 h1]
    simp only [if_true]
    omega

theorem sum_blocks (T : Nat) : ∀ n : Nat,
    ((List.range n).map fun k => min (T - 127 * k) 127).sum = min T (127 * n) := by
  intro n
  induction n with
  | zero => simp
  | succ n ih =>
    rw [List.range_succ, List.map_append, List.sum_append, ih]
    simp only [List.map_cons, List.map_nil, List.sum_cons, List.sum_nil]
    omega

theorem memcpy_length (dst : List Nat) (off : Nat) (src : List Nat) (n : Nat)
    (hsrc : n ≤ src.length) (hdst : off + n ≤ dst.length) :
    (memcpy dst off src n).length = dst.length := by
  simp only [memcpy, List.length_append, List.length_take, List.length_drop]
  omega

theorem memcpy_bytes (dst : List Nat) (off : Nat) (src : List Nat) (n : Nat)
    (hdst : ∀ b ∈ dst, b < 256) (hsrc : ∀ b ∈ src, b < 256) :
    ∀ b ∈ memcpy dst off src n, b < 256 := by
  intro b hb
  simp only [memcpy, List.mem_append] at hb
  rcases hb with (hb | hb) | hb
  · exact hdst b (List.mem_of_mem_take hb)
  · exact hsrc b (List.mem_of_mem_take hb)
  · exact hdst b (List.mem_of_mem_drop hb)

theorem rd_lt (buf : List Nat) (i : Nat) (h : ∀ b ∈ buf, b < 256) : rd buf i < 256 := by
  unfold rd
  rw [List.getD_eq_getElem?_getD]
  cases hi : buf[i]? with
  | none => simp
  | some b => simpa using h b (List.getElem?_mem hi)

theorem addToExisting_bufs (st : ReadState) :
    (ReadThreadFn.addToExisting st).FragmBuf = st.FragmBuf ∧
    (ReadThreadFn.addToExisting st).PackBuf = st.PackBuf := by
  unfold ReadThreadFn.addToExisting
  split_ifs <;> exact ⟨rfl, rfl⟩

theorem newPacket_bufs (st : ReadState) :
    (ReadThreadFn.newPacket st).FragmBuf = st.FragmBuf ∧
    (ReadThreadFn.newPacket st).PackBuf = st.PackBuf := by
  unfold ReadThreadFn.newPacket
  split_ifs <;> exact ⟨rfl, rfl⟩

/-- What a call of `ProcessRecvPacket` made by the block `ReadThreadFn.append` tells about the
state. -/
theorem append_dispatch (s st' : ReadState) (pack : List Nat) (size : Int)
    (h : ReadThreadFn.append s = some (st', some (pack, size))) :
    0 ≤ (rd s.FragmBuf 1 : Int) + 2 - 5 ∧ 0 ≤ s.PackSize ∧
    st'.PackSize = s.PackSize + ((rd s.FragmBuf 1 : Int) + 2 - 5) ∧
    st'.PackSize ≤ 1024 ∧
    st'.PackBuf = memcpy s.PackBuf s.PackSize.toNat (s.FragmBuf.drop 5)
      ((rd s.FragmBuf 1 : Int) + 2 - 5).toNat ∧
    st'.FragmBuf = s.FragmBuf ∧
    st'.PackSize > 6 ∧
    rd16 st'.PackBuf 0 = PackStartSign ∧
    rd16 st'.PackBuf (st'.PackSize - 2).toNat = PackEndSign ∧
    pack = (st'.PackBuf.drop 2).take (st'.PackSize - 4).toNat ∧ size = st'.PackSize - 4 := by
  unfold ReadThreadFn.append at h
  simp only [sizeofReport2Header, MaxUsbPacketSize, Nat.cast_ofNat] at h
  split_ifs at h with h1 h2 h3 h4 h5
  all_goals try simp only [Option.some.injEq, Prod.mk.injEq, reduceCtorEq, and_false] at h
  obtain ⟨hst, hp, hs⟩ := h
  subst hst
  simp only at h4 h5 ⊢
  exact ⟨by omega, by omega, trivial, h2, trivial, trivial, h4.2, h5.1, h5.2, hp.symm, hs.symm⟩
/-- C11 (outbound framing).  For every data of `n` bytes, `1 ≤ n ≤ 1024`, on a pipe whose writes
all succeed `SendReport2` returns `true` and hands to the pipe exactly `ceil(n/56)` reports, in
order; report number `k + 1` is the header `[2, payload length + 3, packet index, ceil(n/56),
k + 1]` followed by its payload, the bytes `data[56 k .. 56 k + 56)` that exist; its written
length is 5 + the payload length; every report but the last carries 56 payload bytes and the
last `n - 56 (ceil(n/56) - 1)` bytes, between 1 and 56; the payloads in order make up the
data. -/
theorem SendReport2_framing (dev : TiqiaaUsbIr) (data : List Nat) (h1 : 1 ≤ data.length)
    (h2 : data.length ≤ 1024) (hok : ∀ i, dev.Usb.WriteOk i = true) :
    ∃ dev' ws, dev.SendReport2 data data.length = some (true, dev') ∧
      dev'.Usb.Written = dev.Usb.Written ++ ws ∧
      ws.length = (data.length + 55) / 56 ∧
      (∀ k : Nat, k < (data.length + 55) / 56 →
        ws[k]? = some ([WriteReportId, ((data.drop (56 * k)).take 56).length + 3,
            nextPacketIndex dev.PacketIndex, (data.length + 55) / 56, k + 1]
          ++ (data.drop (56 * k)).take 56) ∧
        ([WriteReportId, ((data.drop (56 * k)).take 56).length + 3,
            nextPacketIndex dev.PacketIndex, (data.length + 55) / 56, k + 1]
          ++ (data.drop (56 * k)).take 56).length = 5 + ((data.drop (56 * k)).take 56).length ∧
        (k + 1 < (data.length + 55) / 56 → ((data.drop (56 * k)).take 56).length = 56) ∧
        (k + 1 = (data.length + 55) / 56 →
          ((data.drop (56 * k)).take 56).length
            = data.length - 56 * ((data.length + 55) / 56 - 1) ∧
          1 ≤ ((data.drop (56 * k)).take 56).length ∧
          ((data.drop (56 * k)).take 56).length ≤ 56)) ∧
      ((List.range ((data.length + 55) / 56)).map
        fun k => (data.drop (56 * k)).take 56).flatten = data := by
  have hsend := SendReport2_ok dev data h1 h2 hok
  have hfl := payloadChunks_flatten data.length data (le_refl _)
  have hlen := payloadChunks_length data.length data (le_refl _)
  refine ⟨_, fragmentReports WriteReportId (nextPacketIndex dev.PacketIndex)
    ((data.length + 55) / 56) 1 (payloadChunks data.length data), hsend, rfl, ?_, ?_, ?_⟩
  · rw [fragmentReports_length, hlen]
  · intro k hk
    refine ⟨?_, ?_, ?_, ?_⟩
    · rw [fragmentReports_getElem?, payloadChunks_getElem? _ _ _ (le_refl _) hk]
      simp only [Option.map_some', fragmentReport]
      rw [Nat.add_comm 1 k]
    · simp only [List.length_append, List.length_cons, List.length_nil]
    · intro hk'
      rw [List.length_take, List.length_drop]
      omega
    · intro hk'
      rw [List.length_take, List.length_drop]
      omega
  · have : (List.range ((data.length + 55) / 56)).map
        (fun k => (data.drop (56 * k)).take 56) = payloadChunks data.length data := by
      apply List.ext_getElem?
      intro i
      by_cases hi : i < (data.length + 55) / 56
      · rw [payloadChunks_getElem? _ _ _ (le_refl _) hi]
        simp [List.getElem?_map, List.getElem?_range hi]
      · rw [List.getElem?_eq_none (by simp; omega), List.getElem?_eq_none (by rw [hlen]; omega)]
    rw [this, hfl]

theorem SendReport2_framing_witness :
    1 ≤ (List.replicate 60 9).length ∧ (List.replicate 60 9).length ≤ 1024 ∧
    ∃ dev' ws, sampleDevice.SendReport2 (List.replicate 60 9)
        ((List.replicate 60 9).length : Nat) = some (true, dev') ∧
      dev'.Usb.Written = sampleDevice.Usb.Written ++ ws ∧
      ws.length = ((List.replicate 60 9).length + 55) / 56 :=
  ⟨by decide, by decide,
    (SendReport2_framing sampleDevice (List.replicate 60 9) (by decide) (by decide)
      (fun _ => rfl)).elim fun dev' h => h.elim fun ws hw => ⟨dev', ws, hw.1, hw.2.1, hw.2.2.1⟩⟩


/-- C12, as stated, fails when the observed mode is not Send.  On the open sample device (mode
0, no wait pending, silent receive thread) `SendIR(99999, ..)` returns `false`, but only after
the mode-change command 'S' has been handed to the pipe. -/
theorem SendIR_invalid_frequency_writes_mode_change :
    sampleDevice.IsOpen = true ∧ (99999 : Int) ∉ TiqiaaUsbIr_IrFreqTable ∧
    (sampleDevice.SendIR 99999 [1, 2, 3] 3 (List.replicate 1024 0) silentActivity).map
        (fun r => (r.1, r.2.Usb.Written))
      = some (false, [[2, 9, 1, 1, 1, 83, 84, 1, 83, 69, 78]]) := by
  decide

/-- C12, amended.  On an open device, for every `freq > 255` that is no entry of the frequency
table, `SendIR` returns `false`, whatever the pipe and the receive thread do, and it never
hands the IR data packet to the pipe: afterwards the pipe holds what it held before, followed
at most by the single report of the mode-change command (`'S','T'`, id, `'S'`, `'E','N'`).
When the observed mode is already Send (`DeviceState = 9`) nothing at all is handed to the
pipe; when it is not Send and no wait is pending, exactly that one report is. -/
theorem SendIR_invalid_frequency (dev : TiqiaaUsbIr) (freq : Int) (buffer : List Nat)
    (buf_size : Int) (stack : List Nat) (env : SendIRActivity) (hopen : dev.IsOpen = true)
    (hf : 255 < freq) (hmiss : freq ∉ TiqiaaUsbIr_IrFreqTable) :
    ∃ dev', dev.SendIR freq buffer buf_size stack env = some (false, dev') ∧
      (dev.DeviceState = StateSend → dev'.Usb.Written = dev.Usb.Written) ∧
      (dev'.Usb.Written = dev.Usb.Written ∨
        dev'.Usb.Written = dev.Usb.Written ++
          [[2, 9, nextPacketIndex dev.PacketIndex, 1, 1, 83, 84, dev.GetCmdId.1, CmdSendMode,
            69, 78]]) ∧
      (dev.DeviceState ≠ StateSend → dev.IsWaitingCmdReply = false →
        dev'.Usb.Written = dev.Usb.Written ++
          [[2, 9, nextPacketIndex dev.PacketIndex, 1, 1, 83, 84, dev.GetCmdId.1, CmdSendMode,
            69, 78]]) := by
  obtain ⟨dev', h1, h2, h3⟩ := SendIR_rejected_pipe dev freq buffer buf_size stack env
    (resolve_miss freq hf hmiss)
  obtain ⟨r, hr, hw1, hw2⟩ := SendCmdAndWaitReply_Written dev.GetCmdId.2 CmdSendMode
    dev.GetCmdId.1 CmdReplyWaitTimeout env.modeChange
  obtain ⟨g1, g2, g3⟩ := GetCmdId_frame dev
  rw [(GetCmdId_Usb dev).1, g1] at hw1
  rw [(GetCmdId_Usb dev).1, g1, g2, g3] at hw2
  refine ⟨dev', h1, fun hs => by rw [h2 hs], ?_, ?_⟩
  · by_cases hs : dev.DeviceState = StateSend
    · exact Or.inl (by rw [h2 hs])
    · obtain ⟨r', hr', hu⟩ := h3 hopen hs
      rw [hr] at hr'
      cases hr'
      rw [hu]
      exact hw1
  · intro hs hw
    obtain ⟨r', hr', hu⟩ := h3 hopen hs
    rw [hr] at hr'
    cases hr'
    rw [hu]
    exact hw2 hopen hw

theorem SendIR_invalid_frequency_witness :
    sampleDevice.IsOpen = true ∧ (255 : Int) < 99999 ∧
    (99999 : Int) ∉ TiqiaaUsbIr_IrFreqTable ∧ sampleDevice.DeviceState ≠ StateSend ∧
    sampleDevice.IsWaitingCmdReply = false ∧
    ∃ dev', sampleDevice.SendIR 99999 [1, 2, 3] 3 (List.replicate 1024 0) silentActivity
        = some (false, dev') ∧
      dev'.Usb.Written = sampleDevice.Usb.Written ++
        [[2, 9, nextPacketIndex sampleDevice.PacketIndex, 1, 1, 83, 84, sampleDevice.GetCmdId.1,
          CmdSendMode, 69, 78]] :=
  ⟨rfl, by decide, by decide, by decide, rfl,
    (SendIR_invalid_frequency sampleDevice 99999 [1, 2, 3] 3 (List.replicate 1024 0)
      silentActivity rfl (by decide) (by decide)).elim
      fun dev' h => ⟨dev', h.1, h.2.2.2 (by decide) rfl⟩⟩

/-- C13, as stated, fails for the direct ids 30 to 255: `SendIRCmd(100, ..)` returns `false` and
hands nothing to the pipe, where the claim puts the id 100 in the packet. -/
theorem SendIRCmd_direct_id_100_rejected :
    (sampleDevice.SendIRCmd 100 [1, 2, 3] 3 7 (List.replicate 1024 0)).map
        (fun r => (r.1, r.2.Usb.Written)) = some (false, []) := by
  decide

/-- C13, amended.  For a buffer that fits (`buf_size + 7 ≤ 1024`), `SendIRCmd` resolves `freq`
as follows.  If `0 ≤ freq < 30` the packet handed to `SendReport2` is 'S','T', id, 'D',
`freq`, the buffer, 'E','N': the frequency id is `freq` itself.  If `30 ≤ freq ≤ 255` the call
returns `false` with the device untouched: nothing is transmitted.  If `freq` is entry `i` of
`TiqiaaUsbIr_IrFreqTable` the frequency id is `i` (0 for 38000).  For every other `freq > 255`
the call returns `false` with the device untouched.  The statement is about `freq ≥ 0`. -/
theorem SendIRCmd_frequency (dev : TiqiaaUsbIr) (buffer : List Nat) (cmdId : Nat)
    (stack : List Nat) (hsize : buffer.length + 7 ≤ 1024) (hstack : stack.length = 1024) :
    (∀ freq : Int, 0 ≤ freq → freq < 30 →
      ∃ PackBuf, dev.SendIRCmd freq buffer buffer.length cmdId stack
          = dev.SendReport2 PackBuf ((buffer.length : Int) + 7) ∧
        PackBuf.take (buffer.length + 7)
          = [83, 84, cmdId, CmdData, freq.toNat] ++ buffer ++ [69, 78]) ∧
    (∀ freq : Int, 30 ≤ freq → freq ≤ 255 →
      dev.SendIRCmd freq buffer buffer.length cmdId stack = some (false, dev)) ∧
    (∀ i : Nat, i < 30 →
      255 < TiqiaaUsbIr_IrFreqTable.getD i 0 ∧
      ∃ PackBuf, dev.SendIRCmd (TiqiaaUsbIr_IrFreqTable.getD i 0) buffer buffer.length cmdId stack
          = dev.SendReport2 PackBuf ((buffer.length : Int) + 7) ∧
        PackBuf.take (buffer.length + 7)
          = [83, 84, cmdId, CmdData, i] ++ buffer ++ [69, 78]) ∧
    TiqiaaUsbIr_IrFreqTable.getD 0 0 = 38000 ∧
    (∀ freq : Int, 255 < freq → freq ∉ TiqiaaUsbIr_IrFreqTable →
      dev.SendIRCmd freq buffer buffer.length cmdId stack = some (false, dev)) := by
  refine ⟨?_, ?_, ?_, rfl, ?_⟩
  · intro freq h0 h1
    exact SendIRCmd_packet dev freq buffer cmdId stack freq.toNat (resolve_direct freq h0 h1)
      hsize hstack
  · intro freq h0 h1
    exact SendIRCmd_rejected dev freq buffer _ cmdId stack (resolve_gap freq h0 h1)
  · intro i hi
    have hgt : ∀ j : Fin 30, 255 < TiqiaaUsbIr_IrFreqTable.getD j.val 0 := by decide
    exact ⟨hgt ⟨i, hi⟩, SendIRCmd_packet dev _ buffer cmdId stack i (resolve_entry ⟨i, hi⟩)
      hsize hstack⟩
  · intro freq hf hmiss
    exact SendIRCmd_rejected dev freq buffer _ cmdId stack (resolve_miss freq hf hmiss)

theorem SendIRCmd_frequency_witness :
    ([1, 2, 3] : List Nat).length + 7 ≤ 1024 ∧ (List.replicate 1024 0).length = 1024 ∧
    (∃ PackBuf, sampleDevice.SendIRCmd 38000 [1, 2, 3] (([1, 2, 3] : List Nat).length : Nat) 7
          (List.replicate 1024 0)
          = sampleDevice.SendReport2 PackBuf (((([1, 2, 3] : List Nat).length : Nat) : Int) + 7) ∧
        PackBuf.take (([1, 2, 3] : List Nat).length + 7)
          = [83, 84, 7, CmdData, 0] ++ [1, 2, 3] ++ [69, 78]) ∧
    sampleDevice.SendIRCmd 99999 [1, 2, 3] (([1, 2, 3] : List Nat).length : Nat) 7
      (List.replicate 1024 0) = some (false, sampleDevice) ∧
    sampleDevice.SendIRCmd 100 [1, 2, 3] (([1, 2, 3] : List Nat).length : Nat) 7
      (List.replicate 1024 0) = some (false, sampleDevice) :=
  have h := SendIRCmd_frequency sampleDevice [1, 2, 3] 7 (List.replicate 1024 0) (by decide)
    (List.length_replicate 1024 0)
  ⟨by decide, List.length_replicate 1024 0, (h.2.2.1 0 (by decide)).2, h.2.2.2.2 99999 (by decide) (by decide),
    h.2.1 100 (by decide) (by decide)⟩

/-- A defect of `SendIRCmd` beside the frequency resolution above: the test
`freq < TiqiaaUsbIr_IrFreqTableSize` of line 127 has no lower bound, so a negative `freq` is
not rejected.  `SendIRCmd(-1, ..)` returns `true` after handing to the pipe the data packet
with the frequency id 255 (the low byte of -1), an id the method rejects when it is passed as
`freq = 255`. -/
theorem SendIRCmd_negative_frequency_not_rejected :
    (sampleDevice.SendIRCmd (-1) [1, 2, 3] 3 7 (List.replicate 1024 0)).map
        (fun r => (r.1, r.2.Usb.Written))
      = some (true, [[2, 13, 1, 1, 1, 83, 84, 7, 68, 255, 1, 2, 3, 69, 78]]) ∧
    (sampleDevice.SendIRCmd 255 [1, 2, 3] 3 7 (List.replicate 1024 0)).map
        (fun r => (r.1, r.2.Usb.Written)) = some (false, []) := by
  decide

/-- C14 (set-idle short circuit).  On an open device whose observed mode is Idle
(`DeviceState = 3`), `SetIdleMode` returns `true` and leaves the device as it was: nothing is
handed to the pipe, no command id is consumed and the wait fields are unchanged. -/
theorem SetIdleMode_short_circuit (dev : TiqiaaUsbIr) (env : RecvActivity)
    (afterReply : List (List Nat × Int)) (hopen : dev.IsOpen = true)
    (hidle : dev.DeviceState = StateIdle) :
    ∃ dev', dev.SetIdleMode env afterReply = some (true, dev') ∧ dev' = dev ∧
      dev'.Usb.Written = dev.Usb.Written ∧ dev'.CmdId = dev.CmdId ∧
      dev'.IsWaitingCmdReply = dev.IsWaitingCmdReply ∧
      dev'.IsCmdReplyReceived = dev.IsCmdReplyReceived ∧
      dev'.WaitCmdId = dev.WaitCmdId ∧ dev'.WaitCmdType = dev.WaitCmdType ∧
      dev'.WaitCmdCsEnter = dev.WaitCmdCsEnter ∧ dev'.WaitCmdCsLeave = dev.WaitCmdCsLeave ∧
      dev'.SetEventCalls = dev.SetEventCalls := by
  refine ⟨dev, ?_, rfl, rfl, rfl, rfl, rfl, rfl, rfl, rfl, rfl, rfl⟩
  simp [SetIdleMode, hopen, hidle]

theorem SetIdleMode_short_circuit_witness :
    sampleIdleDevice.IsOpen = true ∧ sampleIdleDevice.DeviceState = StateIdle ∧
    ∃ dev', sampleIdleDevice.SetIdleMode sampleActivity [] = some (true, dev') ∧
      dev'.Usb.Written = sampleIdleDevice.Usb.Written ∧ dev'.CmdId = sampleIdleDevice.CmdId :=
  ⟨rfl, rfl,
    (SetIdleMode_short_circuit sampleIdleDevice sampleActivity [] rfl rfl).elim
      fun dev' h => ⟨dev', h.1, h.2.2.1, h.2.2.2.1⟩⟩


/-- C15, as stated, fails for a version packet whose size is not 41: the 'V' packet of 42 bytes
with `pack[40] = 3` leaves `DeviceState = 0` as it was. -/
theorem version_packet_other_size_keeps_mode :
    rd ([1, 86] ++ List.replicate 38 0 ++ [3, 0]) 1 = CmdVersion ∧
    rd ([1, 86] ++ List.replicate 38 0 ++ [3, 0]) 40 = 3 ∧
    sampleDevice.DeviceState = 0 ∧
    (sampleDevice.ProcessRecvPacket ([1, 86] ++ List.replicate 38 0 ++ [3, 0]) 42).DeviceState
      = 0 := by
  decide

/-- C15, amended.  For every packet handed to `ProcessRecvPacket`: if `pack[1]` is one of 'L',
'S', 'R', 'O', 'C', 'H' the new `DeviceState` is `pack[2]`; if `pack[1]` is 'V' and the size is
41 (`sizeof(TiqiaaUsbIr_VersionPacket) + 2`) the new `DeviceState` is the `State` field of the
version structure, `pack[40]`; if `pack[1]` is 'V' and the size is not 41, `DeviceState` is
unchanged. -/
theorem ProcessRecvPacket_mode (dev : TiqiaaUsbIr) (pack : List Nat) (size : Int) :
    ((rd pack 1 = CmdIdleMode ∨ rd pack 1 = CmdSendMode ∨ rd pack 1 = CmdRecvMode
        ∨ rd pack 1 = CmdOutput ∨ rd pack 1 = CmdCancel ∨ rd pack 1 = CmdUnknown) →
      (dev.ProcessRecvPacket pack size).DeviceState = rd pack 2) ∧
    (rd pack 1 = CmdVersion → size = 41 →
      (dev.ProcessRecvPacket pack size).DeviceState = rd pack 40) ∧
    (rd pack 1 = CmdVersion → size ≠ 41 →
      (dev.ProcessRecvPacket pack size).DeviceState = dev.DeviceState) := by
  refine ⟨?_, ?_, ?_⟩
  · intro h
    have hv : rd pack 1 ≠ CmdVersion := by
      rcases h with h | h | h | h | h | h <;> rw [h] <;> decide
    unfold ProcessRecvPacket
    simp only [hv, if_false, h, if_true]
  · intro hv hs
    unfold ProcessRecvPacket
    simp only [hv, if_true, hs, sizeofVersionPacket, offsetofVersionState]
    simp
  · intro hv hs
    have hs' : ¬ (size = (sizeofVersionPacket : Int) + 2) := by
      simp only [sizeofVersionPacket]; omega
    unfold ProcessRecvPacket
    simp only [hv, if_true, hs', if_false]
    simp only [EnterCriticalSection, LeaveCriticalSection, SetEvent]
    split_ifs <;> rfl

theorem ProcessRecvPacket_mode_witness :
    (sampleDevice.ProcessRecvPacket [1, CmdSendMode, StateSend] 3).DeviceState
      = rd [1, CmdSendMode, StateSend] 2 ∧
    (sampleDevice.ProcessRecvPacket ([1, CmdVersion] ++ List.replicate 38 0 ++ [StateIdle])
      41).DeviceState = rd ([1, CmdVersion] ++ List.replicate 38 0 ++ [StateIdle]) 40 ∧
    (sampleDevice.ProcessRecvPacket [1, CmdVersion, StateIdle] 3).DeviceState
      = sampleDevice.DeviceState :=
  ⟨(ProcessRecvPacket_mode sampleDevice [1, CmdSendMode, StateSend] 3).1 (by decide),
    (ProcessRecvPacket_mode sampleDevice ([1, CmdVersion] ++ List.replicate 38 0 ++ [StateIdle])
      41).2.1 (by decide) rfl,
    (ProcessRecvPacket_mode sampleDevice [1, CmdVersion, StateIdle] 3).2.2 (by decide)
      (by decide)⟩

/-- C16 (data packets never change mode).  For every packet handed to `ProcessRecvPacket` whose
type byte `pack[1]` is none of 'V', 'L', 'S', 'R', 'O', 'C', 'H' (a data packet 'D' or any
other type), `DeviceState` is unchanged. -/
theorem ProcessRecvPacket_keeps_mode (dev : TiqiaaUsbIr) (pack : List Nat) (size : Int)
    (hV : rd pack 1 ≠ CmdVersion) (hL : rd pack 1 ≠ CmdIdleMode) (hS : rd pack 1 ≠ CmdSendMode)
    (hR : rd pack 1 ≠ CmdRecvMode) (hO : rd pack 1 ≠ CmdOutput) (hC : rd pack 1 ≠ CmdCancel)
    (hH : rd pack 1 ≠ CmdUnknown) :
    (dev.ProcessRecvPacket pack size).DeviceState = dev.DeviceState := by
  unfold ProcessRecvPacket
  simp only [hV, hL, hS, hR, hO, hC, hH, if_false, or_self]
  simp only [EnterCriticalSection, LeaveCriticalSection, SetEvent]
  split_ifs <;> rfl

theorem ProcessRecvPacket_keeps_mode_witness :
    rd [1, CmdData, 7, 8] 1 ≠ CmdVersion ∧
    (sampleSendDevice.ProcessRecvPacket [1, CmdData, 7, 8] 4).DeviceState
      = sampleSendDevice.DeviceState ∧
    (sampleSendDevice.ProcessRecvPacket [1, 90, 7, 8] 4).DeviceState
      = sampleSendDevice.DeviceState :=
  ⟨by decide,
    ProcessRecvPacket_keeps_mode sampleSendDevice [1, CmdData, 7, 8] 4 (by decide) (by decide)
      (by decide) (by decide) (by decide) (by decide) (by decide),
    ProcessRecvPacket_keeps_mode sampleSendDevice [1, 90, 7, 8] 4 (by decide) (by decide)
      (by decide) (by decide) (by decide) (by decide) (by decide)⟩

/-- C17 fails on the code: on every open device `Close` returns `true` after executing its
statements in the order of the source, in which `WinUsb_Free` comes before the wait for the
receive thread. -/
theorem Close_frees_before_join (dev : TiqiaaUsbIr) (env : RecvActivity)
    (afterReply : List (List Nat × Int)) (hopen : dev.IsOpen = true) :
    ∃ dev', dev.Close env afterReply = some (true, dev',
      [CloseStep.ClearReadActive, CloseStep.WinUsb_AbortPipe, CloseStep.WinUsb_Free,
        CloseStep.WaitForReadThread, CloseStep.CloseHandle]) := by
  obtain ⟨r, hr⟩ := SetIdleMode_total dev env afterReply
  unfold Close
  simp only [hopen, Bool.not_true, Bool.false_eq_true, if_false, hr]
  exact ⟨_, rfl⟩

theorem Close_frees_before_join_witness :
    sampleIdleDevice.IsOpen = true ∧
    ∃ dev', sampleIdleDevice.Close sampleActivity [] = some (true, dev',
      [CloseStep.ClearReadActive, CloseStep.WinUsb_AbortPipe, CloseStep.WinUsb_Free,
        CloseStep.WaitForReadThread, CloseStep.CloseHandle]) :=
  ⟨rfl, Close_frees_before_join sampleIdleDevice sampleActivity [] rfl⟩

/-- C18, as stated, fails when an `int` result of the call leaves the 32-bit range.  From the
state `Size = PulseTime = SenderTime = 0` with `N = 1908875` the claim gives
`T = floor(1125 * 1908875 / 32) = 67108886` and `ceil(T / 127) = 528417` appended bytes, but
`1125 * 1908875 = 2147484375` exceeds `2^31 - 1`: the code appends no byte and leaves
`PulseTime = -2147482921`, `SenderTime = -2147482912`, so `PulseTime - SenderTime = -9`.  From
`PulseTime = 2147483000`, `SenderTime = 2147482976` with `N = 1` (`T = 35`) it leaves
`SenderTime = -2147483200`, not `2147482976 + 32 * 35 = 2147484096`. -/
theorem WriteIrNecSignalPulse_overflow :
    (0 : Int) ≤ 0 - 0 ∧ (0 : Int) ≤ 1908875 ∧
    ((0 : Int) + 1125 * 1908875 - 0) / 32 = 67108886 ∧ ((67108886 : Int) + 126) / 127 = 528417 ∧
    (WriteIrNecSignalPulse { Buf := fun _ => 0, Size := 0, PulseTime := 0, SenderTime := 0 }
        1908875 true).map (fun w => (w.Size, w.PulseTime, w.SenderTime))
      = some (0, -2147482921, -2147482912) ∧
    (0 : Int) ≤ 2147483000 - 2147482976 ∧
    ((2147483000 : Int) + 1125 * 1 - 2147482976) / 32 = 35 ∧
    (WriteIrNecSignalPulse
        { Buf := fun _ => 0, Size := 0, PulseTime := 2147483000, SenderTime := 2147482976 }
        1 true).map (fun w => (w.Size, w.PulseTime, w.SenderTime))
      = some (1, -2147483171, -2147483200) ∧
    (2147482976 : Int) + 32 * 35 = 2147484096 := by
  decide

/-- C18, amended.  For every encoder state of 32-bit values (`SenderTime ≥ -2^31`,
`Size ≥ -2^31`) with `0 ≤ PulseTime - SenderTime` and every `N ≥ 0` such that no `int` result
of the call leaves the 32-bit range, that is `PulseTime + 1125 N ≤ 2^31 - 1`,
`PulseTime + 1125 N - SenderTime ≤ 2^31 - 1` and `Size + ceil(T / 127) ≤ 2^31 - 1`, with
`T = floor((PulseTime + 1125 N - SenderTime) / 32)` and `n = ceil(T / 127)`:
`WriteIrNecSignalPulse(N, isSet)` returns after appending exactly `n` bytes (`Size` grows by
`n`, every byte outside `Buf[Size .. Size + n)` is untouched); the low 7 bits of appended byte
`k` are `min(T - 127 k, 127)`, which is 127 for every byte but the last and in 1..127 for the
last; its high bit is set iff `isSet`; the tick counts sum to `T`; `SenderTime` advances by
`32 T`, `PulseTime` by `1125 N`, and afterwards `0 ≤ PulseTime - SenderTime < 32`. -/
theorem WriteIrNecSignalPulse_chunking (w : TqIrWriteData) (N : Int) (isSet : Bool) (T n : Int)
    (hres : 0 ≤ w.PulseTime - w.SenderTime) (hN : 0 ≤ N)
    (hT : T = (w.PulseTime + 1125 * N - w.SenderTime) / 32) (hn : n = (T + 126) / 127)
    (hS : -2147483648 ≤ w.SenderTime) (hZ0 : -2147483648 ≤ w.Size)
    (hP : w.PulseTime + 1125 * N ≤ 2147483647)
    (hD : w.PulseTime + 1125 * N - w.SenderTime ≤ 2147483647)
    (hZ : w.Size + n ≤ 2147483647) :
    0 ≤ T ∧ 127 * (n - 1) < T ∧ T ≤ 127 * n ∧
    ∃ w', WriteIrNecSignalPulse w N isSet = some w' ∧
      w'.Size = w.Size + n ∧
      (∀ j, ¬ (w.Size ≤ j ∧ j < w.Size + n) → w'.Buf j = w.Buf j) ∧
      (∀ k : Int, 0 ≤ k → k < n →
        ((w'.Buf (w.Size + k) % 128 : Nat) : Int) = min (T - 127 * k) 127 ∧
        w'.Buf (w.Size + k) / 128 = (if isSet then 1 else 0) ∧
        (k < n - 1 → w'.Buf (w.Size + k) % 128 = 127) ∧
        1 ≤ w'.Buf (w.Size + k) % 128 ∧ w'.Buf (w.Size + k) % 128 ≤ 127) ∧
      ((((List.range n.toNat).map fun k : Nat => w'.Buf (w.Size + (k : Int)) % 128).sum : Nat)
        : Int) = T ∧
      w'.SenderTime = w.SenderTime + 32 * T ∧
      w'.PulseTime = w.PulseTime + 1125 * N ∧
      0 ≤ w'.PulseTime - w'.SenderTime ∧ w'.PulseTime - w'.SenderTime < 32 := by
  obtain ⟨w', hw', hp, hs, hsz, hb⟩ := pulse_spec w N isSet hres hN hS hP hD hZ0
    (by rw [← hT, ← hn]; exact hZ)
  rw [← hT] at hs hsz hb
  rw [← hn] at hsz hb
  have hnn : 0 ≤ w.PulseTime + 1125 * N - w.SenderTime := by nlinarith
  have hT0 : 0 ≤ T := by rw [hT]; exact Int.ediv_nonneg hnn (by norm_num)
  have hbyte : ∀ k : Int, 0 ≤ k → k < n →
      w'.Buf (w.Size + k) % 128 = (min (T - 127 * k) 127).toNat ∧
      w'.Buf (w.Size + k) / 128 = (if isSet then 1 else 0) := by
    intro k hk0 hk1
    have c : w.Size ≤ w.Size + k ∧ w.Size + k < w.Size + n := by omega
    have e : w.Size + k - w.Size = k := by omega
    rw [hb (w.Size + k), if_pos c, e]
    exact blockByte_low isSet _ (by omega) (by omega)
  refine ⟨hT0, by omega, by omega, w', hw', hsz, ?_, ?_, ?_, hs, hp, ?_, ?_⟩
  · intro j hj
    rw [hb j, if_neg hj]
  · intro k hk0 hk1
    obtain ⟨h1, h2⟩ := hbyte k hk0 hk1
    refine ⟨?_, h2, ?_, ?_, ?_⟩
    · rw [h1]; omega
    · intro hk; rw [h1]; omega
    · rw [h1]; omega
    · rw [h1]; omega
  · have hmap : ((List.range n.toNat).map fun k : Nat => w'.Buf (w.Size + (k : Int)) % 128)
        = (List.range n.toNat).map fun k => min (T.toNat - 127 * k) 127 := by
      apply List.map_congr_left
      intro k hk
      rw [List.mem_range] at hk
      rw [(hbyte k (by omega) (by omega)).1]
      omega
    rw [hmap, sum_blocks]
    omega
  · rw [hp, hs]; omega
  · rw [hp, hs]; omega

theorem WriteIrNecSignalPulse_chunking_witness :
    ∃ w', WriteIrNecSignalPulse
        { Buf := fun _ => 0, Size := 0, PulseTime := 0, SenderTime := 0 } 16 true = some w' ∧
      w'.Size = 5 ∧ w'.Buf 0 = 255 ∧ w'.Buf 4 = 182 ∧
      ((((List.range 5).map fun k : Nat => w'.Buf (0 + (k : Int)) % 128).sum : Nat) : Int) = 562 ∧
      w'.SenderTime = 17984 ∧ w'.PulseTime = 18000 := by
  obtain ⟨_, _, _, w', h1, h2, h3, h4, h5, h6, h7, _, _⟩ := WriteIrNecSignalPulse_chunking
    { Buf := fun _ => 0, Size := 0, PulseTime := 0, SenderTime := 0 } 16 true 562 5
    (by decide) (by decide) (by decide) (by decide) (by decide) (by decide) (by decide)
    (by decide) (by decide)
  refine ⟨w', h1, h2, ?_, ?_, h5, h6, h7⟩
  · have a := (h4 0 (by decide) (by decide)).1
    have b := (h4 0 (by decide) (by decide)).2.1
    simp only [if_true] at a b
    norm_num at a b
    omega
  · have a := (h4 4 (by decide) (by decide)).1
    have b := (h4 4 (by decide) (by decide)).2.1
    simp only [if_true] at a b
    norm_num at a b
    omega

/-- C19 (dispatched payload).  Whenever one iteration of the loop of `ReadThreadFn`, from any
state whose packet buffer is the 1024-byte array and any received report, calls
`ProcessRecvPacket(pack, size)`: the accumulated size is in 7..1024; the buffer starts with the
bytes 'S','T' and its bytes `PackSize - 2`, `PackSize - 1` are 'E','N'; `size = PackSize - 4`
is at least 3; `pack` lists exactly the `size` bytes `PackBuf[2 .. PackSize - 2)`; so the reads
`pack[0]`, `pack[1]`, `pack[2]` of `ProcessRecvPacket` are the buffer bytes 2, 3, 4, inside the
delivered payload. -/
theorem dispatched_payload (st st' : ReadState) (rx pack : List Nat) (size : Int)
    (hlen : st.PackBuf.length = 1024)
    (hPack : ∀ b ∈ st.PackBuf, b < 256) (hFragm : ∀ b ∈ st.FragmBuf, b < 256)
    (hrx : ∀ b ∈ rx, b < 256)
    (h : ReadThreadFn.iteration st (some rx) = some (st', some (pack, size))) :
    6 < st'.PackSize ∧ st'.PackSize ≤ 1024 ∧ st'.PackBuf.length = 1024 ∧
    rd st'.PackBuf 0 = 83 ∧ rd st'.PackBuf 1 = 84 ∧
    rd st'.PackBuf (st'.PackSize - 2).toNat = 69 ∧
    rd st'.PackBuf (st'.PackSize - 1).toNat = 78 ∧
    size = st'.PackSize - 4 ∧ 3 ≤ size ∧
    pack = (st'.PackBuf.drop 2).take (st'.PackSize - 4).toNat ∧
    (pack.length : Int) = size ∧
    (∀ i : Nat, (i : Int) < size → pack[i]? = st'.PackBuf[2 + i]?) ∧
    (∀ i : Nat, i < 3 → i < pack.length ∧ rd pack i = rd st'.PackBuf (2 + i)) := by
  unfold ReadThreadFn.iteration at h
  simp only at h
  unfold ReadThreadFn.reassemble at h
  split_ifs at h with hg
  swap
  · simp only [Option.some.injEq, Prod.mk.injEq, reduceCtorEq, and_false] at h
  obtain ⟨hg1, -, hg3⟩ := hg
  have hF : (ReadThreadFn.newPacket (ReadThreadFn.addToExisting (ReadPipe st rx))).FragmBuf
      = memcpy st.FragmBuf 0 rx rx.length := by
    rw [(newPacket_bufs _).1, (addToExisting_bufs _).1]; rfl
  have hP : (ReadThreadFn.newPacket (ReadThreadFn.addToExisting (ReadPipe st rx))).PackBuf
      = st.PackBuf := by
    rw [(newPacket_bufs _).2, (addToExisting_bufs _).2]; rfl
  have hrd : rd (ReadPipe st rx).FragmBuf 1 = rd (memcpy st.FragmBuf 0 rx rx.length) 1 := rfl
  rw [hrd] at hg3
  obtain ⟨a1, a2, a3, a4, a5, -, a7, a8, a9, a10, a11⟩ := append_dispatch _ _ _ _ h
  rw [hF] at a1 a3 a5
  rw [hP] at a5
  generalize (ReadThreadFn.newPacket (ReadThreadFn.addToExisting (ReadPipe st rx))).PackSize
    = p at a2 a3 a5
  have hFlen : rx.length ≤ (memcpy st.FragmBuf 0 rx rx.length).length := by
    simp only [memcpy, List.length_append, List.length_take, List.length_drop]
    omega
  have hFb : ∀ b ∈ (memcpy st.FragmBuf 0 rx rx.length).drop 5, b < 256 := fun b hb =>
    memcpy_bytes st.FragmBuf 0 rx rx.length hFragm hrx b (List.mem_of_mem_drop hb)
  generalize memcpy st.FragmBuf 0 rx rx.length = F at *
  have hlen' : st'.PackBuf.length = 1024 := by
    rw [a5, memcpy_length _ _ _ _ (by rw [List.length_drop]; omega) (by omega), hlen]
  have hb' : ∀ b ∈ st'.PackBuf, b < 256 := by
    rw [a5]; exact memcpy_bytes _ _ _ _ hPack hFb
  have r0 := rd_lt st'.PackBuf 0 hb'
  have r1 := rd_lt st'.PackBuf 1 hb'
  have r2 := rd_lt st'.PackBuf (st'.PackSize - 2).toNat hb'
  have r3 := rd_lt st'.PackBuf (st'.PackSize - 1).toNat hb'
  have e : (st'.PackSize - 2).toNat + 1 = (st'.PackSize - 1).toNat := by omega
  simp only [rd16, PackStartSign, PackEndSign, e, Nat.zero_add] at a8 a9
  have hpl : pack.length = (st'.PackSize - 4).toNat := by
    rw [a10, List.length_take, List.length_drop, hlen']; omega
  have hget : ∀ i : Nat, (i : Int) < size → pack[i]? = st'.PackBuf[2 + i]? := by
    intro i hi
    rw [a10, List.getElem?_take_of_lt (by omega), List.getElem?_drop]
  refine ⟨a7, a4, hlen', by omega, by omega, by omega, by omega, a11, by omega, a10, by omega,
    hget, ?_⟩
  intro i hi
  refine ⟨by omega, ?_⟩
  simp only [rd, List.getD_eq_getElem?_getD]
  rw [hget i (by omega)]

theorem dispatched_payload_witness :
    sampleReadState.PackBuf.length = 1024 ∧
    ∃ st', ReadThreadFn.iteration sampleReadState
        (some [1, 10, 1, 1, 1, 83, 84, 7, 86, 3, 69, 78]) = some (st', some ([7, 86, 3], 3)) ∧
      6 < st'.PackSize ∧ rd st'.PackBuf 0 = 83 ∧ rd st'.PackBuf 1 = 84 ∧
      rd st'.PackBuf (st'.PackSize - 2).toNat = 69 ∧
      rd st'.PackBuf (st'.PackSize - 1).toNat = 78 ∧
      (3 : Int) = st'.PackSize - 4 ∧ (([7, 86, 3] : List Nat).length : Int) = 3 :=
  have hz : ∀ (n : Nat), ∀ b ∈ List.replicate n 0, b < 256 := fun n b hb => by
    rw [List.eq_of_mem_replicate hb]; decide
  have h : ReadThreadFn.iteration sampleReadState
      (some [1, 10, 1, 1, 1, 83, 84, 7, 86, 3, 69, 78])
      = some ({ FragmBuf := memcpy (List.replicate 61 0) 0
                  [1, 10, 1, 1, 1, 83, 84, 7, 86, 3, 69, 78] 12,
                PackBuf := memcpy (List.replicate 1024 0) 0 [83, 84, 7, 86, 3, 69, 78] 7,
                PackSize := 7, PacketIdx := 1, FragmCount := 1, LastFragmIdx := 1 },
              some ([7, 86, 3], 3)) := by
    rfl
  have t := dispatched_payload sampleReadState _ [1, 10, 1, 1, 1, 83, 84, 7, 86, 3, 69, 78]
    [7, 86, 3] 3 (List.length_replicate 1024 0) (hz 1024) (hz 61) (by decide) h
  ⟨List.length_replicate 1024 0, _, h, t.1, t.2.2.2.1, t.2.2.2.2.1, t.2.2.2.2.2.1,
    t.2.2.2.2.2.2.1, t.2.2.2.2.2.2.2.1, t.2.2.2.2.2.2.2.2.2.2.1⟩

/-- C20 fails on the code: the 6-byte report with header `ReportId = 1`, `FragmSize = 0`,
`PacketIdx = 1`, `FragmCount = 1`, `FragmIdx = 1`, read with no packet in progress, passes the
test of the loop (`6 > 5`, report id 1, `0 + 2 ≤ 6`) and starts a packet; the fragment length
computed is `0 + 2 - 5 = -3`, the test `PackSize + FragmSize <= MaxUsbPacketSize` passes
(`-3 ≤ 1024`) and `memcpy` is called with the length -3: the iteration has no defined
result. -/
theorem negative_fragment_length :
    ([1, 0, 1, 1, 1, 0] : List Nat).length ≤ 61 ∧
    ([1, 0, 1, 1, 1, 0] : List Nat).length > sizeofReport2Header ∧
    rd (ReadPipe sampleReadState [1, 0, 1, 1, 1, 0]).FragmBuf 0 = ReadReportId ∧
    rd (ReadPipe sampleReadState [1, 0, 1, 1, 1, 0]).FragmBuf 1 + 2
      ≤ ([1, 0, 1, 1, 1, 0] : List Nat).length ∧
    (ReadThreadFn.newPacket (ReadThreadFn.addToExisting
      (ReadPipe sampleReadState [1, 0, 1, 1, 1, 0]))).FragmCount = 1 ∧
    (ReadThreadFn.newPacket (ReadThreadFn.addToExisting
      (ReadPipe sampleReadState [1, 0, 1, 1, 1, 0]))).PackSize = 0 ∧
    (rd (ReadPipe sampleReadState [1, 0, 1, 1, 1, 0]).FragmBuf 1 : Int) + 2
      - (sizeofReport2Header : Int) = -3 ∧
    (0 : Int) + -3 ≤ MaxUsbPacketSize ∧
    (ReadThreadFn.iteration sampleReadState (some [1, 0, 1, 1, 1, 0])).isNone = true ∧
    (ReadThreadFn.run (ReadThreadFn.init sampleReadState)
      [some [1, 0, 1, 1, 1, 0]]).isNone = true := by
  decide

/-! ## Lock balance and frame duration -/

theorem ProcessRecvPacket_lock (dev : TiqiaaUsbIr) (pack : List Nat) (size : Int) :
    (dev.ProcessRecvPacket pack size).WaitCmdCsEnter + dev.WaitCmdCsLeave
      = (dev.ProcessRecvPacket pack size).WaitCmdCsLeave + dev.WaitCmdCsEnter := by
  unfold ProcessRecvPacket
  simp only [EnterCriticalSection, LeaveCriticalSection, SetEvent]
  split_ifs <;> (try simp only []) <;> omega

theorem dispatchAll_lock (calls : List (List Nat × Int)) : ∀ dev : TiqiaaUsbIr,
    (dev.dispatchAll calls).WaitCmdCsEnter + dev.WaitCmdCsLeave
      = (dev.dispatchAll calls).WaitCmdCsLeave + dev.WaitCmdCsEnter := by
  induction calls with
  | nil => intro dev; simp [dispatchAll]; omega
  | cons c cs ih =>
    intro dev
    have h1 := ProcessRecvPacket_lock dev c.1 c.2
    have h2 := ih (dev.ProcessRecvPacket c.1 c.2)
    simp only [dispatchAll, List.foldl_cons] at h2 ⊢
    omega

theorem tickSum_congr (B B' : Int → Nat) (S : Int) (h : ∀ j, 0 ≤ j → j < S → B' j = B j) :
    tickSum B' S = tickSum B S := by
  unfold tickSum
  congr 1
  apply List.map_congr_left
  intro k hk
  rw [List.mem_range] at hk
  rw [h k (by omega) (by omega)]

theorem tickSum_add (B : Int → Nat) (S n : Int) (hS : 0 ≤ S) (hn : 0 ≤ n) :
    tickSum B (S + n)
      = tickSum B S + ((List.range n.toNat).map fun k : Nat => B (S + (k : Int)) % 128).sum := by
  unfold tickSum
  have e : (S + n).toNat = S.toNat + n.toNat := by omega
  rw [e, List.range_add, List.map_append, List.sum_append, List.map_map]
  congr 2
  apply List.map_congr_left
  intro k _
  have e2 : ((S.toNat + k : Nat) : Int) = S + (k : Int) := by omega
  simp only [Function.comp, e2]

/-- One call of `WriteIrNecSignalPulse` on a state with small non-negative values keeps
`SenderTime - 32 * (ticks written)` as it was. -/
theorem pulse_ticks (w : TqIrWriteData) (N : Int) (isSet : Bool)
    (hres : 0 ≤ w.PulseTime - w.SenderTime) (hN : 0 ≤ N) (hS : 0 ≤ w.Size)
    (hZ : w.Size ≤ 1000000) (hS0 : 0 ≤ w.SenderTime)
    (hP : w.PulseTime + 1125 * N ≤ 1000000) :
    ∃ w', WriteIrNecSignalPulse w N isSet = some w' ∧
      w'.PulseTime = w.PulseTime + 1125 * N ∧ Residue w' ∧ 0 ≤ w'.Size ∧
      w'.Size ≤ w.Size + 247 ∧ 0 ≤ w'.SenderTime ∧
      w'.SenderTime - 32 * (tickSum w'.Buf w'.Size : Int)
        = w.SenderTime - 32 * (tickSum w.Buf w.Size : Int) := by
  obtain ⟨w', hw', hp, hs, hsz, hb⟩ := pulse_spec w N isSet hres hN (by omega) (by omega)
    (by omega) (by omega) (by omega)
  have hnn : 0 ≤ w.PulseTime + 1125 * N - w.SenderTime := by nlinarith
  have hle : w.PulseTime + 1125 * N - w.SenderTime ≤ 1000000 := by omega
  generalize hT : (w.PulseTime + 1125 * N - w.SenderTime) / 32 = T at hs hsz hb
  have hT0 : 0 ≤ T := by rw [← hT]; exact Int.ediv_nonneg hnn (by norm_num)
  have hT1 : T ≤ 31250 := by omega
  generalize hn : (T + 126) / 127 = n at hsz hb
  have hn0 : 0 ≤ n := by omega
  refine ⟨w', hw', hp, ?_, by omega, by omega, by omega, ?_⟩
  · unfold Residue; rw [hp, hs]; omega
  · have h1 : tickSum w'.Buf w.Size = tickSum w.Buf w.Size := by
      apply tickSum_congr
      intro j hj0 hj1
      have c : ¬ (w.Size ≤ j ∧ j < w.Size + n) := by omega
      rw [hb j, if_neg c]
    have h2 : ((List.range n.toNat).map fun k : Nat => w'.Buf (w.Size + (k : Int)) % 128)
        = (List.range n.toNat).map fun k => min (T.toNat - 127 * k) 127 := by
      apply List.map_congr_left
      intro k hk
      rw [List.mem_range] at hk
      have c : w.Size ≤ w.Size + (k : Int) ∧ w.Size + (k : Int) < w.Size + n := by omega
      have e : w.Size + (k : Int) - w.Size = (k : Int) := by omega
      rw [hb _, if_pos c, e, (blockByte_low isSet _ (by omega) (by omega)).1]
      omega
    rw [hsz, tickSum_add _ _ _ hS hn0, h1, h2, sum_blocks, hs]
    push_cast
    omega

theorem countP_testBit_succ (n t : Nat) :
    (List.range (n + 1)).countP (fun i => t.testBit i)
      = (if t.testBit 0 then 1 else 0) + (List.range n).countP (fun i => (t >>> 1).testBit i) := by
  rw [List.range_succ_eq_map, List.countP_cons, List.countP_map]
  have e : ((fun i => t.testBit i) ∘ Nat.succ) = fun i => (t >>> 1).testBit i := by
    funext i
    simp only [Function.comp, Nat.testBit_succ, Nat.shiftRight_one]
  rw [e]
  omega

theorem countP_testBit_split (m n a r : Nat) (ha : a < 2 ^ m) :
    (List.range (m + n)).countP (fun i => (2 ^ m * r + a).testBit i)
      = (List.range m).countP (fun i => a.testBit i)
        + (List.range n).countP (fun i => r.testBit i) := by
  rw [List.range_add, List.countP_append, List.countP_map]
  congr 1
  · apply List.countP_congr
    intro i hi
    rw [List.mem_range] at hi
    rw [Nat.testBit_mul_pow_two_add r ha i, if_pos hi]
  · apply List.countP_congr
    intro i _
    have c : ¬ (m + i < m) := by omega
    have e : m + i - m = i := by omega
    simp only [Function.comp]
    rw [Nat.testBit_mul_pow_two_add r ha (m + i), if_neg c, e]

set_option maxRecDepth 100000 in
theorem countP_byte_complement : ∀ b : Fin 256,
    (List.range 8).countP (fun i => b.val.testBit i)
      + (List.range 8).countP (fun i => (255 - b.val).testBit i) = 8 := by
  decide

/-- The frame of a byte and its complement has 16 one-bits among its 32 bits. -/
theorem tcodeOf_ones (IrCode : Nat) :
    (List.range 32).countP (fun i => (tcodeOf IrCode).testBit i) = 16 := by
  have hhi : IrCode / 256 % 256 < 256 := Nat.mod_lt _ (by norm_num)
  have hlo : IrCode % 256 < 256 := Nat.mod_lt _ (by norm_num)
  have e : tcodeOf IrCode = 2 ^ 8 * (2 ^ 8 * (2 ^ 8 * (255 - IrCode % 256) + IrCode % 256)
      + (255 - IrCode / 256 % 256)) + IrCode / 256 % 256 := by
    unfold tcodeOf
    simp only [not8_eq _ hhi, not8_eq _ hlo]
    omega
  have s1 := countP_testBit_split 8 24 (IrCode / 256 % 256)
    (2 ^ 8 * (2 ^ 8 * (255 - IrCode % 256) + IrCode % 256) + (255 - IrCode / 256 % 256))
    (by norm_num; exact hhi)
  have s2 := countP_testBit_split 8 16 (255 - IrCode / 256 % 256)
    (2 ^ 8 * (255 - IrCode % 256) + IrCode % 256) (by norm_num; omega)
  have s3 := countP_testBit_split 8 8 (IrCode % 256) (255 - IrCode % 256)
    (by norm_num; exact hlo)
  have c1 := countP_byte_complement ⟨IrCode / 256 % 256, hhi⟩
  have c0 := countP_byte_complement ⟨IrCode % 256, hlo⟩
  simp only at c1 c0
  rw [e]
  simp only [Nat.reduceAdd] at s1 s2 s3
  rw [s1, s2, s3]
  omega

theorem bits_ticks : ∀ (n : Nat) (tcode : Nat) (w : TqIrWriteData), Residue w → 0 ≤ w.Size →
    w.Size + 494 * n ≤ 1000000 → 0 ≤ w.SenderTime → w.PulseTime + 4500 * n ≤ 1000000 →
    ∃ w', WriteIrNecSignal.bits n tcode w = some w' ∧ Residue w' ∧ 0 ≤ w'.Size ∧
      w'.Size ≤ w.Size + 494 * n ∧ 0 ≤ w'.SenderTime ∧
      w'.PulseTime = w.PulseTime
        + 1125 * (2 * (n : Int) + 2 * ((List.range n).countP fun i => tcode.testBit i : Nat)) ∧
      w'.SenderTime - 32 * (tickSum w'.Buf w'.Size : Int)
        = w.SenderTime - 32 * (tickSum w.Buf w.Size : Int) := by
  intro n
  induction n with
  | zero =>
    intro tcode w hinv hS _ hS0 _
    exact ⟨w, rfl, hinv, hS, by simp, hS0, by simp, rfl⟩
  | succ n ih =>
    intro tcode w hinv hS hZ hS0 hP
    push_cast at hZ hP
    obtain ⟨w1, hw1, hp1, hinv1, hS1, hZ1, hS01, ht1⟩ :=
      pulse_ticks w 1 true hinv.1 (by norm_num) hS (by omega) hS0 (by omega)
    have hN : (0 : Int) ≤ (if tcode &&& 1 ≠ 0 then 3 else 1) := by split_ifs <;> norm_num
    have hN3 : (if tcode &&& 1 ≠ 0 then 3 else 1 : Int) ≤ 3 := by split_ifs <;> norm_num
    obtain ⟨w2, hw2, hp2, hinv2, hS2, hZ2, hS02, ht2⟩ :=
      pulse_ticks w1 _ false hinv1.1 hN hS1 (by omega) hS01 (by omega)
    obtain ⟨w3, hw3, hinv3, hS3, hZ3, hS03, hp3, ht3⟩ := ih (tcode >>> 1) w2 hinv2 hS2
      (by omega) hS02 (by omega)
    refine ⟨w3, ?_, hinv3, hS3, by push_cast; omega, hS03, ?_, by omega⟩
    · simp only [WriteIrNecSignal.bits, hw1, Option.bind, hw2, hw3]
    · rw [hp3, hp2, hp1, countP_testBit_succ]
      by_cases hbit : tcode &&& 1 ≠ 0
      · have hb0 : tcode.testBit 0 = true := by
          rw [Nat.and_one_is_mod] at hbit
          rw [Nat.testBit_zero]; simp; omega
        rw [if_pos hbit, if_pos hb0]
        push_cast
        ring
      · have hb0 : ¬ (tcode.testBit 0 = true) := by
          rw [Nat.and_one_is_mod] at hbit
          rw [Nat.testBit_zero]; simp; omega
        rw [if_neg hbit, if_neg hb0]
        push_cast
        ring

/-- C21 fails on the code: on an open device with a wait pending, `StartCmdReplyWaiting` returns
`false` after one `EnterCriticalSection(&WaitCmdCs)` and no `LeaveCriticalSection`: it returns
holding the critical section.  On every other path of `StartCmdReplyWaiting`, and on every path
of `WaitCmdReply` (the calls of the receive thread during the wait included),
`CancelCmdReplyWaiting` and `ProcessRecvPacket`, as many leave as enter operations are
performed. -/
theorem StartCmdReplyWaiting_pending_holds_lock (dev : TiqiaaUsbIr) (cmdType cmdId timeout : Nat)
    (pack : List Nat) (size : Int) (during after : List (List Nat × Int)) :
    (dev.IsOpen = true → dev.IsWaitingCmdReply = true →
      (dev.StartCmdReplyWaiting cmdType cmdId).1 = false ∧
      (dev.StartCmdReplyWaiting cmdType cmdId).2.WaitCmdCsEnter = dev.WaitCmdCsEnter + 1 ∧
      (dev.StartCmdReplyWaiting cmdType cmdId).2.WaitCmdCsLeave = dev.WaitCmdCsLeave) ∧
    (¬ (dev.IsOpen = true ∧ dev.IsWaitingCmdReply = true) →
      (dev.StartCmdReplyWaiting cmdType cmdId).2.WaitCmdCsEnter + dev.WaitCmdCsLeave
        = (dev.StartCmdReplyWaiting cmdType cmdId).2.WaitCmdCsLeave + dev.WaitCmdCsEnter) ∧
    ((dev.WaitCmdReply timeout during after).2.WaitCmdCsEnter + dev.WaitCmdCsLeave
      = (dev.WaitCmdReply timeout during after).2.WaitCmdCsLeave + dev.WaitCmdCsEnter) ∧
    (dev.CancelCmdReplyWaiting.2.WaitCmdCsEnter + dev.WaitCmdCsLeave
      = dev.CancelCmdReplyWaiting.2.WaitCmdCsLeave + dev.WaitCmdCsEnter) ∧
    ((dev.ProcessRecvPacket pack size).WaitCmdCsEnter + dev.WaitCmdCsLeave
      = (dev.ProcessRecvPacket pack size).WaitCmdCsLeave + dev.WaitCmdCsEnter) := by
  refine ⟨?_, ?_, ?_, ?_, ProcessRecvPacket_lock dev pack size⟩
  · intro hopen hw
    simp [StartCmdReplyWaiting, hopen, hw, EnterCriticalSection]
  · intro h
    cases ho : dev.IsOpen <;> cases hw : dev.IsWaitingCmdReply <;>
      simp [StartCmdReplyWaiting, ho, hw, EnterCriticalSection, LeaveCriticalSection] <;>
      first
        | omega
        | exact absurd ⟨ho, hw⟩ h
  · cases ho : dev.IsOpen
    · simp [WaitCmdReply, ho]; omega
    · cases hw : dev.IsWaitingCmdReply
      · simp [WaitCmdReply, ho, hw]; omega
      · have h1 := dispatchAll_lock during dev
        have h2 := dispatchAll_lock after
          { dev.dispatchAll during with WaitCmdEvent := false }
        simp only [WaitCmdReply, ho, hw, WaitForSingleObject, EnterCriticalSection,
          LeaveCriticalSection, Bool.not_true, Bool.false_eq_true, if_false]
        simp only at h2
        split_ifs <;> simp only [] <;> omega
  · cases ho : dev.IsOpen <;> cases hw : dev.IsWaitingCmdReply <;>
      simp [CancelCmdReplyWaiting, ho, hw, EnterCriticalSection, LeaveCriticalSection] <;> omega

theorem StartCmdReplyWaiting_pending_holds_lock_witness :
    (sampleDevice.StartCmdReplyWaiting CmdVersion 1).2.IsOpen = true ∧
    (sampleDevice.StartCmdReplyWaiting CmdVersion 1).2.IsWaitingCmdReply = true ∧
    (sampleDevice.StartCmdReplyWaiting CmdVersion 1).2.WaitCmdCsEnter = 1 ∧
    (sampleDevice.StartCmdReplyWaiting CmdVersion 1).2.WaitCmdCsLeave = 1 ∧
    ((sampleDevice.StartCmdReplyWaiting CmdVersion 1).2.StartCmdReplyWaiting CmdSendMode 2).1
      = false ∧
    ((sampleDevice.StartCmdReplyWaiting CmdVersion 1).2.StartCmdReplyWaiting
      CmdSendMode 2).2.WaitCmdCsEnter
      = (sampleDevice.StartCmdReplyWaiting CmdVersion 1).2.WaitCmdCsEnter + 1 ∧
    ((sampleDevice.StartCmdReplyWaiting CmdVersion 1).2.StartCmdReplyWaiting
      CmdSendMode 2).2.WaitCmdCsLeave
      = (sampleDevice.StartCmdReplyWaiting CmdVersion 1).2.WaitCmdCsLeave :=
  ⟨rfl, rfl, rfl, rfl,
    (StartCmdReplyWaiting_pending_holds_lock (sampleDevice.StartCmdReplyWaiting CmdVersion 1).2
      CmdSendMode 2 0 [] 0 [] []).1 rfl rfl⟩

/-- C22 (constant frame duration).  For every code and every output buffer, the tick counts (low
7 bits) of the 93 bytes output by `WriteIrNecSignal` sum to `6785 = floor(193 * 1125 / 32)`
ticks; the frame assembled from the code has 16 one-bits and 16 zero-bits among its 32 bits,
so the pulse units requested are `16 + 8 + 32 + (16 * 3 + 16 * 1) + 1 + 72 = 193` whatever the
code. -/
theorem WriteIrNecSignal_duration (IrCode : Nat) (OutBuf : Int → Nat) :
    ∃ out, WriteIrNecSignal IrCode OutBuf = some (93, out) ∧
      tickSum out 93 = 6785 ∧ (6785 : Int) = 193 * 1125 / 32 ∧
      (List.range 32).countP (fun i => (tcodeOf IrCode).testBit i) = 16 ∧
      (List.range 32).countP (fun i => !(tcodeOf IrCode).testBit i) = 16 ∧
      (16 + 8 + 32 + (16 * 3 + 16 * 1) + 1 + 72 : Int) = 193 := by
  obtain ⟨out, hout, -⟩ := WriteIrNecSignal_spec IrCode OutBuf
  have hz : tickSum OutBuf 0 = 0 := rfl
  have hones := tcodeOf_ones IrCode
  obtain ⟨w1, hw1, hp1, hinv1, hS1, hZ1, hS01, ht1⟩ :=
    pulse_ticks { Buf := OutBuf, Size := 0, PulseTime := 0, SenderTime := 0 } 16 true
      (by norm_num) (by norm_num) (by norm_num) (by norm_num) (by norm_num) (by norm_num)
  simp only at hp1 ht1 hZ1
  obtain ⟨w2, hw2, hp2, hinv2, hS2, hZ2, hS02, ht2⟩ :=
    pulse_ticks w1 8 false hinv1.1 (by norm_num) hS1 (by omega) hS01 (by omega)
  obtain ⟨w3, hw3, hinv3, hS3, hZ3, hS03, hp3, ht3⟩ :=
    bits_ticks 32 (tcodeOf IrCode) w2 hinv2 hS2 (by omega) hS02 (by omega)
  rw [hones] at hp3
  obtain ⟨w4, hw4, hp4, hinv4, hS4, hZ4, hS04, ht4⟩ :=
    pulse_ticks w3 1 true hinv3.1 (by norm_num) hS3 (by omega) hS03 (by omega)
  obtain ⟨w5, hw5, hp5, hinv5, hS5, hZ5, hS05, ht5⟩ :=
    pulse_ticks w4 72 false hinv4.1 (by norm_num) hS4 (by omega) hS04 (by omega)
  have hres : WriteIrNecSignal IrCode OutBuf = some (w5.Size, w5.Buf) := by
    simp only [WriteIrNecSignal, hw1, Option.bind, hw2, hw3, hw4, hw5]
  rw [hout] at hres
  simp only [Option.some.injEq, Prod.mk.injEq] at hres
  obtain ⟨hsz, hbuf⟩ := hres
  have hzeros : (List.range 32).countP (fun i => !(tcodeOf IrCode).testBit i) = 16 := by
    have hl := List.length_eq_countP_add_countP (fun i => (tcodeOf IrCode).testBit i)
      (List.range 32)
    rw [List.length_range, hones] at hl
    have e : (fun i => !(tcodeOf IrCode).testBit i)
        = fun i => decide ¬ ((tcodeOf IrCode).testBit i = true) := by
      funext i; simp
    rw [e]
    omega
  refine ⟨out, hout, ?_, by norm_num, hones, hzeros, by norm_num⟩
  have hr := hinv5.1
  have hr' := hinv5.2
  rw [hbuf, hsz]
  rw [hz] at ht1
  omega

end TiqiaaUsb
